import Mathlib

/-!
Verification development for the installed-state database and package
installation engine of an early Alpine Package Keeper (apk-tools), as found in
`src/database.c` together with the list/array helpers of `src/apk_defines.h`.

The development shallowly embeds the data model (package names, content-
addressed packages, interned directories with reference counts, owned files
threaded through both their directory and their owning package) and the
operations the specification describes: the directory table
(`apk_db_dir_get`, `apk_db_dir_ref`, `apk_db_dir_unref`), file ownership
(`apk_db_file_new`, `apk_db_file_set_owner`, `apk_db_file_get`), package
registration (`apk_db_pkg_add`), the FDB reader/writer (`apk_db_index_read`,
`apk_db_write_fdb`), the install engine (`apk_db_install_archive_entry`,
`apk_db_purge_pkg`, `apk_db_install_pkg`) and `apk_db_add_repository`.

Embedding conventions:
* C integers are embedded as `Nat`/`Int`; none of the verified paths can
  overflow 32-bit arithmetic (counters move by 1, ids are small).
* The intrusive `hlist`s of `apk_defines.h` are embedded as `List Nat` index
  lists over a file heap `List DbFile`; all call sites of the source hold
  advancing tail pointers (`hlist_tail_ptr` / `&node->next`), so insertion
  "after the held tail pointer" is embedded as appending at the end.
* Hash tables are embedded as association lists in insertion order; the source
  checks for an existing entry before every insert, so keys stay unique and
  `List.find?` is an exact model of `apk_hash_get`.
* Filesystem effects (mkdir/rmdir/chown/unlink/extract) either are recorded as
  explicit actions (`FsAct`) where a claim mentions them or are elided with a
  note; the in-memory state never reads them back.
* Collaborators that live in files of this repository not present under `src/`
  (package-info parsing and formatting, script running, archive iteration,
  checksum and hexdump primitives, `apk_blob_rsplit`) are modelled from the
  specification; each such definition carries a doc comment saying so.
-/

/-! ## Path utilities -/

/-- Length of a string as the length of its character list (the byte length of
the C string; all paths in the claims are ASCII so char count equals byte
count). Used as the termination measure for the parent-chain recursions. -/
def strLen (s : String) : Nat := s.toList.length

/-- One trailing slash is stripped from a directory name before interning:
`apk_db_dir_get` does `if (name.len && name.ptr[name.len-1] == '/') name.len--`. -/
def stripSlash (s : String) : String :=
  if s ≠ "" ∧ s.toList.getLast? = some '/' then String.mk s.toList.dropLast else s

/-- Modelled from the spec: `apk_blob_rsplit(name, '/', &bparent, NULL)`
(blob.c, not under src) splits at the last '/' and yields the part before it;
it fails when the name contains no '/'. -/
def rsplitParent (l : List Char) : Option (List Char) :=
  match l.reverse.dropWhile (fun c => c ≠ '/') with
  | [] => none
  | _ :: rest => some rest.reverse

theorem length_dropWhile_le {α : Type} (p : α → Bool) (l : List α) :
    (l.dropWhile p).length ≤ l.length := by
  induction l with
  | nil => simp [List.dropWhile]
  | cons a l ih =>
    by_cases h : p a = true
    · simp [List.dropWhile, h]; omega
    · simp [List.dropWhile, h]

theorem rsplitParent_length_lt {l : List Char} {p : List Char}
    (h : rsplitParent l = some p) : p.length < l.length := by
  unfold rsplitParent at h
  rcases hd : l.reverse.dropWhile (fun c => c ≠ '/') with _ | ⟨c, rest⟩
  · rw [hd] at h; cases h
  · rw [hd] at h
    have hle : (l.reverse.dropWhile (fun c => c ≠ '/')).length ≤ l.reverse.length :=
      length_dropWhile_le _ _
    rw [hd] at hle
    simp only [List.length_cons, List.length_reverse] at hle
    cases h
    simp only [List.length_reverse]
    omega

theorem strLen_mk (l : List Char) : strLen (String.mk l) = l.length := rfl

theorem strLen_stripSlash_le (s : String) : strLen (stripSlash s) ≤ strLen s := by
  unfold stripSlash
  by_cases h : s ≠ "" ∧ s.toList.getLast? = some '/'
  · rw [if_pos h, strLen_mk]
    unfold strLen
    rw [List.length_dropLast]
    exact Nat.sub_le _ _
  · rw [if_neg h]

theorem strLen_pos_of_ne_empty {s : String} (h : s ≠ "") : 0 < strLen s := by
  unfold strLen
  rcases hl : s.toList with _ | ⟨c, rest⟩
  · exfalso
    apply h
    have : s.data = [] := hl
    cases s
    simp at this
    simp [this]
  · simp

/-- `strncmp(s, pre, strlen(pre)) == 0`: `s` starts with `pre` (char-list
based, mirroring the byte-wise C comparison). -/
def strPfx (pre s : String) : Bool := pre.toList.isPrefixOf s.toList

/-- `s[0]` of a C string (`none` for the empty string). -/
def strHead? (s : String) : Option Char := s.toList.head?

/-- `&s[k]`: the C string starting `k` chars in. -/
def strTail (s : String) (k : Nat) : String := String.mk (s.toList.drop k)

/-- The parent directory that `apk_db_dir_get` assigns to an interned name:
the root (empty name) has none; otherwise the part before the last '/' (the
root when there is no '/'), normalized the way the recursive `apk_db_dir_get`
call interns it (one trailing slash stripped).  In the source the parent is a
pointer set once at interning time; since it is a deterministic function of
the stored name, the recursions of `apk_db_dir_ref`/`apk_db_dir_unref` over
the parent pointer are embedded as recursion over `dirParent`. -/
def dirParent (n : String) : Option String :=
  if n = "" then none
  else
    match rsplitParent n.toList with
    | some p => some (stripSlash (String.mk p))
    | none => some ""

theorem dirParent_length_lt {n p : String} (h : dirParent n = some p) :
    strLen p < strLen n := by
  unfold dirParent at h
  by_cases hn : n = ""
  · simp [hn] at h
  · simp only [hn, if_neg, ite_false] at h
    rcases hr : rsplitParent n.toList with _ | q
    · rw [hr] at h
      cases h
      exact strLen_pos_of_ne_empty hn
    · rw [hr] at h
      cases h
      calc strLen (stripSlash (String.mk q)) ≤ strLen (String.mk q) :=
            strLen_stripSlash_le _
        _ = q.length := strLen_mk q
        _ < n.toList.length := rsplitParent_length_lt hr
        _ = strLen n := rfl

/-! ## Core data model

`struct apk_database` of apk_database.h (declarations only; the header is not
under src/, the layout below is the part `database.c` uses):
`available.names` and `available.packages` hashes, `installed.dirs` hash,
`installed.packages` list, `installed.stats` counters, `protected_paths`
string array, `repos` array with `num_repos`, and `pkg_id`. -/

/-- Content checksum (`csum_t`, an md5 digest).  Embedded as an abstract
value; `csum_valid` (comparison against the global `bad_checksum`) is embedded
by storing file checksums as `Option Csum` with `none` for the not-valid
digest a `calloc`ed file record starts with. -/
abbrev Csum := Nat

/-- The fields of `struct apk_package` that the FDB round trip carries.
Modelled from the spec: the standard index fields (name, version, description,
url, license, arch, sizes, dependencies, content checksum) are parsed and
formatted by `apk_pkg_add_info` / `apk_pkg_format_index_entry` in
apk_package.c, which is not under src/; the three fields below stand for that
block (further fields ride along identically). -/
structure PkgInfo where
  name : String
  version : String
  csum : Csum
deriving DecidableEq, Repr

/-- What a `struct apk_db_file`'s `owner` pointer dereferences to: the owning
package's identity (checksum) and its interned name. -/
structure PkgRef where
  csum : Csum
  name : String
deriving DecidableEq, Repr

/-- `struct apk_db_file`: an owned filesystem entry.  The two intrusive list
hooks (`dir_files_list`, `pkg_files_list`) are embedded by keeping files in a
heap (`Db.files`) and threading index lists through the directory and the
owning package. -/
structure DbFile where
  dirname : String
  filename : String
  csum : Option Csum := none
  owner : Option PkgRef := none
deriving DecidableEq, Repr

/-- `struct apk_db_dir`.  `flags` holds the single `APK_DBDIRF_PROTECTED` bit,
embedded as `protFlag`.  `refs` is a C `int` and may go negative on unbalanced
unref, hence `Int`. -/
structure DbDir where
  dirname : String
  uid : Nat := 0
  gid : Nat := 0
  mode : Nat := 0
  protFlag : Bool := false
  refs : Int := 0
  files : List Nat := []
deriving DecidableEq, Repr

/-- Package state (`APK_STATE_*`, apk_package.h not under src/). -/
inductive PkgState where
  | available
  | install
deriving DecidableEq, Repr

/-- A registered `struct apk_package` (member of `available.packages`). -/
structure DbPkg where
  info : PkgInfo
  id : Nat := 0
  repos : Nat := 0
  state : PkgState := .available
  owned : List Nat := []
deriving DecidableEq, Repr

/-- `struct apk_database`. -/
structure Db where
  files : List DbFile := []
  dirs : List DbDir := []
  packages : List DbPkg := []
  names : List (String × List Csum) := []
  installed : List Csum := []
  protected_paths : List String := []
  statsPackages : Int := 0
  statsDirs : Int := 0
  statsFiles : Int := 0
  pkg_id : Nat := 0
  num_repos : Nat := 0
  repos : List String := []
deriving DecidableEq, Repr

def emptyDb : Db := {}

/-- `apk_hash_get(&db->installed.dirs, name)`. -/
def findDir (dirs : List DbDir) (n : String) : Option DbDir :=
  dirs.find? (fun d => d.dirname == n)

def lookupDir (db : Db) (n : String) : Option DbDir := findDir db.dirs n

/-- Update the (unique) directory record with the given name. -/
def updateDirs (dirs : List DbDir) (n : String) (f : DbDir → DbDir) : List DbDir :=
  dirs.map (fun d => if d.dirname == n then f d else d)

def updateDir (db : Db) (n : String) (f : DbDir → DbDir) : Db :=
  { db with dirs := updateDirs db.dirs n f }

/-- `apk_hash_get(&db->available.packages, csum)`. -/
def findPkg (pkgs : List DbPkg) (c : Csum) : Option DbPkg :=
  pkgs.find? (fun p => p.info.csum == c)

def lookupPkg (db : Db) (c : Csum) : Option DbPkg := findPkg db.packages c

def updatePkgs (pkgs : List DbPkg) (c : Csum) (f : DbPkg → DbPkg) : List DbPkg :=
  pkgs.map (fun p => if p.info.csum == c then f p else p)

/-! ## Directory table (component D) -/

/-- One iteration of the protected-path rule loop of `apk_db_dir_get`
(lines 166-172): a rule starting with '-' whose tail equals the stored
dirname clears `PROTECTED`; otherwise a rule equal (verbatim) to the dirname
sets it; otherwise the flag is untouched. -/
def protStep (dirname : String) (fl : Bool) (r : String) : Bool :=
  if strHead? r = some '-' ∧ strTail r 1 = dirname then false
  else if r = dirname then true
  else fl

/-- The protected-path rule loop of `apk_db_dir_get` over the ordered rule
list. -/
def applyProtRules (rules : List String) (dirname : String) (f0 : Bool) : Bool :=
  rules.foldl (protStep dirname) f0


/-! ### Directory interning

`apk_db_dir_get`, structurally recursive on explicit fuel (the parent of
an interned name is strictly shorter — `dirParent_length_lt` — so the
`strLen name + 1` supplied by the wrapper below always suffices; lemmas carry
`strLen n < fuel`): strip one trailing '/', return the interned directory if
present; otherwise insert a fresh record (the source inserts into the hash
before resolving the parent), resolve the parent by last-'/' split (the root
for a name with no '/', no parent for the root itself), inherit the parent's
flags, and apply the protected-path rules.  Returns the updated database and
the stored dirname.  `dirGetMiss` is the not-yet-interned branch, factored
out with the recursive call abstracted. -/

/-- The parent-resolution step of the not-yet-interned branch: nothing for
the root, otherwise the recursive `apk_db_dir_get` on the part before the
last '/' (the root when there is no '/'), yielding the parent's interned
name. -/
def dirGetResolve (recur : Db → String → Db × String) (db1 : Db) (n : String) :
    Db × Option String :=
  if n = "" then (db1, none)
  else
    match rsplitParent n.toList with
    | some p => ((recur db1 (String.mk p)).1, some (recur db1 (String.mk p)).2)
    | none => ((recur db1 "").1, some (recur db1 "").2)

/-- `if (dir->parent != NULL) dir->flags = parent->flags;` — the flag value
inherited from the resolved parent (zero-initialized when there is none). -/
def inheritedFlag (resolved : Db × Option String) : Bool :=
  match resolved.2 with
  | some pn =>
    match findDir resolved.1.dirs pn with
    | some pd => pd.protFlag
    | none => false
  | none => false

def dirGetMiss (recur : Db → String → Db × String) (db : Db) (n : String) : Db × String :=
  let db1 : Db := { db with dirs := db.dirs ++ [{ dirname := n }] }
  let resolved := dirGetResolve recur db1 n
  (updateDir resolved.1 n (fun d =>
    { d with protFlag := applyProtRules db.protected_paths n (inheritedFlag resolved) }), n)

def dirGetFuel : Nat → Db → String → Db × String
  | 0, db, name => (db, stripSlash name)
  | fuel + 1, db, name =>
    match findDir db.dirs (stripSlash name) with
    | some _ => (db, stripSlash name)
    | none => dirGetMiss (dirGetFuel fuel) db (stripSlash name)

def apk_db_dir_get (db : Db) (name : String) : Db × String :=
  dirGetFuel (strLen name + 1) db name

/-! ### Directory reference counting

`apk_db_dir_ref` (fuel as above): on the 0 → 1 edge recursively ref the
parent and bump the `dirs` counter (and on disk, `mkdir`+`chown` when
`create_dir` and the directory has a recorded mode — filesystem side effects
are elided); then `refs++`.  The recursion follows the parent pointer, which
`apk_db_dir_get` always sets to `dirParent` of the stored name.  The source
is only called with an interned directory; a missing record leaves the
database unchanged. -/

/-- The recursive parent step of `apk_db_dir_ref`/`apk_db_dir_unref`: apply
the recursion to the parent when there is one. -/
def toParentDb (recur : Db → String → Db) (db : Db) (n : String) : Db :=
  match dirParent n with
  | some p => recur db p
  | none => db

/-- `db->installed.stats.dirs++`. -/
def bumpDirsStat (db : Db) : Db := { db with statsDirs := db.statsDirs + 1 }

/-- `db->installed.stats.dirs--`. -/
def decDirsStat (db : Db) : Db := { db with statsDirs := db.statsDirs - 1 }

/-- `dir->refs++`. -/
def bumpRefs (db : Db) (n : String) : Db :=
  updateDir db n (fun d0 => { d0 with refs := d0.refs + 1 })

/-- `dir->refs--`. -/
def decRefs (db : Db) (n : String) : Db :=
  updateDir db n (fun d0 => { d0 with refs := d0.refs - 1 })

def dirRefFuel : Nat → Db → String → Bool → Db
  | 0, db, _, _ => db
  | fuel + 1, db, n, create_dir =>
    match findDir db.dirs n with
    | none => db
    | some d =>
      if d.refs = 0 then
        bumpRefs (bumpDirsStat (toParentDb (fun db0 p => dirRefFuel fuel db0 p create_dir) db n)) n
      else
        bumpRefs db n

def apk_db_dir_ref (db : Db) (n : String) (create_dir : Bool) : Db :=
  dirRefFuel (strLen n + 1) db n create_dir

/-- `apk_db_dir_unref` (fuel as above): `refs--`; when the count reaches zero
(or below), decrement the `dirs` counter, remove the directory on disk
(elided) and unref the parent. -/
def dirUnrefFuel : Nat → Db → String → Db
  | 0, db, _ => db
  | fuel + 1, db, n =>
    match findDir db.dirs n with
    | none => db
    | some d =>
      if d.refs - 1 > 0 then decRefs db n
      else toParentDb (dirUnrefFuel fuel) (decDirsStat (decRefs db n)) n

def apk_db_dir_unref (db : Db) (n : String) : Db :=
  dirUnrefFuel (strLen n + 1) db n
/-! ## Files and ownership -/

/-- `apk_db_file_new`: allocate a zeroed file record for the given directory
and hook it into the directory's file list at the held tail pointer (all call
sites hold an advancing tail pointer, so this is an append).  Returns the
updated database and the index of the new record in the file heap. -/
def apk_db_file_new (db : Db) (dirname : String) (filename : String) : Db × Nat :=
  let idx := db.files.length
  let db1 := { db with files := db.files ++ [{ dirname := dirname, filename := filename }] }
  (updateDir db1 dirname (fun d => { d with files := d.files ++ [idx] }), idx)

/-- `apk_db_file_set_owner`: detach from the previous owner's list if any
(without touching the `files` counter), else count a new installed file; ref
the directory; record the new owner; hook into the new owner's `owned_files`
at the held tail pointer.  The new owner's list is the one the source reaches
through the package pointer; the caller holds the authoritative copy
(`ownerFiles`, returned extended by the file index).  When the old owner is
the same package, the deletion happens on that same threaded list. -/
def apk_db_file_set_owner (db : Db) (idx : Nat) (owner : PkgRef) (create_dir : Bool)
    (ownerFiles : List Nat) : Db × List Nat :=
  match db.files[idx]? with
  | none => (db, ownerFiles)
  | some f =>
    let detached : Db × List Nat :=
      match f.owner with
      | some old =>
        let pkgs1 := updatePkgs db.packages old.csum
          (fun p => { p with owned := p.owned.filter (fun j => j ≠ idx) })
        ({ db with packages := pkgs1 },
         if old.csum = owner.csum then ownerFiles.filter (fun j => j ≠ idx) else ownerFiles)
      | none => ({ db with statsFiles := db.statsFiles + 1 }, ownerFiles)
    let db2 := apk_db_dir_ref detached.1 f.dirname create_dir
    let db3 := { db2 with files := db2.files.set idx { f with owner := some owner } }
    (db3, detached.2 ++ [idx])

/-- `apk_db_file_get`: split the name at the last '/' (a name with no '/'
lives in the root directory), intern the directory, and search the
directory's file list for an existing record with the same basename; create a
fresh record otherwise.  The one-slot `dircache` memo of `install_ctx` only
short-circuits the directory lookup and the tail-pointer refetch; it never
changes which directory or file is found, so it is elided. -/
def apk_db_file_get (db : Db) (name : String) : Db × Nat :=
  let split : String × String :=
    match rsplitParent name.toList with
    | some p => (String.mk p, String.mk (name.toList.drop (p.length + 1)))
    | none => ("", name)
  let bdir := if (rsplitParent name.toList).isSome then split.1 else ""
  let bfile := split.2
  let got := apk_db_dir_get db (if (rsplitParent name.toList).isSome then bdir else "")
  let db1 := got.1
  let dn := got.2
  let existing : Option Nat :=
    match findDir db1.dirs dn with
    | none => none
    | some d => d.files.find? (fun i =>
        match db1.files[i]? with
        | some f => f.filename == bfile
        | none => false)
  match existing with
  | some i => (db1, i)
  | none => apk_db_file_new db1 dn bfile

/-! ## Package registration (apk_db_pkg_add) -/

/-- Append a package checksum to its name's `pkgs` array, interning the name
on first reference (`apk_db_get_name` + `apk_package_array_add`). -/
def nameAddPkg (names : List (String × List Csum)) (n : String) (c : Csum) :
    List (String × List Csum) :=
  if names.any (fun e => e.1 == n) then
    names.map (fun e => if e.1 == n then (e.1, e.2 ++ [c]) else e)
  else
    names ++ [(n, [c])]

/-- `apk_db_pkg_add`: look up by checksum.  If absent, assign
`id = pkg_id++`, insert into `available.packages`, append to the name's
`pkgs` array and return the new instance; if present, OR the repo bits into
the existing instance, free the duplicate and return the preexisting
instance.  The returned `Bool` is `true` exactly when the C result pointer
equals the argument (`idb == pkg`). -/
def apk_db_pkg_add (db : Db) (pkg : DbPkg) : Db × Csum × Bool :=
  match findPkg db.packages pkg.info.csum with
  | none =>
    let pkg1 := { pkg with id := db.pkg_id }
    ({ db with
        pkg_id := db.pkg_id + 1,
        packages := db.packages ++ [pkg1],
        names := nameAddPkg db.names pkg1.info.name pkg1.info.csum },
     pkg.info.csum, true)
  | some idb =>
    let pkgs1 := updatePkgs db.packages pkg.info.csum
      (fun p => { p with repos := p.repos ||| pkg.repos })
    ({ db with packages := pkgs1 }, idb.info.csum, false)

/-- Modelled from the spec: `apk_pkg_set_state` lives in apk_package.c, which
is not under src/.  Per §4.G of the spec, setting `APK_STATE_INSTALL` appends
the package to `installed.packages` and increments the package counter;
setting it back removes it and decrements. -/
def apk_pkg_set_state (db : Db) (c : Csum) (st : PkgState) : Db :=
  match st with
  | .install =>
    { db with
        installed := db.installed ++ [c],
        statsPackages := db.statsPackages + 1,
        packages := updatePkgs db.packages c (fun p => { p with state := .install }) }
  | .available =>
    { db with
        installed := db.installed.filter (fun x => x ≠ c),
        statsPackages := db.statsPackages - 1,
        packages := updatePkgs db.packages c (fun p => { p with state := .available }) }

/-! ## FDB wire format (component E)

The reader and writer of `database.c` work on '\n'-separated lines of the form
`<letter>:<value>`; a line of length < 2 or without ':' in second position
terminates a record.  The buffered line splitting (`apk_blob_splitstr` over a
1024-byte window) and the textual encodings of the payloads are embedded at
line granularity: decimal/octal rendering of `M` payloads (`snprintf`/`sscanf`)
and hex digests of `Z` payloads (`apk_hexdump_format`/`apk_hexdump_parse`,
hex.c not under src/) are faithful inverse pairs on the values the writer
emits, so a line carries its parsed payload. -/

inductive FdbLine where
  /-- Modelled from the spec: the block of standard index lines of one
  package, formatted by `apk_pkg_format_index_entry` and consumed
  field-by-field by `apk_pkg_add_info` (apk_package.c, not under src/). -/
  | pkginfo (info : PkgInfo)
  /-- `F:<path>` — open a directory block. -/
  | fdir (dirname : String)
  /-- `M:<uid>:<gid>:<octal mode>` — metadata for the open directory. -/
  | meta (uid gid mode : Nat)
  /-- `R:<basename>` — file entry in the open directory. -/
  | rfile (filename : String)
  /-- `Z:<hex digest>` — checksum of the most recent file entry. -/
  | zsum (c : Csum)
  /-- A record terminator: length < 2 or no ':' in second position. -/
  | blank
  /-- Any other `<letter>:` line (rejected by `apk_pkg_add_info`). -/
  | unknownEntry (c : Char)
deriving DecidableEq, Repr

/-- A package record under construction while reading (`pkg`, its
`owned_files` tail pointer). -/
structure BuildPkg where
  info : Option PkgInfo := none
  owned : List Nat := []
deriving DecidableEq, Repr

/-- Parser state of `apk_db_index_read`: the database, the package being
built, the `dir` opened by the last `F` line (reset when a new package record
starts) and the most recent `R` file (NOT reset between records — the `file`
local of the source persists). -/
structure ReadSt where
  db : Db
  pkg : Option BuildPkg := none
  dir : Option String := none
  lastFile : Option Nat := none
deriving DecidableEq, Repr

/-- `BIT(repo)` for a finalized index record: `pkg->repos |= BIT(repo)` when
reading a repository index, nothing when reading the installed database. -/
def repoBits (repo : Int) : Nat :=
  if repo = -1 then 0 else 2 ^ repo.toNat

/-- Record-terminator handling of `apk_db_index_read` (lines 283-298): when
loading the installed database set the state to `INSTALL`, else OR the repo
bit in; then register through `apk_db_pkg_add`; a preexisting instance is
fatal for the installed database.  A record that never received a name would
crash the source on `pkg->name->pkgs` (null dereference inside
`apk_db_pkg_add`); it is embedded as an error. -/
def finalizePkg (db : Db) (bp : BuildPkg) (repo : Int) : Db × Option String :=
  match bp.info with
  | none => (db, some "null package name")
  | some i =>
    let db1 := if repo = -1 then apk_pkg_set_state db i.csum .install else db
    let pkgRec : DbPkg :=
      { info := i,
        repos := repoBits repo,
        state := if repo = -1 then .install else .available,
        owned := bp.owned }
    let added := apk_db_pkg_add db1 pkgRec
    if added.2.2 = false ∧ repo = -1 then
      (added.1, some "Installed database load failed")
    else
      (added.1, none)

/-- One line of `apk_db_index_read`'s loop.  A letter line with no package in
progress first creates a fresh one (resetting `dir` but not `file`); standard
index lines go to `apk_pkg_add_info`; the FDB-only letters are rejected when
reading a repository index and otherwise dispatch on `F`/`M`/`R`/`Z`. -/
def readLine (st : ReadSt) (l : FdbLine) (repo : Int) : ReadSt × Option String :=
  match l with
  | .blank =>
    match st.pkg with
    | none => (st, none)
    | some bp =>
      let fin := finalizePkg st.db bp repo
      ({ st with db := fin.1, pkg := none }, fin.2)
  | _ =>
    let createSt : ReadSt :=
      match st.pkg with
      | some _ => st
      | none => { st with pkg := some {}, dir := none }
    match createSt.pkg with
    | none => (createSt, some "unreachable")
    | some bp =>
      match l with
      | .pkginfo i =>
        ({ createSt with pkg := some { bp with info := some i } }, none)
      | .unknownEntry _ =>
        if repo ≠ -1 then (createSt, some "Invalid index entry")
        else (createSt, some "FDB entry unsupported")
      | .fdir n =>
        if repo ≠ -1 then (createSt, some "Invalid index entry")
        else if bp.info = none then
          (createSt, some "FDB directory entry before package entry")
        else
          let got := apk_db_dir_get createSt.db n
          ({ createSt with db := got.1, dir := some got.2 }, none)
      | .meta u g m =>
        if repo ≠ -1 then (createSt, some "Invalid index entry")
        else
          match createSt.dir with
          | none => (createSt, some "FDB directory metadata entry before directory entry")
          | some dn =>
            let db1 := updateDir createSt.db dn (fun d => { d with uid := u, gid := g, mode := m })
            ({ createSt with db := db1 }, none)
      | .rfile fn =>
        if repo ≠ -1 then (createSt, some "Invalid index entry")
        else
          match createSt.dir with
          | none => (createSt, some "FDB file entry before directory entry")
          | some dn =>
            match bp.info with
            | none => (createSt, some "null package name")
            | some i =>
              let made := apk_db_file_new createSt.db dn fn
              let owned := apk_db_file_set_owner made.1 made.2
                  { csum := i.csum, name := i.name } false bp.owned
              ({ createSt with
                  db := owned.1,
                  pkg := some { bp with owned := owned.2 },
                  lastFile := some made.2 }, none)
      | .zsum c =>
        if repo ≠ -1 then (createSt, some "Invalid index entry")
        else
          match createSt.lastFile with
          | none => (createSt, some "FDB checksum entry before file entry")
          | some i =>
            match createSt.db.files[i]? with
            | none => (createSt, some "FDB checksum entry before file entry")
            | some f =>
              ({ createSt with db :=
                  { createSt.db with files := createSt.db.files.set i { f with csum := some c } } },
               none)
      | .blank => (createSt, some "unreachable")

/-- The reader's line loop: stop at the first error, leaving the database in
its partially-mutated state (the source `return -1`s mid-stream). -/
def readFold (st : ReadSt) (lines : List FdbLine) (repo : Int) : ReadSt × Option String :=
  match lines with
  | [] => (st, none)
  | l :: rest =>
    let r := readLine st l repo
    match r.2 with
    | some e => (r.1, some e)
    | none => readFold r.1 rest repo

/-- `apk_db_index_read`: run the line loop from a state with no package in
progress.  A package left unfinalized at end of stream is dropped (the source
leaks it and returns 0). -/
def apk_db_index_read (db : Db) (lines : List FdbLine) (repo : Int) : Db × Option String :=
  let r := readFold { db := db } lines repo
  (r.1.db, r.2)

/-- The C return value of `apk_db_index_read`: -1 on any reported error. -/
def apk_db_index_read_ret (db : Db) (lines : List FdbLine) (repo : Int) : Int :=
  if (apk_db_index_read db lines repo).2 = none then 0 else -1

/-! ## FDB writer -/

/-- The per-file emission loop of `apk_db_write_fdb` (lines 387-414): skip
ownerless records; emit `F`/`M` whenever the observed directory changes; emit
`R`; emit `Z` when the stored checksum is valid. -/
def writeFileLines (db : Db) (idxs : List Nat) (cur : Option String) : List FdbLine :=
  match idxs with
  | [] => []
  | i :: rest =>
    match db.files[i]? with
    | none => writeFileLines db rest cur
    | some f =>
      if f.owner = none then writeFileLines db rest cur
      else
        let dirLines : List FdbLine :=
          if cur = some f.dirname then []
          else
            match lookupDir db f.dirname with
            | some d => [.fdir f.dirname, .meta d.uid d.gid d.mode]
            | none => [.fdir f.dirname, .meta 0 0 0]
        let zLines : List FdbLine :=
          match f.csum with
          | some c => [.zsum c]
          | none => []
        dirLines ++ [.rfile f.filename] ++ zLines ++ writeFileLines db rest (some f.dirname)

/-- One package's FDB block (lines 383-415 for a single `pkg`): the standard
index-entry lines, the owned files (grouped by directory as they occur), and
the blank separator line. -/
def writeBlock (db : Db) (c : Csum) : List FdbLine :=
  match lookupPkg db c with
  | none => []
  | some p => FdbLine.pkginfo p.info :: (writeFileLines db p.owned none ++ [.blank])

/-- `apk_db_write_fdb`: emit each package of `installed.packages` in order. -/
def apk_db_write_fdb (db : Db) : List FdbLine :=
  db.installed.foldr (fun c acc => writeBlock db c ++ acc) []

/-! ## Install engine (component G) -/

/-- Script kinds (`APK_SCRIPT_*`; apk_package.h is not under src/). -/
inductive ScriptType where
  | preInstall
  | postInstall
  | preUpgrade
  | postUpgrade
  | preDeinstall
  | postDeinstall
  | generic
  | invalid
deriving DecidableEq, Repr

/-- Modelled from the spec: `apk_script_type` (apk_package.c, not under src/)
maps a script basename to a kind, unrecognized names to `invalid`.  The exact
name table is not in src/; any fixed table serves, none of the claims depend
on the concrete strings. -/
def apk_script_type (s : String) : ScriptType :=
  if s = "pre-install" then .preInstall
  else if s = "post-install" then .postInstall
  else if s = "pre-upgrade" then .preUpgrade
  else if s = "post-upgrade" then .postUpgrade
  else if s = "pre-deinstall" then .preDeinstall
  else if s = "post-deinstall" then .postDeinstall
  else .invalid

/-- The part of `struct apk_file_info` that `apk_db_install_archive_entry`
consumes for one archive entry. -/
structure AeEntry where
  name : String
  isDir : Bool := false
  mode : Nat := 0
  uid : Nat := 0
  gid : Nat := 0
  size : Nat := 0
  csum : Csum := 0
deriving DecidableEq, Repr

/-- External collaborators of the install engine, as oracles.  Modelled from
the spec: `apk_pkg_run_script` (apk_package.c) returns the script's exit code;
`apk_file_get_info` (file utilities, not under src/) stats a path and computes
its on-disk checksum, failing (nonzero) when the file does not exist. -/
structure InstallEnv where
  runScript : Csum → ScriptType → Int
  diskInfo : String → Option Csum

/-- Filesystem mutations the engine performs, recorded in order.
`extract`'s target `none` is the real path (the source passes NULL);
`extractAlt` is the protected-file diversion, whose directory component is
taken from the function-local `dir` variable of
`apk_db_install_archive_entry` — `none` when that local was never assigned
in the current call (an uninitialized read in the source). -/
inductive FsAct where
  | extract (entryName : String) (target : Option String)
  | extractAlt (dirVar : Option String) (filename : String)
  | unlink (path : String)
deriving DecidableEq, Repr

/-- Per-install context (`struct install_ctx`): the pre-phase script kind and
the threaded `owned_files` list of the package being installed (the
`file_pkg_node` tail pointer).  The one-slot directory cache is elided (see
`apk_db_file_get`). -/
structure InstallCtx where
  script : ScriptType
  ownedFiles : List Nat := []
deriving DecidableEq, Repr

/-- Classification of an archive entry by name (lines 734-752): APK 2.0
metadata (leading '.', only `.INSTALL` recognized, as GENERIC), APK 1.0
metadata (`var/db/apk/<name>/<version>/<kind>`), anything else installable.
Unrecognized metadata is ignored (`return 0`). -/
inductive EntryClass where
  | ignored
  | script (t : ScriptType)
  | installable
deriving DecidableEq, Repr

def classifyEntry (pkg : PkgInfo) (name : String) : EntryClass :=
  if strHead? name = some '.' then
    if name = ".INSTALL" then .script .generic else .ignored
  else if strPfx "var/db/apk/" name then
    let p1 := strTail name 11
    if ¬ strPfx pkg.name p1 then .ignored
    else
      let p2 := strTail p1 (strLen pkg.name + 1)
      if ¬ strPfx pkg.version p2 then .ignored
      else
        let p3 := strTail p2 (strLen pkg.version + 1)
        match apk_script_type p3 with
        | .invalid => .ignored
        | t => .script t
  else .installable

/-- Result of one `apk_db_install_archive_entry` call. -/
structure EntryOut where
  db : Db
  ctx : InstallCtx
  log : List String := []
  acts : List FsAct := []
  ret : Int := 0
deriving DecidableEq, Repr

/-- `apk_db_install_archive_entry` for one entry.  Scripts are stored on the
package (`apk_pkg_add_script`, elided — no claim reads them back) and the
pre-phase or generic script is run at once; a nonzero exit is an error.  A
directory entry interns the directory and records `mode & 07777`, uid, gid.
A regular file entry looks up or creates the file record, rejects a
conflicting owner (other than busybox), takes ownership, skips `.keep_`
markers, and extracts — to `<dir>/<filename>.apk-new` when the protected-
diversion condition holds, where `dir` is the never-assigned local of this
branch — finally recording the entry's declared checksum. -/
def apk_db_install_archive_entry (db : Db) (ctx : InstallCtx) (pkg : PkgInfo)
    (env : InstallEnv) (ae : AeEntry) : EntryOut :=
  -- the function-local `struct apk_db_dir *dir`, uninitialized at entry
  let dirLocal : Option String := none
  match classifyEntry pkg ae.name with
  | .ignored => { db := db, ctx := ctx }
  | .script t =>
    if t = .generic ∨ t = ctx.script then
      let r := env.runScript pkg.csum ctx.script
      if r ≠ 0 then
        { db := db, ctx := ctx, ret := r,
          log := [pkg.name ++ "-" ++ pkg.version ++
                  ": Failed to execute pre-install/upgrade script"] }
      else
        { db := db, ctx := ctx }
    else
      { db := db, ctx := ctx }
  | .installable =>
    if ¬ ae.isDir then
      let got := apk_db_file_get db ae.name
      let db1 := got.1
      let idx := got.2
      match db1.files[idx]? with
      | none => { db := db1, ctx := ctx, ret := -1 }
      | some f =>
        let conflict : Bool :=
          match f.owner with
          | some o => o.name ≠ pkg.name ∧ o.name ≠ "busybox"
          | none => false
        if conflict then
          let ownerName :=
            match f.owner with
            | some o => o.name
            | none => ""
          { db := db1, ctx := ctx, ret := -1,
            log := [pkg.name ++ ": Trying to overwrite " ++ ae.name ++
                    " owned by " ++ ownerName ++ "."] }
        else
          let so := apk_db_file_set_owner db1 idx { csum := pkg.csum, name := pkg.name }
              true ctx.ownedFiles
          let db2 := so.1
          let ctx2 := { ctx with ownedFiles := so.2 }
          if strPfx ".keep_" f.filename then
            { db := db2, ctx := ctx2 }
          else
            let diverted : Bool :=
              match lookupDir db2 f.dirname with
              | some d => d.protFlag && f.csum.isSome &&
                  (match env.diskInfo ae.name with
                   | some onDisk => f.csum != some onDisk
                   | none => false)
              | none => false
            let act : FsAct :=
              if diverted then .extractAlt dirLocal f.filename
              else .extract ae.name none
            let newRec : DbFile :=
              { f with owner := some { csum := pkg.csum, name := pkg.name },
                       csum := some ae.csum }
            let db3 := { db2 with files := db2.files.set idx newRec }
            { db := db3, ctx := ctx2, acts := [act] }
    else
      let stripped := stripSlash ae.name
      let got := apk_db_dir_get db stripped
      let db1 := updateDir got.1 got.2
          (fun d => { d with mode := ae.mode % 4096, uid := ae.uid, gid := ae.gid })
      { db := db1, ctx := ctx }

/-- Prepend one successful entry's log and actions to the remainder's. -/
def parseStep (out outRest : EntryOut) : EntryOut :=
  { outRest with log := out.log ++ outRest.log, acts := out.acts ++ outRest.acts }

/-- Modelled from the spec: `apk_parse_tar_gz` (archive.c, not under src/)
iterates the archive entries, invoking the entry callback, and fails on the
first callback error (spec §4.G step 6: on iterator error, close the stream
and return failure). -/
def apk_parse_tar_gz (db : Db) (ctx : InstallCtx) (pkg : PkgInfo) (env : InstallEnv)
    (entries : List AeEntry) : EntryOut :=
  match entries with
  | [] => { db := db, ctx := ctx }
  | ae :: rest =>
    let out := apk_db_install_archive_entry db ctx pkg env ae
    if out.ret ≠ 0 then out
    else parseStep out (apk_parse_tar_gz out.db out.ctx pkg env rest)

/-- One iteration of the `hlist_for_each_entry_safe` loop of
`apk_db_purge_pkg` (lines 825-835): null the owner, unlink
`<dir>/<filename>`, unref the directory and decrement the `files`
counter. -/
def purgeStep (acc : Db × List FsAct) (idx : Nat) : Db × List FsAct :=
  match acc.1.files[idx]? with
  | none => acc
  | some f =>
    let db1 := { acc.1 with files := acc.1.files.set idx { f with owner := none } }
    let db2 := apk_db_dir_unref db1 f.dirname
    let db3 := { db2 with statsFiles := db2.statsFiles - 1 }
    (db3, acc.2 ++ [.unlink (f.dirname ++ "/" ++ f.filename)])

/-- `apk_db_purge_pkg` (lines 819-839): run `purgeStep` over the package's
owned files, unhook them all from the package list and finally leave the
installed state (`apk_pkg_set_state(db, pkg, APK_STATE_NO_INSTALL)`). -/
def apk_db_purge_pkg (db : Db) (c : Csum) : Db × List FsAct :=
  match lookupPkg db c with
  | none => (db, [])
  | some pkg =>
    let step := pkg.owned.foldl purgeStep (db, [])
    let pkgs1 := updatePkgs step.1.packages c (fun p => { p with owned := [] })
    let db4 := { step.1 with packages := pkgs1 }
    (apk_pkg_set_state db4 c .available, step.2)

/-- The archive byte stream for the new package: its entries and the checksum
the stream computes over itself (`bs->close(bs, csum, NULL)`). -/
structure ArchiveStream where
  entries : List AeEntry
  streamCsum : Csum
deriving Repr

/-- Result of `apk_db_install_pkg`. -/
structure InstallOut where
  db : Db
  log : List String := []
  acts : List FsAct := []
  ret : Int := 0
deriving DecidableEq, Repr

/-- Write the threaded owned-files list back to the package record (in the
source the list lives on the `struct apk_package` itself). -/
def writeBackOwned (db : Db) (c : Csum) (owned : List Nat) : Db :=
  { db with packages := updatePkgs db.packages c (fun p => { p with owned := owned }) }

/-- The old-package purge of the install path (lines 855-862 with
`newpkg != NULL`). -/
def purgeOld (db : Db) (old? : Option Csum) : Db × List FsAct :=
  match old? with
  | some oldc => apk_db_purge_pkg db oldc
  | none => (db, [])

/-- The `install_ctx` initializer of the install path (lines 884-889): the
pre script to run and the already-threaded owned-file list of the package
being (re)installed. -/
def installCtx0 (dbPre : Db) (old? : Option Csum) (new : PkgInfo) : InstallCtx :=
  { script := if old? = none then .preInstall else .preUpgrade,
    ownedFiles :=
      match lookupPkg dbPre new.csum with
      | some p => p.owned
      | none => [] }

/-- `apk_db_install_pkg` (lines 841-914).  `fchdir(db->root_fd)` is taken to
succeed (claims are about the database logic).  Pure removal: run
`PRE_DEINSTALL`, abort on nonzero exit; purge; run `POST_DEINSTALL` ignoring
its exit; return 0.  Upgrade purges the old package with no deinstall
scripts.  Install: open the stream (`bs = none` is open failure, returning
`errno`, embedded as 1), iterate the archive, on error return -1; set state
`INSTALL`; warn when the stream checksum differs from the declared one; run
the post script and propagate its exit code. -/
def apk_db_install_pkg (db : Db) (oldpkg : Option Csum) (newpkg : Option PkgInfo)
    (env : InstallEnv) (bs : Option ArchiveStream) : InstallOut :=
  match newpkg, oldpkg with
  | none, some oldc =>
    let r := env.runScript oldc .preDeinstall
    if r ≠ 0 then
      { db := db, ret := r }
    else
      let purged := apk_db_purge_pkg db oldc
      let _post := env.runScript oldc .postDeinstall
      { db := purged.1, acts := purged.2, ret := 0 }
  | none, none =>
    -- the source would dereference `newpkg->filename` on a null pointer;
    -- no caller reaches this shape
    { db := db, ret := -1 }
  | some new, old? =>
    let purged : Db × List FsAct := purgeOld db old?
    match bs with
    | none =>
      { db := purged.1, acts := purged.2,
        log := ["open failed: " ++ new.name ++ "-" ++ new.version], ret := 1 }
    | some stream =>
      let ctx0 : InstallCtx := installCtx0 purged.1 old? new
      let parsed := apk_parse_tar_gz purged.1 ctx0 new env stream.entries
      let dbP := writeBackOwned parsed.db new.csum parsed.ctx.ownedFiles
      if parsed.ret ≠ 0 then
        { db := dbP, log := parsed.log, acts := purged.2 ++ parsed.acts, ret := -1 }
      else
        let dbI := apk_pkg_set_state dbP new.csum .install
        let warnLog : List String :=
          if stream.streamCsum ≠ new.csum then
            [new.name ++ "-" ++ new.version ++ ": checksum does not match"]
          else []
        let r2 := env.runScript new.csum
            (if old? = none then .postInstall else .postUpgrade)
        let errLog : List String :=
          if r2 ≠ 0 then
            [new.name ++ "-" ++ new.version ++
             ": Failed to execute post-install/upgrade script"]
          else []
        { db := dbI, log := parsed.log ++ warnLog ++ errLog,
          acts := purged.2 ++ parsed.acts, ret := r2 }

/-! ## Repositories (apk_db_add_repository) -/

/-- `APK_MAX_REPOS` is defined in apk_database.h, which is not under src/;
the claims are independent of its value. -/
def APK_MAX_REPOS : Nat := 16

/-- `apk_db_add_repository`: reject when the slots are exhausted; otherwise
take the next slot (`r = db->num_repos++`) and record the url, then open
`<url>/APK_INDEX.gz` (the oracle returns its parsed line list, `none` for an
open failure) and feed it to the index reader with `repo = r`.  The reader's
return value is ignored; an open failure returns -1 with the slot already
consumed. -/
def apk_db_add_repository (db : Db) (url : String)
    (openIndex : String → Option (List FdbLine)) : Db × Int :=
  if db.num_repos ≥ APK_MAX_REPOS then (db, -1)
  else
    let r := db.num_repos
    let db1 := { db with num_repos := r + 1, repos := db.repos ++ [url] }
    match openIndex (url ++ "/APK_INDEX.gz") with
    | none => (db1, -1)
    | some ls => ((apk_db_index_read db1 ls (Int.ofNat r)).1, 0)

/-! ## Lemma toolkit: lookups and updates -/

theorem findDir_eq_dirname {dirs : List DbDir} {n : String} {d : DbDir}
    (h : findDir dirs n = some d) : d.dirname = n := by
  have h2 := List.find?_some h
  simpa using h2

theorem findDir_mem {dirs : List DbDir} {n : String} {d : DbDir}
    (h : findDir dirs n = some d) : d ∈ dirs :=
  List.mem_of_find?_eq_some h

theorem findDir_append_some {l1 l2 : List DbDir} {n : String} {d : DbDir}
    (h : findDir l1 n = some d) : findDir (l1 ++ l2) n = some d := by
  unfold findDir at *
  rw [List.find?_append, h]
  rfl

theorem findDir_append_none {l1 l2 : List DbDir} {n : String}
    (h : findDir l1 n = none) : findDir (l1 ++ l2) n = findDir l2 n := by
  unfold findDir at *
  rw [List.find?_append, h]
  simp

theorem findDir_singleton_self (d : DbDir) : findDir [d] d.dirname = some d := by
  unfold findDir
  rw [List.find?_cons_of_pos]
  simp

theorem findDir_updateDirs_self (dirs : List DbDir) (n : String) (f : DbDir → DbDir)
    (hf : ∀ d, (f d).dirname = d.dirname) :
    findDir (updateDirs dirs n f) n = (findDir dirs n).map f := by
  induction dirs with
  | nil => rfl
  | cons d rest ih =>
    unfold updateDirs at *
    by_cases h : d.dirname = n
    · simp only [List.map_cons, h]
      rw [if_pos (by simp)]
      unfold findDir
      rw [List.find?_cons_of_pos _ (by simp [hf, h]),
          List.find?_cons_of_pos _ (by simp [h])]
      rfl
    · simp only [List.map_cons]
      rw [if_neg (by simp [h])]
      unfold findDir
      rw [List.find?_cons_of_neg _ (by simp [h]),
          List.find?_cons_of_neg _ (by simp [h])]
      exact ih

theorem findDir_updateDirs_of_ne (dirs : List DbDir) (n m : String) (f : DbDir → DbDir)
    (hf : ∀ d, (f d).dirname = d.dirname) (hne : m ≠ n) :
    findDir (updateDirs dirs n f) m = findDir dirs m := by
  induction dirs with
  | nil => rfl
  | cons d rest ih =>
    unfold updateDirs at *
    by_cases h : d.dirname = n
    · simp only [List.map_cons]
      rw [if_pos (by simp [h])]
      unfold findDir
      rw [List.find?_cons_of_neg _ (by simp [hf, h, Ne.symm hne]),
          List.find?_cons_of_neg _ (by simp [h, Ne.symm hne])]
      exact ih
    · simp only [List.map_cons]
      rw [if_neg (by simp [h])]
      by_cases hm : d.dirname = m
      · unfold findDir
        rw [List.find?_cons_of_pos _ (by simp [hm]),
            List.find?_cons_of_pos _ (by simp [hm])]
      · unfold findDir
        rw [List.find?_cons_of_neg _ (by simp [hm]),
            List.find?_cons_of_neg _ (by simp [hm])]
        exact ih

theorem updateDirs_map_dirname (dirs : List DbDir) (n : String) (f : DbDir → DbDir)
    (hf : ∀ d, (f d).dirname = d.dirname) :
    (updateDirs dirs n f).map (fun d => d.dirname) = dirs.map (fun d => d.dirname) := by
  induction dirs with
  | nil => rfl
  | cons d rest ih =>
    unfold updateDirs at *
    simp only [List.map_cons]
    rw [ih]
    by_cases h : d.dirname = n
    · rw [if_pos (by simp [h]), hf]
    · rw [if_neg (by simp [h])]

/-- Equality of all `Db` fields except `dirs` and `statsDirs` (the only
components the directory table mutates). -/
def eqOutsideDirs (a b : Db) : Prop :=
  a.files = b.files ∧ a.packages = b.packages ∧ a.names = b.names ∧
  a.installed = b.installed ∧ a.protected_paths = b.protected_paths ∧
  a.statsPackages = b.statsPackages ∧ a.statsFiles = b.statsFiles ∧
  a.pkg_id = b.pkg_id ∧ a.num_repos = b.num_repos ∧ a.repos = b.repos

theorem eqOutsideDirs_refl (a : Db) : eqOutsideDirs a a :=
  ⟨rfl, rfl, rfl, rfl, rfl, rfl, rfl, rfl, rfl, rfl⟩

theorem eqOutsideDirs_trans {a b c : Db}
    (h1 : eqOutsideDirs a b) (h2 : eqOutsideDirs b c) : eqOutsideDirs a c := by
  obtain ⟨a1, a2, a3, a4, a5, a6, a7, a8, a9, a10⟩ := h1
  obtain ⟨b1, b2, b3, b4, b5, b6, b7, b8, b9, b10⟩ := h2
  exact ⟨a1.trans b1, a2.trans b2, a3.trans b3, a4.trans b4, a5.trans b5,
    a6.trans b6, a7.trans b7, a8.trans b8, a9.trans b9, a10.trans b10⟩


/-- The facts about the recursion that `dirGetResolve` passes through:
everything outside the directory table is untouched, `statsDirs` included,
and preexisting records are preserved verbatim. -/
def DirGetRecFacts (recur : Db → String → Db × String) : Prop :=
  ∀ (db0 : Db) (nm : String),
    eqOutsideDirs db0 (recur db0 nm).1 ∧ (recur db0 nm).1.statsDirs = db0.statsDirs ∧
    (∀ m d, findDir db0.dirs m = some d → findDir (recur db0 nm).1.dirs m = some d)

theorem dirGetResolve_facts (recur : Db → String → Db × String) (db1 : Db) (n : String)
    (hrec : DirGetRecFacts recur) :
    eqOutsideDirs db1 (dirGetResolve recur db1 n).1 ∧
    (dirGetResolve recur db1 n).1.statsDirs = db1.statsDirs ∧
    (∀ m d, findDir db1.dirs m = some d →
      findDir (dirGetResolve recur db1 n).1.dirs m = some d) := by
  unfold dirGetResolve
  by_cases hn : n = ""
  · rw [if_pos hn]
    exact ⟨eqOutsideDirs_refl _, rfl, fun m d h => h⟩
  · rw [if_neg hn]
    rcases hr : rsplitParent n.toList with _ | p
    · exact ⟨(hrec db1 "").1, (hrec db1 "").2.1, (hrec db1 "").2.2⟩
    · exact ⟨(hrec db1 (String.mk p)).1, (hrec db1 (String.mk p)).2.1,
        (hrec db1 (String.mk p)).2.2⟩

theorem eqOutsideDirs_updateDir (db : Db) (n : String) (f : DbDir → DbDir) :
    eqOutsideDirs db (updateDir db n f) :=
  ⟨rfl, rfl, rfl, rfl, rfl, rfl, rfl, rfl, rfl, rfl⟩

theorem eqOutsideDirs_withDirs (db : Db) (ds : List DbDir) :
    eqOutsideDirs db { db with dirs := ds } :=
  ⟨rfl, rfl, rfl, rfl, rfl, rfl, rfl, rfl, rfl, rfl⟩

theorem dirGetMiss_facts (recur : Db → String → Db × String) (db : Db) (n : String)
    (hfresh : findDir db.dirs n = none) (hrec : DirGetRecFacts recur) :
    (dirGetMiss recur db n).2 = n ∧
    eqOutsideDirs db (dirGetMiss recur db n).1 ∧
    (dirGetMiss recur db n).1.statsDirs = db.statsDirs ∧
    (∀ m d, findDir db.dirs m = some d → findDir (dirGetMiss recur db n).1.dirs m = some d) := by
  have hres := dirGetResolve_facts recur { db with dirs := db.dirs ++ [{ dirname := n }] } n hrec
  simp only [dirGetMiss]
  refine ⟨by trivial, ?_, ?_, ?_⟩
  · exact eqOutsideDirs_trans (eqOutsideDirs_withDirs db (db.dirs ++ [{ dirname := n }]))
      (eqOutsideDirs_trans hres.1 (eqOutsideDirs_updateDir _ _ _))
  · exact hres.2.1
  · intro m d h
    have hm_ne : m ≠ n := by
      intro heq
      rw [heq, hfresh] at h
      cases h
    unfold updateDir
    rw [findDir_updateDirs_of_ne]
    · exact hres.2.2 m d (findDir_append_some h)
    · exact fun d0 => rfl
    · exact hm_ne

theorem dirGetFuel_facts (fuel : Nat) : DirGetRecFacts (dirGetFuel fuel) := by
  induction fuel with
  | zero =>
    intro db name
    exact ⟨eqOutsideDirs_refl _, rfl, fun m d h => h⟩
  | succ fuel ih =>
    intro db name
    rw [dirGetFuel]
    rcases hfind : findDir db.dirs (stripSlash name) with _ | d0
    · have h := dirGetMiss_facts (dirGetFuel fuel) db (stripSlash name) hfind ih
      exact ⟨h.2.1, h.2.2.1, h.2.2.2⟩
    · exact ⟨eqOutsideDirs_refl _, rfl, fun m d h => h⟩

theorem dirGetFuel_ret (fuel : Nat) (db : Db) (name : String) :
    (dirGetFuel fuel db name).2 = stripSlash name := by
  cases fuel with
  | zero => rfl
  | succ fuel =>
    rw [dirGetFuel]
    rcases hfind : findDir db.dirs (stripSlash name) with _ | d0
    · exact (dirGetMiss_facts (dirGetFuel fuel) db (stripSlash name) hfind
        (dirGetFuel_facts fuel)).1
    · rfl

theorem dirGetFuel_found (fuel : Nat) (db : Db) (name : String) (hfuel : 0 < fuel) :
    ∃ d, findDir (dirGetFuel fuel db name).1.dirs (stripSlash name) = some d := by
  cases fuel with
  | zero => cases hfuel
  | succ fuel =>
    rw [dirGetFuel]
    rcases hfind : findDir db.dirs (stripSlash name) with _ | d0
    · set n := stripSlash name with hn
      have hres := dirGetResolve_facts (dirGetFuel fuel)
        { db with dirs := db.dirs ++ [{ dirname := n }] } n (dirGetFuel_facts fuel)
      have hplace : findDir ({ db with dirs := db.dirs ++ [{ dirname := n }] } : Db).dirs n =
          some { dirname := n } := by
        show findDir (db.dirs ++ [{ dirname := n }]) n = some { dirname := n }
        rw [findDir_append_none hfind]
        exact findDir_singleton_self { dirname := n }
      have hkept := hres.2.2 n { dirname := n } hplace
      simp only [dirGetMiss]
      unfold updateDir
      rw [findDir_updateDirs_self]
      · rw [hkept]
        exact ⟨_, rfl⟩
      · exact fun d0 => rfl
    · exact ⟨d0, hfind⟩

/-! ## Protected-path resolution (claim C8) -/

/-- The match relation the rule loop of `apk_db_dir_get` actually implements:
a '-'-prefixed rule matches through its tail, and any rule — including a
'-'-prefixed one — also matches when it equals the dirname verbatim. -/
def ruleMatches (r dn : String) : Bool :=
  (strHead? r == some '-' && strTail r 1 == dn) || r == dn

/-- The effect of a matching rule: clear exactly when the rule is
'-'-prefixed and matched through its tail; set otherwise. -/
def ruleEffect (r dn : String) : Bool :=
  if strHead? r = some '-' ∧ strTail r 1 = dn then false else true

/-- Last-match semantics over the ordered rule list. -/
def lastMatchResolve (rules : List String) (dn : String) (inherited : Bool) : Bool :=
  match (rules.filter (fun r => ruleMatches r dn)).getLast? with
  | none => inherited
  | some r => ruleEffect r dn

/-- The protected-path resolution exactly as the claim's sentence states it:
the last rule in the ordered list whose PATH equals the stored dirname
decides (the path of a '-'-prefixed rule is the part after the '-'; such a
rule clears, a plain rule sets); when no rule's path matches, the flag is
inherited.  Written from the spec's words, as the refinement target to
compare against the source semantics. -/
def specProtResolve (rules : List String) (dn : String) (inherited : Bool) : Bool :=
  match (rules.filter (fun r =>
      (if strHead? r = some '-' then strTail r 1 else r) == dn)).getLast? with
  | none => inherited
  | some r => strHead? r != some '-'

theorem protStep_of_matches {r dn : String} (hm : ruleMatches r dn = true) (f : Bool) :
    protStep dn f r = ruleEffect r dn := by
  unfold ruleMatches at hm
  unfold protStep ruleEffect
  by_cases h1 : strHead? r = some '-' ∧ strTail r 1 = dn
  · rw [if_pos h1, if_pos h1]
  · rw [if_neg h1, if_neg h1]
    simp only [Bool.or_eq_true, Bool.and_eq_true, beq_iff_eq] at hm
    have hrdn : r = dn := by
      rcases hm with ⟨hm1, hm2⟩ | hm2
      · exact absurd ⟨hm1, hm2⟩ h1
      · exact hm2
    rw [if_pos hrdn]

theorem protStep_of_not_matches {r dn : String} (hm : ¬ ruleMatches r dn = true) (f : Bool) :
    protStep dn f r = f := by
  unfold ruleMatches at hm
  simp only [Bool.or_eq_true, Bool.and_eq_true, beq_iff_eq, not_or, not_and] at hm
  unfold protStep
  rw [if_neg, if_neg]
  · exact hm.2
  · intro ⟨h1, h2⟩
    exact hm.1 h1 h2

theorem lastMatchResolve_cons (r : String) (rs : List String) (dn : String) (f : Bool) :
    lastMatchResolve (r :: rs) dn f = lastMatchResolve rs dn (protStep dn f r) := by
  unfold lastMatchResolve
  rw [List.filter_cons]
  by_cases hm : ruleMatches r dn = true
  · rw [if_pos hm, protStep_of_matches hm]
    rcases hfr : rs.filter (fun r0 => ruleMatches r0 dn) with _ | ⟨a, l⟩
    · rfl
    · rfl
  · rw [if_neg hm, protStep_of_not_matches hm]

/-- The rule loop computes last-match semantics: the final flag is decided by
the last rule of the ordered protected-path list that matches (in the
verbatim-inclusive sense of `ruleMatches`); with no match the initial
(inherited) flag survives. -/
theorem applyProtRules_eq_lastMatchResolve (rules : List String) (dn : String) :
    ∀ f, applyProtRules rules dn f = lastMatchResolve rules dn f := by
  induction rules with
  | nil => intro f; rfl
  | cons r rs ih =>
    intro f
    rw [lastMatchResolve_cons, ← ih (protStep dn f r)]
    rfl

theorem stripSlash_empty : stripSlash "" = "" := rfl

theorem ne_of_strLen_lt {a b : String} (h : strLen a < strLen b) : a ≠ b := by
  intro he
  rw [he] at h
  exact Nat.lt_irrefl _ h

/-- What the parent-resolution step returns when the recursion is
`dirGetFuel`: the second component is exactly `dirParent n`, and when a
parent exists its interned record is present in the resulting table. -/
theorem dirGetResolve_spec (fuel : Nat) (db1 : Db) (n : String) (hfuel : 0 < fuel) :
    (dirGetResolve (dirGetFuel fuel) db1 n).2 = dirParent n ∧
    (∀ p, dirParent n = some p →
      ∃ pd, findDir (dirGetResolve (dirGetFuel fuel) db1 n).1.dirs p = some pd) := by
  unfold dirGetResolve dirParent
  by_cases hn : n = ""
  · rw [if_pos hn, if_pos hn]
    exact ⟨rfl, fun p hp => by cases hp⟩
  · rw [if_neg hn, if_neg hn]
    rcases hr : rsplitParent n.toList with _ | q
    · constructor
      · show some ((dirGetFuel fuel db1 "").2) = some ""
        rw [dirGetFuel_ret, stripSlash_empty]
      · intro p hp
        have hp' : p = "" := by
          cases hp
          rfl
        subst hp'
        have := dirGetFuel_found fuel db1 "" hfuel
        rw [stripSlash_empty] at this
        exact this
    · constructor
      · show some ((dirGetFuel fuel db1 (String.mk q)).2) = some (stripSlash (String.mk q))
        rw [dirGetFuel_ret]
      · intro p hp
        have hp' : p = stripSlash (String.mk q) := by
          cases hp
          rfl
        subst hp'
        exact dirGetFuel_found fuel db1 (String.mk q) hfuel

theorem dirParent_eq_none_iff (n : String) : dirParent n = none ↔ n = "" := by
  unfold dirParent
  by_cases hn : n = ""
  · rw [if_pos hn]
    simp [hn]
  · rw [if_neg hn]
    rcases hr : rsplitParent n.toList with _ | q
    · simp [hn]
    · simp [hn]

/-- Claim C8 (amended): the final `PROTECTED` flag of a freshly interned
directory equals the effect of the last rule of the ordered protected-path
list matching the stored dirname — matching either through its '-'-stripped
tail (which clears) or verbatim, including a '-'-prefixed rule compared
verbatim (which sets); with no matching rule the flag is inherited from the
interned parent, and the parentless root starts unset. -/
theorem apk_db_dir_get_fresh_protFlag (db : Db) (name : String)
    (hfresh : findDir db.dirs (stripSlash name) = none) :
    ∃ d, findDir (apk_db_dir_get db name).1.dirs (stripSlash name) = some d ∧
      (dirParent (stripSlash name) = none →
        d.protFlag = lastMatchResolve db.protected_paths (stripSlash name) false) ∧
      (∀ p, dirParent (stripSlash name) = some p →
        ∃ pd, findDir (apk_db_dir_get db name).1.dirs p = some pd ∧
          d.protFlag = lastMatchResolve db.protected_paths (stripSlash name) pd.protFlag) := by
  have hred : apk_db_dir_get db name =
      dirGetMiss (dirGetFuel (strLen name)) db (stripSlash name) := by
    unfold apk_db_dir_get
    rw [dirGetFuel, hfresh]
  rw [hred]
  simp only [dirGetMiss]
  have hplace : findDir ({ db with
      dirs := db.dirs ++ [{ dirname := stripSlash name }] } : Db).dirs (stripSlash name) =
      some { dirname := stripSlash name } := by
    show findDir (db.dirs ++ [{ dirname := stripSlash name }]) (stripSlash name) =
      some { dirname := stripSlash name }
    rw [findDir_append_none hfresh]
    exact findDir_singleton_self { dirname := stripSlash name }
  rcases hdp : dirParent (stripSlash name) with _ | p
  · -- no parent: the root; `dirGetResolve` returns nothing and inherits false
    have hn0 : stripSlash name = "" := (dirParent_eq_none_iff _).mp hdp
    have hRdef : dirGetResolve (dirGetFuel (strLen name))
        { db with dirs := db.dirs ++ [{ dirname := stripSlash name }] } (stripSlash name) =
        ({ db with dirs := db.dirs ++ [{ dirname := stripSlash name }] }, none) := by
      unfold dirGetResolve
      rw [if_pos hn0]
    rw [hRdef]
    unfold updateDir
    rw [findDir_updateDirs_self]
    · rw [hplace]
      refine ⟨_, rfl, fun _ => ?_, fun p hp => by cases hp⟩
      show applyProtRules db.protected_paths (stripSlash name) (inheritedFlag _) =
        lastMatchResolve db.protected_paths (stripSlash name) false
      rw [applyProtRules_eq_lastMatchResolve]
      rfl
    · exact fun d0 => rfl
  · -- a parent exists: it is interned by the recursive call and inherited from
    have hn0 : stripSlash name ≠ "" := by
      intro he
      rw [(dirParent_eq_none_iff _).mpr he] at hdp
      cases hdp
    have hfuel : 0 < strLen name := by
      have h1 : 0 < strLen (stripSlash name) := strLen_pos_of_ne_empty hn0
      have h2 := strLen_stripSlash_le name
      omega
    have hspec := dirGetResolve_spec (strLen name)
      { db with dirs := db.dirs ++ [{ dirname := stripSlash name }] } (stripSlash name) hfuel
    obtain ⟨pd, hpd⟩ := hspec.2 p hdp
    have hpn : p ≠ stripSlash name :=
      ne_of_strLen_lt (dirParent_length_lt hdp)
    have hRfacts := dirGetResolve_facts (dirGetFuel (strLen name))
      { db with dirs := db.dirs ++ [{ dirname := stripSlash name }] } (stripSlash name)
      (dirGetFuel_facts (strLen name))
    have hkept := hRfacts.2.2 _ _ hplace
    have hinh : inheritedFlag (dirGetResolve (dirGetFuel (strLen name))
        { db with dirs := db.dirs ++ [{ dirname := stripSlash name }] } (stripSlash name)) =
        pd.protFlag := by
      unfold inheritedFlag
      rw [hspec.1, hdp]
      simp only [hpd]
    unfold updateDir
    rw [findDir_updateDirs_self]
    · rw [hkept]
      refine ⟨_, rfl, fun he => Option.noConfusion he, fun q hq => ?_⟩
      have hqp : q = p := by
        cases hq
        rfl
      subst hqp
      refine ⟨pd, ?_, ?_⟩
      · rw [findDir_updateDirs_of_ne]
        · exact hpd
        · exact fun d0 => rfl
        · exact hpn
      · show applyProtRules db.protected_paths (stripSlash name) (inheritedFlag _) =
          lastMatchResolve db.protected_paths (stripSlash name) pd.protFlag
        rw [hinh, applyProtRules_eq_lastMatchResolve]
    · exact fun d0 => rfl

def c8CounterDb : Db := { protected_paths := ["-x"] }

/-- Claim C8 as stated is false at a concrete input: with the protected-path
list `["-x"]`, interning the dirname `"-x"` sets `PROTECTED`, although no
rule's path equals `"-x"` (the single rule's path is `"x"`) and the parent
root's flag — which the claim says would then be inherited — is unset: the
loop's else-branch compares the '-'-prefixed rule verbatim against the
dirname and sets the flag. -/
theorem protected_resolution_counterexample :
    (lookupDir (apk_db_dir_get c8CounterDb "-x").1 "-x").map (fun d => d.protFlag) =
      some true ∧
    (lookupDir (apk_db_dir_get c8CounterDb "-x").1 "").map (fun d => d.protFlag) =
      some false ∧
    (c8CounterDb.protected_paths.filter (fun r =>
      (if strHead? r = some '-' then strTail r 1 else r) == "-x")) = [] ∧
    specProtResolve c8CounterDb.protected_paths "-x" false = false ∧
    some true ≠ some (specProtResolve c8CounterDb.protected_paths "-x" false) := by
  decide

def c8WitnessDb : Db := { protected_paths := ["etc", "-etc/init.d"] }

theorem apk_db_dir_get_fresh_protFlag_witness :
    findDir c8WitnessDb.dirs (stripSlash "etc/init.d") = none ∧
    (∃ d, findDir (apk_db_dir_get c8WitnessDb "etc/init.d").1.dirs
        (stripSlash "etc/init.d") = some d ∧
      (dirParent (stripSlash "etc/init.d") = none →
        d.protFlag = lastMatchResolve c8WitnessDb.protected_paths (stripSlash "etc/init.d") false) ∧
      (∀ p, dirParent (stripSlash "etc/init.d") = some p →
        ∃ pd, findDir (apk_db_dir_get c8WitnessDb "etc/init.d").1.dirs p = some pd ∧
          d.protFlag = lastMatchResolve c8WitnessDb.protected_paths
            (stripSlash "etc/init.d") pd.protFlag)) :=
  ⟨by decide, apk_db_dir_get_fresh_protFlag c8WitnessDb "etc/init.d" (by decide)⟩

/-! ## Reference-count invariant (claim C2) -/

/-- Number of installed (owner-holding) files whose `dir` field is the given
directory. -/
def ownedCountF (files : List DbFile) (dn : String) : Nat :=
  (files.filter (fun f => f.dirname == dn && f.owner.isSome)).length

/-- Number of child directories of `dn` with a positive reference count. -/
def liveChildCount (dirs : List DbDir) (dn : String) : Nat :=
  (dirs.filter (fun d => dirParent d.dirname == some dn && decide (0 < d.refs))).length

/-- The reference-count invariant the directory table actually maintains:
each directory's `refs` counts its own installed files plus its live child
directories (each child contributes one reference on its 0 → 1 edge). -/
def refsInvariant (db : Db) : Prop :=
  ∀ d ∈ db.dirs,
    d.refs = (ownedCountF db.files d.dirname : Int) + (liveChildCount db.dirs d.dirname : Int)

/-- Well-formedness of the directory table: unique stored names and parents
interned (as `apk_db_dir_get` guarantees). -/
def dirsWf (db : Db) : Prop :=
  (db.dirs.map (fun d => d.dirname)).Nodup ∧
  (∀ d ∈ db.dirs, ∀ p, dirParent d.dirname = some p →
    p ∈ db.dirs.map (fun d0 => d0.dirname))

theorem length_filter_set {α : Type} (p : α → Bool) (l : List α) (i : Nat) (a b : α)
    (hi : l[i]? = some a) :
    ((l.set i b).filter p).length + (if p a then 1 else 0) =
      (l.filter p).length + (if p b then 1 else 0) := by
  induction l generalizing i with
  | nil => simp at hi
  | cons x xs ih =>
    cases i with
    | zero =>
      have hxa : x = a := by simpa using hi
      subst hxa
      show ((b :: xs).filter p).length + _ = _
      by_cases hpa : p x = true <;> by_cases hpb : p b = true <;>
        simp [List.filter_cons, hpa, hpb] <;> omega
    | succ j =>
      have hj : xs[j]? = some a := by simpa using hi
      have ihj := ih j hj
      show ((x :: xs.set j b).filter p).length + _ = _
      by_cases hpx : p x = true <;> simp [List.filter_cons, hpx] <;> omega

theorem ownedCountF_set_gain (files : List DbFile) (i : Nat) (f g : DbFile)
    (hi : files[i]? = some f) (hdir : g.dirname = f.dirname)
    (hf : f.owner = none) (hg : g.owner.isSome = true) (dn : String) :
    ownedCountF (files.set i g) dn =
      ownedCountF files dn + (if f.dirname = dn then 1 else 0) := by
  have h := length_filter_set (fun f0 => f0.dirname == dn && f0.owner.isSome) files i f g hi
  unfold ownedCountF
  have hpf : (f.dirname == dn && f.owner.isSome) = false := by
    rw [hf]
    simp
  have hpg : (g.dirname == dn && g.owner.isSome) = decide (f.dirname = dn) := by
    rw [hdir, hg]
    by_cases hd : f.dirname = dn <;> simp [hd]
  simp only [hpf, hpg] at h
  by_cases hfd : f.dirname = dn
  · simp [hfd] at h ⊢
    omega
  · simp [hfd] at h ⊢
    omega

theorem ownedCountF_set_lose (files : List DbFile) (i : Nat) (f g : DbFile)
    (hi : files[i]? = some f) (hdir : g.dirname = f.dirname)
    (hf : f.owner.isSome = true) (hg : g.owner = none) (dn : String) :
    ownedCountF (files.set i g) dn + (if f.dirname = dn then 1 else 0) =
      ownedCountF files dn := by
  have h := length_filter_set (fun f0 => f0.dirname == dn && f0.owner.isSome) files i f g hi
  unfold ownedCountF
  have hpf : (f.dirname == dn && f.owner.isSome) = decide (f.dirname = dn) := by
    rw [hf]
    by_cases hd : f.dirname = dn <;> simp [hd]
  have hpg : (g.dirname == dn && g.owner.isSome) = false := by
    rw [hg]
    simp
  simp only [hpf, hpg] at h
  by_cases hfd : f.dirname = dn
  · simp [hfd] at h ⊢
    omega
  · simp [hfd] at h ⊢
    omega

theorem ownedCountF_set_same (files : List DbFile) (i : Nat) (f g : DbFile)
    (hi : files[i]? = some f) (hdir : g.dirname = f.dirname)
    (hsame : g.owner.isSome = f.owner.isSome) (dn : String) :
    ownedCountF (files.set i g) dn = ownedCountF files dn := by
  have h := length_filter_set (fun f0 => f0.dirname == dn && f0.owner.isSome) files i f g hi
  unfold ownedCountF
  simp only [hdir, hsame] at h
  omega

theorem findDir_of_mem_nodup {dirs : List DbDir}
    (hnd : (dirs.map (fun d => d.dirname)).Nodup) {d : DbDir} (hd : d ∈ dirs) :
    findDir dirs d.dirname = some d := by
  induction dirs with
  | nil => cases hd
  | cons x xs ih =>
    rcases List.mem_cons.mp hd with hx | hxs
    · subst hx
      unfold findDir
      rw [List.find?_cons_of_pos]
      simp
    · have hne : x.dirname ≠ d.dirname := by
        intro he
        have : x.dirname ∈ xs.map (fun d0 => d0.dirname) := by
          rw [he]
          exact List.mem_map.mpr ⟨d, hxs, rfl⟩
        exact (List.nodup_cons.mp hnd).1 this
      unfold findDir
      rw [List.find?_cons_of_neg]
      · exact ih (List.nodup_cons.mp hnd).2 hxs
      · simp [hne]

theorem mem_updateDirs {dirs : List DbDir} {n : String} {f : DbDir → DbDir} {d' : DbDir}
    (h : d' ∈ updateDirs dirs n f) :
    ∃ d ∈ dirs, d' = if d.dirname == n then f d else d := by
  unfold updateDirs at h
  obtain ⟨d, hd, he⟩ := List.mem_map.mp h
  exact ⟨d, hd, he.symm⟩

theorem updateDirs_eq_of_not_found (dirs : List DbDir) (n : String) (f : DbDir → DbDir)
    (h : ∀ d ∈ dirs, d.dirname ≠ n) : updateDirs dirs n f = dirs := by
  induction dirs with
  | nil => rfl
  | cons x xs ih =>
    unfold updateDirs at *
    simp only [List.map_cons]
    rw [if_neg (by simp [h x (List.mem_cons_self x xs)]), ih (fun d hd => h d (List.mem_cons_of_mem x hd))]

theorem liveChildCount_updateDirs_pos_iff (dirs : List DbDir) (n : String) (f : DbDir → DbDir)
    (dn : String) (hf : ∀ d, (f d).dirname = d.dirname)
    (hpos : ∀ d ∈ dirs, d.dirname = n → (0 < (f d).refs ↔ 0 < d.refs)) :
    liveChildCount (updateDirs dirs n f) dn = liveChildCount dirs dn := by
  induction dirs with
  | nil => rfl
  | cons x xs ih0
  =>
    have ih := ih0 (fun d hd hdn => hpos d (List.mem_cons_of_mem x hd) hdn)
    unfold updateDirs liveChildCount at *
    simp only [List.map_cons]
    by_cases hx : x.dirname = n
    · rw [if_pos (by simp [hx])]
      have hpred : (dirParent (f x).dirname == some dn && decide (0 < (f x).refs)) =
          (dirParent x.dirname == some dn && decide (0 < x.refs)) := by
        rw [hf]
        congr 1
        exact decide_eq_decide.mpr (hpos x (List.mem_cons_self x xs) hx)
      rw [List.filter_cons, List.filter_cons, hpred]
      by_cases hc : (dirParent x.dirname == some dn && decide (0 < x.refs)) = true
      · rw [if_pos hc, if_pos hc]
        simp only [List.length_cons]
        omega
      · rw [if_neg hc, if_neg hc]
        exact ih
    · rw [if_neg (by simp [hx])]
      rw [List.filter_cons, List.filter_cons]
      by_cases hc : (dirParent x.dirname == some dn && decide (0 < x.refs)) = true
      · rw [if_pos hc, if_pos hc]
        simp only [List.length_cons]
        omega
      · rw [if_neg hc, if_neg hc]
        exact ih

theorem liveChildCount_updateDirs_flip_up (dirs : List DbDir) (n : String) (f : DbDir → DbDir)
    (hnd : (dirs.map (fun d => d.dirname)).Nodup) (hf : ∀ d, (f d).dirname = d.dirname)
    (d0 : DbDir) (hd0 : findDir dirs n = some d0)
    (hnp : ¬ 0 < d0.refs) (hp : 0 < (f d0).refs) (dn : String) :
    liveChildCount (updateDirs dirs n f) dn =
      liveChildCount dirs dn + (if dirParent n = some dn then 1 else 0) := by
  induction dirs with
  | nil => cases hd0
  | cons x xs ih =>
    unfold updateDirs liveChildCount at *
    simp only [List.map_cons]
    by_cases hx : x.dirname = n
    · have hx0 : x = d0 := by
        unfold findDir at hd0
        rw [List.find?_cons_of_pos _ (by simp [hx])] at hd0
        cases hd0
        rfl
      subst hx0
      rw [if_pos (by simp [hx])]
      have hxs_eq : xs.map (fun d => if d.dirname == n then f d else d) = xs := by
        have : ∀ d ∈ xs, d.dirname ≠ n := by
          intro d hd he
          have hmem : x.dirname ∈ xs.map (fun d0 => d0.dirname) := by
            rw [hx, ← he]
            exact List.mem_map.mpr ⟨d, hd, rfl⟩
          exact (List.nodup_cons.mp hnd).1 hmem
        exact updateDirs_eq_of_not_found xs n f this
      show (((f x) :: xs.map (fun d => if d.dirname == n then f d else d)).filter _).length = _
      rw [hxs_eq]
      rw [List.filter_cons, List.filter_cons]
      have hpx : (dirParent x.dirname == some dn && decide (0 < x.refs)) = false := by
        simp [hnp]
      have hpfx : (dirParent (f x).dirname == some dn && decide (0 < (f x).refs)) =
          (dirParent n == some dn) := by
        rw [hf, hx]
        simp [hp]
      rw [hpx, hpfx]
      by_cases hdn : dirParent n = some dn
      · simp [hdn]
      · simp [hdn]
    · rw [if_neg (by simp [hx])]
      have hd0' : findDir xs n = some d0 := by
        unfold findDir at hd0
        rw [List.find?_cons_of_neg _ (by simp [hx])] at hd0
        exact hd0
      rw [List.filter_cons, List.filter_cons]
      by_cases hc : (dirParent x.dirname == some dn && decide (0 < x.refs)) = true
      · rw [if_pos hc, if_pos hc]
        simp only [List.length_cons]
        have := ih (List.nodup_cons.mp hnd).2 hd0'
        omega
      · rw [if_neg hc, if_neg hc]
        exact ih (List.nodup_cons.mp hnd).2 hd0'

theorem liveChildCount_updateDirs_flip_down (dirs : List DbDir) (n : String) (f : DbDir → DbDir)
    (hnd : (dirs.map (fun d => d.dirname)).Nodup) (hf : ∀ d, (f d).dirname = d.dirname)
    (d0 : DbDir) (hd0 : findDir dirs n = some d0)
    (hp : 0 < d0.refs) (hnp : ¬ 0 < (f d0).refs) (dn : String) :
    liveChildCount (updateDirs dirs n f) dn + (if dirParent n = some dn then 1 else 0) =
      liveChildCount dirs dn := by
  induction dirs with
  | nil => cases hd0
  | cons x xs ih =>
    unfold updateDirs liveChildCount at *
    simp only [List.map_cons]
    by_cases hx : x.dirname = n
    · have hx0 : x = d0 := by
        unfold findDir at hd0
        rw [List.find?_cons_of_pos _ (by simp [hx])] at hd0
        cases hd0
        rfl
      subst hx0
      rw [if_pos (by simp [hx])]
      have hxs_eq : xs.map (fun d => if d.dirname == n then f d else d) = xs := by
        have : ∀ d ∈ xs, d.dirname ≠ n := by
          intro d hd he
          have hmem : x.dirname ∈ xs.map (fun d0 => d0.dirname) := by
            rw [hx, ← he]
            exact List.mem_map.mpr ⟨d, hd, rfl⟩
          exact (List.nodup_cons.mp hnd).1 hmem
        exact updateDirs_eq_of_not_found xs n f this
      show (((f x) :: xs.map (fun d => if d.dirname == n then f d else d)).filter _).length + _ = _
      rw [hxs_eq]
      rw [List.filter_cons, List.filter_cons]
      have hpx : (dirParent x.dirname == some dn && decide (0 < x.refs)) =
          (dirParent n == some dn) := by
        rw [hx]
        simp [hp]
      have hpfx : (dirParent (f x).dirname == some dn && decide (0 < (f x).refs)) = false := by
        rw [hf]
        simp [hnp]
      rw [hpx, hpfx]
      by_cases hdn : dirParent n = some dn
      · simp [hdn]
      · simp [hdn]
    · rw [if_neg (by simp [hx])]
      have hd0' : findDir xs n = some d0 := by
        unfold findDir at hd0
        rw [List.find?_cons_of_neg _ (by simp [hx])] at hd0
        exact hd0
      rw [List.filter_cons, List.filter_cons]
      by_cases hc : (dirParent x.dirname == some dn && decide (0 < x.refs)) = true
      · rw [if_pos hc, if_pos hc]
        simp only [List.length_cons]
        have := ih (List.nodup_cons.mp hnd).2 hd0'
        omega
      · rw [if_neg hc, if_neg hc]
        exact ih (List.nodup_cons.mp hnd).2 hd0'

/-- The record update performed by `dir->refs++`. -/
def refsBump (d : DbDir) : DbDir := { d with refs := d.refs + 1 }

theorem refsBump_dirname (d : DbDir) : (refsBump d).dirname = d.dirname := rfl

/-- Effect of one `apk_db_dir_ref` call under the reference-count invariant:
the target gains exactly one reference (with 0 → 1 edges chained up the
parents), the invariant holds at every other directory, and the live-child
count as well as the record of every name at least as long as the target's
are untouched.  The remaining discrepancy of one at the target is settled by
the caller (`apk_db_file_set_owner`), which installs the file that the new
reference counts. -/
theorem dirRefFuel_invariant (fuel : Nat) : ∀ (db : Db) (n : String) (cr : Bool) (d0 : DbDir),
    strLen n < fuel → dirsWf db → refsInvariant db → findDir db.dirs n = some d0 →
    (dirRefFuel fuel db n cr).files = db.files ∧
    (dirRefFuel fuel db n cr).dirs.map (fun d => d.dirname) =
      db.dirs.map (fun d => d.dirname) ∧
    findDir (dirRefFuel fuel db n cr).dirs n = some { d0 with refs := d0.refs + 1 } ∧
    (∀ d' ∈ (dirRefFuel fuel db n cr).dirs, d'.dirname ≠ n →
      d'.refs = (ownedCountF db.files d'.dirname : Int) +
        (liveChildCount (dirRefFuel fuel db n cr).dirs d'.dirname : Int)) ∧
    (∀ dn, strLen n ≤ strLen dn →
      liveChildCount (dirRefFuel fuel db n cr).dirs dn = liveChildCount db.dirs dn) ∧
    (∀ m, strLen n ≤ strLen m → m ≠ n →
      findDir (dirRefFuel fuel db n cr).dirs m = findDir db.dirs m) := by
  induction fuel with
  | zero =>
    intro db n cr d0 hfuel
    exact absurd hfuel (Nat.not_lt_zero _)
  | succ fuel ih =>
    intro db n cr d0 hfuel hwf hinv hd0
    have hbody : dirRefFuel (fuel + 1) db n cr =
        (if d0.refs = 0 then
          bumpRefs (bumpDirsStat (toParentDb (fun db0 p => dirRefFuel fuel db0 p cr) db n)) n
        else bumpRefs db n) := by
      rw [dirRefFuel, hd0]
    rw [hbody]
    by_cases hz : d0.refs = 0
    · rw [if_pos hz]
      rcases hdp : dirParent n with _ | p
      · -- the root: no parent to ref
        have htop : toParentDb (fun db0 p => dirRefFuel fuel db0 p cr) db n = db := by
          unfold toParentDb
          rw [hdp]
        rw [htop]
        have hflip : ∀ dn, liveChildCount (updateDirs db.dirs n refsBump) dn =
            liveChildCount db.dirs dn := by
          intro dn
          have h := liveChildCount_updateDirs_flip_up db.dirs n refsBump hwf.1
            refsBump_dirname d0 hd0 (by omega) (by show 0 < d0.refs + 1; omega) dn
          rw [h, hdp]
          simp
        refine ⟨rfl, ?_, ?_, ?_, ?_, ?_⟩
        · exact updateDirs_map_dirname db.dirs n refsBump refsBump_dirname
        · show findDir (updateDirs db.dirs n refsBump) n = _
          rw [findDir_updateDirs_self db.dirs n refsBump refsBump_dirname, hd0]
          rfl
        · intro d' hd' hne
          obtain ⟨dd, hddmem, hddeq⟩ := mem_updateDirs hd'
          by_cases hddn : dd.dirname = n
          · exfalso
            rw [if_pos (by simp [hddn])] at hddeq
            apply hne
            rw [hddeq]
            exact hddn
          · rw [if_neg (by simp [hddn])] at hddeq
            rw [hddeq]
            show dd.refs = (ownedCountF db.files dd.dirname : Int) +
              (liveChildCount (updateDirs db.dirs n refsBump) dd.dirname : Int)
            rw [hflip]
            exact hinv dd hddmem
        · intro dn _
          exact hflip dn
        · intro m _ hne
          show findDir (updateDirs db.dirs n refsBump) m = _
          exact findDir_updateDirs_of_ne db.dirs n m refsBump refsBump_dirname hne
      · -- ref the parent first
        have hpmem : p ∈ db.dirs.map (fun d => d.dirname) := by
          have hd0mem := findDir_mem hd0
          have hd0name := findDir_eq_dirname hd0
          exact hwf.2 d0 hd0mem p (by rw [hd0name, hdp])
        obtain ⟨p0, hp0mem, hp0name⟩ : ∃ p0 ∈ db.dirs, p0.dirname = p :=
          List.mem_map.mp hpmem
        have hp0find : findDir db.dirs p = some p0 := by
          have h := findDir_of_mem_nodup hwf.1 hp0mem
          rw [hp0name] at h
          exact h
        have hplen : strLen p < strLen n := dirParent_length_lt hdp
        obtain ⟨ihFiles, ihMap, ihFound, ihInv, ihLc, ihFind⟩ :=
          ih db p cr p0 (by omega) hwf hinv hp0find
        set db1 := dirRefFuel fuel db p cr with hdb1
        have htop : toParentDb (fun db0 p1 => dirRefFuel fuel db0 p1 cr) db n = db1 := by
          unfold toParentDb
          rw [hdp]
        rw [htop]
        have hnd1 : (db1.dirs.map (fun d => d.dirname)).Nodup := by
          rw [ihMap]
          exact hwf.1
        have hn1 : findDir db1.dirs n = some d0 := by
          rw [ihFind n (by omega) (fun he => by rw [he] at hplen; omega)]
          exact hd0
        have hflip : ∀ dn, liveChildCount (updateDirs db1.dirs n refsBump) dn =
            liveChildCount db1.dirs dn + (if dirParent n = some dn then 1 else 0) :=
          liveChildCount_updateDirs_flip_up db1.dirs n refsBump hnd1
            refsBump_dirname d0 hn1 (by omega) (by show 0 < d0.refs + 1; omega)
        refine ⟨ihFiles, ?_, ?_, ?_, ?_, ?_⟩
        · show (updateDirs db1.dirs n refsBump).map _ = _
          rw [updateDirs_map_dirname db1.dirs n refsBump refsBump_dirname]
          exact ihMap
        · show findDir (updateDirs db1.dirs n refsBump) n = _
          rw [findDir_updateDirs_self db1.dirs n refsBump refsBump_dirname, hn1]
          rfl
        · intro d' hd' hne
          obtain ⟨dd, hddmem, hddeq⟩ := mem_updateDirs hd'
          by_cases hddn : dd.dirname = n
          · exfalso
            rw [if_pos (by simp [hddn])] at hddeq
            apply hne
            rw [hddeq]
            exact hddn
          · rw [if_neg (by simp [hddn])] at hddeq
            rw [hddeq]
            show dd.refs = (ownedCountF db.files dd.dirname : Int) +
              (liveChildCount (updateDirs db1.dirs n refsBump) dd.dirname : Int)
            by_cases hdqp : dd.dirname = p
            · -- the parent: its extra reference counts the newly live child
              have hddval : dd = { p0 with refs := p0.refs + 1 } := by
                have hfd := findDir_of_mem_nodup hnd1 hddmem
                rw [hdqp, ihFound] at hfd
                cases hfd
                rfl
              have hlcfinal := hflip dd.dirname
              rw [hdp, hdqp] at hlcfinal
              rw [if_pos rfl] at hlcfinal
              have hlc1 : liveChildCount db1.dirs p = liveChildCount db.dirs p :=
                ihLc p (by omega)
              have hinvp := hinv p0 hp0mem
              rw [hp0name] at hinvp
              have hrefs : dd.refs = p0.refs + 1 := by rw [hddval]
              rw [hdqp]
              rw [hlcfinal, hlc1, hrefs, hinvp]
              push_cast
              ring
            · -- neither the target nor the parent
              have hih := ihInv dd hddmem hdqp
              have hlcfinal := hflip dd.dirname
              rw [hdp] at hlcfinal
              rw [if_neg (fun he => hdqp (Option.some.inj he).symm)] at hlcfinal
              rw [hlcfinal]
              simpa using hih
        · intro dn hlen
          show liveChildCount (updateDirs db1.dirs n refsBump) dn = liveChildCount db.dirs dn
          rw [hflip dn, hdp]
          have hnep : dn ≠ p := by
            intro he
            rw [he] at hlen
            omega
          rw [if_neg (fun he => hnep (Option.some.inj he).symm)]
          have h := ihLc dn (by omega)
          omega
        · intro m hlen hne
          show findDir (updateDirs db1.dirs n refsBump) m = _
          rw [findDir_updateDirs_of_ne db1.dirs n m refsBump refsBump_dirname hne]
          exact ihFind m (by omega) (fun he => by rw [he] at hlen; omega)
    · rw [if_neg hz]
      have hposmem : ∀ d ∈ db.dirs, d.dirname = n → d = d0 := by
        intro d hd hdn
        have hfd := findDir_of_mem_nodup hwf.1 hd
        rw [hdn, hd0] at hfd
        cases hfd
        rfl
      have hposiff : ∀ d ∈ db.dirs, d.dirname = n → (0 < (refsBump d).refs ↔ 0 < d.refs) := by
        intro d hd hdn
        have he := hposmem d hd hdn
        subst he
        show 0 < d.refs + 1 ↔ 0 < d.refs
        omega
      refine ⟨rfl, ?_, ?_, ?_, ?_, ?_⟩
      · exact updateDirs_map_dirname db.dirs n refsBump refsBump_dirname
      · show findDir (updateDirs db.dirs n refsBump) n = _
        rw [findDir_updateDirs_self db.dirs n refsBump refsBump_dirname, hd0]
        rfl
      · intro d' hd' hne
        obtain ⟨dd, hddmem, hddeq⟩ := mem_updateDirs hd'
        by_cases hddn : dd.dirname = n
        · exfalso
          rw [if_pos (by simp [hddn])] at hddeq
          apply hne
          rw [hddeq]
          exact hddn
        · rw [if_neg (by simp [hddn])] at hddeq
          rw [hddeq]
          show dd.refs = (ownedCountF db.files dd.dirname : Int) +
            (liveChildCount (updateDirs db.dirs n refsBump) dd.dirname : Int)
          rw [liveChildCount_updateDirs_pos_iff db.dirs n refsBump _ refsBump_dirname hposiff]
          exact hinv dd hddmem
      · intro dn _
        exact liveChildCount_updateDirs_pos_iff db.dirs n refsBump dn refsBump_dirname hposiff
      · intro m _ hne
        show findDir (updateDirs db.dirs n refsBump) m = _
        exact findDir_updateDirs_of_ne db.dirs n m refsBump refsBump_dirname hne

/-- The record update performed by `dir->refs--`. -/
def refsDec (d : DbDir) : DbDir := { d with refs := d.refs - 1 }

theorem refsDec_dirname (d : DbDir) : (refsDec d).dirname = d.dirname := rfl

/-- Effect of one `apk_db_dir_unref` call: starting from a state whose target
holds one reference more than its files and live children account for (the
caller has just withdrawn the file the reference counted), the call restores
the reference-count invariant everywhere, chaining 1 → 0 edges up the
parents. -/
theorem dirUnrefFuel_invariant (fuel : Nat) : ∀ (db : Db) (n : String) (d0 : DbDir),
    strLen n < fuel → dirsWf db → findDir db.dirs n = some d0 →
    (∀ d ∈ db.dirs, d.dirname ≠ n →
      d.refs = (ownedCountF db.files d.dirname : Int) +
        (liveChildCount db.dirs d.dirname : Int)) →
    d0.refs = (ownedCountF db.files n : Int) + (liveChildCount db.dirs n : Int) + 1 →
    (dirUnrefFuel fuel db n).files = db.files ∧
    (dirUnrefFuel fuel db n).dirs.map (fun d => d.dirname) =
      db.dirs.map (fun d => d.dirname) ∧
    (∀ d' ∈ (dirUnrefFuel fuel db n).dirs,
      d'.refs = (ownedCountF db.files d'.dirname : Int) +
        (liveChildCount (dirUnrefFuel fuel db n).dirs d'.dirname : Int)) := by
  induction fuel with
  | zero =>
    intro db n d0 hfuel
    exact absurd hfuel (Nat.not_lt_zero _)
  | succ fuel ih =>
    intro db n d0 hfuel hwf hd0 hpre hextra
    have hnn : d0.dirname = n := findDir_eq_dirname hd0
    have huniq : ∀ d ∈ db.dirs, d.dirname = n → d = d0 := by
      intro d hd hdn
      have hfd := findDir_of_mem_nodup hwf.1 hd
      rw [hdn, hd0] at hfd
      cases hfd
      rfl
    have hcounts_nonneg : (0 : Int) ≤ (ownedCountF db.files n : Int) ∧
        (0 : Int) ≤ (liveChildCount db.dirs n : Int) := ⟨Int.ofNat_nonneg _, Int.ofNat_nonneg _⟩
    have hbody : dirUnrefFuel (fuel + 1) db n =
        (if d0.refs - 1 > 0 then decRefs db n
         else toParentDb (dirUnrefFuel fuel) (decDirsStat (decRefs db n)) n) := by
      rw [dirUnrefFuel, hd0]
    rw [hbody]
    by_cases hpos : d0.refs - 1 > 0
    · rw [if_pos hpos]
      have hposiff : ∀ d ∈ db.dirs, d.dirname = n → (0 < (refsDec d).refs ↔ 0 < d.refs) := by
        intro d hd hdn
        have he := huniq d hd hdn
        subst he
        show 0 < d.refs - 1 ↔ 0 < d.refs
        omega
      have hlc : ∀ dn, liveChildCount (updateDirs db.dirs n refsDec) dn =
          liveChildCount db.dirs dn := fun dn =>
        liveChildCount_updateDirs_pos_iff db.dirs n refsDec dn refsDec_dirname hposiff
      refine ⟨rfl, updateDirs_map_dirname db.dirs n refsDec refsDec_dirname, ?_⟩
      intro d' hd'
      obtain ⟨dd, hddmem, hddeq⟩ := mem_updateDirs hd'
      by_cases hddn : dd.dirname = n
      · have he := huniq dd hddmem hddn
        subst he
        rw [if_pos (by simp [hddn])] at hddeq
        rw [hddeq]
        show dd.refs - 1 = (ownedCountF db.files dd.dirname : Int) +
          (liveChildCount (updateDirs db.dirs n refsDec) dd.dirname : Int)
        rw [hlc, hddn]
        omega
      · rw [if_neg (by simp [hddn])] at hddeq
        rw [hddeq]
        show dd.refs = (ownedCountF db.files dd.dirname : Int) +
          (liveChildCount (updateDirs db.dirs n refsDec) dd.dirname : Int)
        rw [hlc]
        exact hpre dd hddmem hddn
    · rw [if_neg hpos]
      -- the count reached zero: refs was exactly one, no files and no live children
      have hone : d0.refs = 1 := by omega
      have hzero : ownedCountF db.files n = 0 ∧ liveChildCount db.dirs n = 0 := by
        constructor <;> omega
      have hflip : ∀ dn, liveChildCount (updateDirs db.dirs n refsDec) dn +
          (if dirParent n = some dn then 1 else 0) = liveChildCount db.dirs dn := by
        intro dn
        exact liveChildCount_updateDirs_flip_down db.dirs n refsDec hwf.1
          refsDec_dirname d0 hd0 (by omega) (by show ¬ 0 < d0.refs - 1; omega) dn
      have hnmap : (updateDirs db.dirs n refsDec).map (fun d => d.dirname) =
          db.dirs.map (fun d => d.dirname) :=
        updateDirs_map_dirname db.dirs n refsDec refsDec_dirname
      have hnfind : findDir (updateDirs db.dirs n refsDec) n = some (refsDec d0) := by
        rw [findDir_updateDirs_self db.dirs n refsDec refsDec_dirname, hd0]
        rfl
      rcases hdp : dirParent n with _ | p
      · -- the root: nothing further to unref
        have htop : toParentDb (dirUnrefFuel fuel) (decDirsStat (decRefs db n)) n =
            decDirsStat (decRefs db n) := by
          unfold toParentDb
          rw [hdp]
        rw [htop]
        have hlceq : ∀ dn, liveChildCount (updateDirs db.dirs n refsDec) dn =
            liveChildCount db.dirs dn := by
          intro dn
          have h := hflip dn
          rw [if_neg (by rw [hdp]; intro he; cases he)] at h
          omega
        refine ⟨rfl, hnmap, ?_⟩
        intro d' hd'
        obtain ⟨dd, hddmem, hddeq⟩ := mem_updateDirs hd'
        by_cases hddn : dd.dirname = n
        · have he := huniq dd hddmem hddn
          subst he
          rw [if_pos (by simp [hddn])] at hddeq
          rw [hddeq]
          show dd.refs - 1 = (ownedCountF db.files dd.dirname : Int) +
            (liveChildCount (updateDirs db.dirs n refsDec) dd.dirname : Int)
          rw [hlceq, hddn]
          omega
        · rw [if_neg (by simp [hddn])] at hddeq
          rw [hddeq]
          show dd.refs = (ownedCountF db.files dd.dirname : Int) +
            (liveChildCount (updateDirs db.dirs n refsDec) dd.dirname : Int)
          rw [hlceq]
          exact hpre dd hddmem hddn
      · -- unref the parent of the now-dead directory
        have hpmem : p ∈ db.dirs.map (fun d => d.dirname) := by
          have hd0mem := findDir_mem hd0
          exact hwf.2 d0 hd0mem p (by rw [hnn, hdp])
        obtain ⟨p0, hp0mem, hp0name⟩ : ∃ p0 ∈ db.dirs, p0.dirname = p :=
          List.mem_map.mp hpmem
        have hplen : strLen p < strLen n := dirParent_length_lt hdp
        have hpn : p ≠ n := fun he => by rw [he] at hplen; omega
        have hnp0 : p0.dirname ≠ n := by rw [hp0name]; exact hpn
        have hp0find : findDir db.dirs p = some p0 := by
          have h := findDir_of_mem_nodup hwf.1 hp0mem
          rw [hp0name] at h
          exact h
        set db3 : Db := decDirsStat (decRefs db n) with hdb3
        have hdb3dirs : db3.dirs = updateDirs db.dirs n refsDec := rfl
        have hdb3files : db3.files = db.files := rfl
        have htop : toParentDb (dirUnrefFuel fuel) db3 n = dirUnrefFuel fuel db3 p := by
          unfold toParentDb
          rw [hdp]
        rw [htop]
        have hwf3 : dirsWf db3 := by
          constructor
          · rw [hdb3dirs, hnmap]
            exact hwf.1
          · intro d hd q hq
            rw [hdb3dirs] at hd
            obtain ⟨dd, hddmem, hddeq⟩ := mem_updateDirs hd
            rw [hdb3dirs, hnmap]
            by_cases hddn : dd.dirname = n
            · rw [if_pos (by simp [hddn])] at hddeq
              apply hwf.2 dd hddmem q
              rw [hddeq] at hq
              exact hq
            · rw [if_neg (by simp [hddn])] at hddeq
              apply hwf.2 dd hddmem q
              rw [hddeq] at hq
              exact hq
        have hp0find3 : findDir db3.dirs p = some p0 := by
          rw [hdb3dirs]
          rw [findDir_updateDirs_of_ne db.dirs n p refsDec refsDec_dirname hpn]
          exact hp0find
        have hpre3 : ∀ d ∈ db3.dirs, d.dirname ≠ p →
            d.refs = (ownedCountF db3.files d.dirname : Int) +
              (liveChildCount db3.dirs d.dirname : Int) := by
          intro d hd hdnp
          rw [hdb3files, hdb3dirs]
          rw [hdb3dirs] at hd
          obtain ⟨dd, hddmem, hddeq⟩ := mem_updateDirs hd
          by_cases hddn : dd.dirname = n
          · have he := huniq dd hddmem hddn
            subst he
            rw [if_pos (by simp [hddn])] at hddeq
            rw [hddeq]
            show dd.refs - 1 = (ownedCountF db.files dd.dirname : Int) +
              (liveChildCount (updateDirs db.dirs n refsDec) dd.dirname : Int)
            have h := hflip dd.dirname
            rw [hddn] at h ⊢
            rw [hdp] at h
            rw [if_neg (fun he => hpn (Option.some.inj he))] at h
            omega
          · rw [if_neg (by simp [hddn])] at hddeq
            rw [hddeq]
            show dd.refs = (ownedCountF db.files dd.dirname : Int) +
              (liveChildCount (updateDirs db.dirs n refsDec) dd.dirname : Int)
            have h := hflip dd.dirname
            have hdq : dd.dirname ≠ p := by
              rw [hddeq] at hdnp
              exact hdnp
            rw [hdp] at h
            rw [if_neg (fun he => hdq (Option.some.inj he).symm)] at h
            have hp2 := hpre dd hddmem hddn
            omega
        have hextra3 : p0.refs = (ownedCountF db3.files p : Int) +
            (liveChildCount db3.dirs p : Int) + 1 := by
          rw [hdb3files, hdb3dirs]
          have h := hflip p
          rw [if_pos (by rw [hdp])] at h
          have hp0inv := hpre p0 hp0mem hnp0
          rw [hp0name] at hp0inv
          omega
        obtain ⟨ihFiles, ihMap, ihInv⟩ :=
          ih db3 p p0 (by omega) hwf3 hp0find3 hpre3 hextra3
        refine ⟨?_, ?_, ?_⟩
        · rw [ihFiles, hdb3files]
        · rw [ihMap, hdb3dirs, hnmap]
        · intro d' hd'
          have h := ihInv d' hd'
          rw [hdb3files] at h
          exact h

theorem dirsWf_of_map_eq {db db' : Db}
    (h : db'.dirs.map (fun d => d.dirname) = db.dirs.map (fun d => d.dirname))
    (hwf : dirsWf db) : dirsWf db' := by
  constructor
  · rw [h]
    exact hwf.1
  · intro d hd p hp
    rw [h]
    have hmem : d.dirname ∈ db.dirs.map (fun d0 => d0.dirname) := by
      rw [← h]
      exact List.mem_map.mpr ⟨d, hd, rfl⟩
    obtain ⟨d0, hd0, hdn⟩ := List.mem_map.mp hmem
    exact hwf.2 d0 hd0 p (by rw [hdn]; exact hp)

/-- Granting ownership of a previously unowned file preserves the
reference-count invariant: `apk_db_dir_ref` adds one reference to the file's
directory and the新 recorded owner accounts for it. -/
theorem apk_db_file_set_owner_invariant (db : Db) (idx : Nat) (o : PkgRef) (cr : Bool)
    (lst : List Nat) (f : DbFile) (d0 : DbDir)
    (hwf : dirsWf db) (hinv : refsInvariant db)
    (hf : db.files[idx]? = some f) (hown : f.owner = none)
    (hd0 : findDir db.dirs f.dirname = some d0) :
    refsInvariant (apk_db_file_set_owner db idx o cr lst).1 ∧
    dirsWf (apk_db_file_set_owner db idx o cr lst).1 ∧
    (apk_db_file_set_owner db idx o cr lst).1.files =
      db.files.set idx { f with owner := some o } ∧
    (apk_db_file_set_owner db idx o cr lst).1.dirs.map (fun d => d.dirname) =
      db.dirs.map (fun d => d.dirname) := by
  -- reduce the call along the unowned branch
  have hred : apk_db_file_set_owner db idx o cr lst =
      (let dbA : Db := { db with statsFiles := db.statsFiles + 1 }
       let db2 := apk_db_dir_ref dbA f.dirname cr
       ({ db2 with files := db2.files.set idx { f with owner := some o } }, lst ++ [idx])) := by
    unfold apk_db_file_set_owner
    simp only [hf, hown]
  rw [hred]
  set dbA : Db := { db with statsFiles := db.statsFiles + 1 } with hdbA
  have hwfA : dirsWf dbA := hwf
  have hinvA : refsInvariant dbA := hinv
  have hdA : findDir dbA.dirs f.dirname = some d0 := hd0
  obtain ⟨rFiles, rMap, rFound, rInv, rLc, rFind⟩ :=
    dirRefFuel_invariant (strLen f.dirname + 1) dbA f.dirname cr d0
      (Nat.lt_succ_self _) hwfA hinvA hdA
  set db2 := dirRefFuel (strLen f.dirname + 1) dbA f.dirname cr with hdb2
  have hfilesA : dbA.files = db.files := rfl
  rw [hfilesA] at rFiles
  have hnd2 : (db2.dirs.map (fun d => d.dirname)).Nodup := by
    rw [rMap]
    exact hwf.1
  have hgain : ∀ dn, ownedCountF (db2.files.set idx { f with owner := some o }) dn =
      ownedCountF db.files dn + (if f.dirname = dn then 1 else 0) := by
    intro dn
    rw [rFiles]
    exact ownedCountF_set_gain db.files idx f { f with owner := some o }
      hf rfl hown rfl dn
  refine ⟨?_, ?_, ?_, ?_⟩
  · intro d' hd'
    show d'.refs = (ownedCountF (db2.files.set idx { f with owner := some o }) d'.dirname : Int) +
      (liveChildCount db2.dirs d'.dirname : Int)
    rw [hgain]
    by_cases hdn : d'.dirname = f.dirname
    · have hd'val : d' = { d0 with refs := d0.refs + 1 } := by
        have hfd := findDir_of_mem_nodup hnd2 hd'
        rw [hdn, rFound] at hfd
        cases hfd
        rfl
      have hlc := rLc f.dirname (Nat.le_refl _)
      have hinv0 := hinv d0 (findDir_mem hd0)
      have hd0n : d0.dirname = f.dirname := findDir_eq_dirname hd0
      have hdirsA : dbA.dirs = db.dirs := rfl
      rw [hd0n] at hinv0
      rw [hdirsA] at hlc
      have hrefs : d'.refs = d0.refs + 1 := by rw [hd'val]
      rw [hdn, if_pos rfl, hlc]
      omega
    · have hih := rInv d' hd' hdn
      rw [if_neg (fun he => hdn he.symm)]
      rw [hfilesA] at hih
      simpa using hih
  · refine dirsWf_of_map_eq ?_ hwf
    show db2.dirs.map (fun d => d.dirname) = db.dirs.map (fun d => d.dirname)
    rw [rMap]
  · show db2.files.set idx { f with owner := some o } = db.files.set idx { f with owner := some o }
    rw [rFiles]
  · exact rMap

/-- One purge iteration preserves the reference-count invariant: nulling the
owner removes one owned-file count from the file's directory and
`apk_db_dir_unref` removes the matching reference. -/
theorem purgeStep_invariant (db : Db) (acts : List FsAct) (idx : Nat) (f : DbFile) (d0 : DbDir)
    (hinv : refsInvariant db) (hwf : dirsWf db)
    (hf : db.files[idx]? = some f) (hfo : f.owner.isSome = true)
    (hfind : findDir db.dirs f.dirname = some d0) :
    refsInvariant (purgeStep (db, acts) idx).1 ∧
    dirsWf (purgeStep (db, acts) idx).1 ∧
    (purgeStep (db, acts) idx).1.dirs.map (fun d => d.dirname) =
      db.dirs.map (fun d => d.dirname) ∧
    (purgeStep (db, acts) idx).1.files =
      db.files.set idx { f with owner := none } := by
  have hred : purgeStep (db, acts) idx =
      (let db1 : Db := { db with files := db.files.set idx { f with owner := none } }
       let db2 := apk_db_dir_unref db1 f.dirname
       ({ db2 with statsFiles := db2.statsFiles - 1 },
        acts ++ [FsAct.unlink (f.dirname ++ "/" ++ f.filename)])) := by
    unfold purgeStep
    simp only [hf]
  rw [hred]
  set db1 : Db := { db with files := db.files.set idx { f with owner := none } } with hdb1
  have hlose : ∀ dn, ownedCountF db1.files dn + (if f.dirname = dn then 1 else 0) =
      ownedCountF db.files dn := by
    intro dn
    show ownedCountF (db.files.set idx { f with owner := none }) dn + _ = _
    exact ownedCountF_set_lose db.files idx f { f with owner := none } hf rfl hfo rfl dn
  have hwf1 : dirsWf db1 := hwf
  have hfind1 : findDir db1.dirs f.dirname = some d0 := hfind
  have hpre : ∀ d ∈ db1.dirs, d.dirname ≠ f.dirname →
      d.refs = (ownedCountF db1.files d.dirname : Int) +
        (liveChildCount db1.dirs d.dirname : Int) := by
    intro d hd hdn
    have h0 := hinv d hd
    have hl := hlose d.dirname
    rw [if_neg (fun he => hdn he.symm)] at hl
    show d.refs = (ownedCountF db1.files d.dirname : Int) +
      (liveChildCount db.dirs d.dirname : Int)
    omega
  have hextra : d0.refs = (ownedCountF db1.files f.dirname : Int) +
      (liveChildCount db1.dirs f.dirname : Int) + 1 := by
    have h0 := hinv d0 (findDir_mem hfind)
    have hd0dn : d0.dirname = f.dirname := findDir_eq_dirname hfind
    rw [hd0dn] at h0
    have hl := hlose f.dirname
    rw [if_pos rfl] at hl
    show d0.refs = (ownedCountF db1.files f.dirname : Int) +
      (liveChildCount db.dirs f.dirname : Int) + 1
    omega
  obtain ⟨uFiles, uMap, uInv⟩ :=
    dirUnrefFuel_invariant (strLen f.dirname + 1) db1 f.dirname d0
      (Nat.lt_succ_self _) hwf1 hfind1 hpre hextra
  set db2 : Db := dirUnrefFuel (strLen f.dirname + 1) db1 f.dirname with hdb2
  refine ⟨?_, ?_, ?_, ?_⟩
  · intro d hd
    show d.refs = (ownedCountF db2.files d.dirname : Int) +
      (liveChildCount db2.dirs d.dirname : Int)
    rw [uFiles]
    exact uInv d hd
  · refine dirsWf_of_map_eq ?_ hwf1
    show db2.dirs.map (fun d => d.dirname) = db1.dirs.map (fun d => d.dirname)
    exact uMap
  · show db2.dirs.map (fun d => d.dirname) = db.dirs.map (fun d => d.dirname)
    exact uMap
  · show db2.files = db.files.set idx { f with owner := none }
    exact uFiles

/-- Folding `purgeStep` over a duplicate-free list of owned-file indices whose
directories are interned preserves the reference-count invariant and the
directory table's names. -/
theorem purgeFold_invariant (l : List Nat) : ∀ (db : Db) (acts : List FsAct),
    refsInvariant db → dirsWf db → l.Nodup →
    (∀ idx ∈ l, ∃ f : DbFile, db.files[idx]? = some f ∧ f.owner.isSome = true ∧
      f.dirname ∈ db.dirs.map (fun d => d.dirname)) →
    refsInvariant (l.foldl purgeStep (db, acts)).1 ∧
    dirsWf (l.foldl purgeStep (db, acts)).1 ∧
    (l.foldl purgeStep (db, acts)).1.dirs.map (fun d => d.dirname) =
      db.dirs.map (fun d => d.dirname) := by
  induction l with
  | nil =>
    intro db acts hinv hwf _ _
    exact ⟨hinv, hwf, rfl⟩
  | cons idx rest ih =>
    intro db acts hinv hwf hnd hfiles
    obtain ⟨f, hf, hfo, hfd⟩ := hfiles idx (by simp)
    obtain ⟨d0, hd0mem, hd0n⟩ := List.mem_map.mp hfd
    have hfind : findDir db.dirs f.dirname = some d0 := by
      rw [← hd0n]
      exact findDir_of_mem_nodup hwf.1 hd0mem
    obtain ⟨sInv, sWf, sMap, sFiles⟩ :=
      purgeStep_invariant db acts idx f d0 hinv hwf hf hfo hfind
    have hnotin : idx ∉ rest := (List.nodup_cons.mp hnd).1
    have hndr : rest.Nodup := (List.nodup_cons.mp hnd).2
    have hrest : ∀ idx2 ∈ rest, ∃ f2 : DbFile,
        (purgeStep (db, acts) idx).1.files[idx2]? = some f2 ∧ f2.owner.isSome = true ∧
        f2.dirname ∈ (purgeStep (db, acts) idx).1.dirs.map (fun d => d.dirname) := by
      intro idx2 hidx2
      obtain ⟨f2, hf2, hfo2, hfd2⟩ := hfiles idx2 (List.mem_cons_of_mem _ hidx2)
      have hne : idx ≠ idx2 := fun he => hnotin (he ▸ hidx2)
      refine ⟨f2, ?_, hfo2, ?_⟩
      · rw [sFiles, List.getElem?_set_ne hne]
        exact hf2
      · rw [sMap]
        exact hfd2
    obtain ⟨rInv, rWf, rMap⟩ := ih (purgeStep (db, acts) idx).1 (purgeStep (db, acts) idx).2
      sInv sWf hndr hrest
    rw [List.foldl_cons]
    refine ⟨rInv, rWf, ?_⟩
    calc (List.foldl purgeStep (purgeStep (db, acts) idx) rest).1.dirs.map (fun d => d.dirname)
        = (purgeStep (db, acts) idx).1.dirs.map (fun d => d.dirname) := rMap
      _ = db.dirs.map (fun d => d.dirname) := sMap

/-- FDB lines describing one installed package owning `usr/bin/foo`. -/
def c2Lines : List FdbLine :=
  [.pkginfo { name := "foo", version := "1.0", csum := 7 },
   .fdir "usr/bin", .rfile "foo", .zsum 9, .blank]

/-- The database obtained by loading `c2Lines` as the installed database. -/
def c2CtxDb : Db := (apk_db_index_read emptyDb c2Lines (-1)).1

/-- The installed package of the C2 witness database. -/
def c2WitnessPkg : DbPkg :=
  { info := { name := "base", version := "1.0", csum := 5 },
    state := .install, owned := [0] }

/-- A well-formed installed database: `base` owns `etc/passwd`; `etc` carries
one reference (its file), the root carries one (its live child `etc`). -/
def c2WitnessDb : Db :=
  { files := [{ dirname := "etc", filename := "passwd", csum := some 3,
                owner := some { csum := 5, name := "base" } }],
    dirs := [{ dirname := "etc", refs := 1, files := [0] },
             { dirname := "", refs := 1 }],
    packages := [c2WitnessPkg],
    installed := [5], statsPackages := 1, statsDirs := 2, statsFiles := 1 }

/-- **C2** (corrected).  The reference count a directory actually maintains
is the number of installed files it holds *plus* the number of its child
directories with a positive reference count: a child contributes one
reference to its parent on its own 0 → 1 edge (`apk_db_dir_ref`, lines
110-112).  That invariant is preserved when `apk_db_file_set_owner` grants
ownership of a previously unowned file and when `apk_db_purge_pkg` purges an
installed package, and under it `refs = 0` holds exactly when the directory
has no installed file *and* no live child directory.  The spec's stronger
claim — `refs` equals the number of installed files alone — is refuted by
`dir_refs_counts_files_counterexample`. -/
theorem c2_dir_refs_invariant :
    (∀ (db : Db) (idx : Nat) (o : PkgRef) (cr : Bool) (lst : List Nat) (f : DbFile)
       (d0 : DbDir), dirsWf db → refsInvariant db →
      db.files[idx]? = some f → f.owner = none → findDir db.dirs f.dirname = some d0 →
      refsInvariant (apk_db_file_set_owner db idx o cr lst).1 ∧
        dirsWf (apk_db_file_set_owner db idx o cr lst).1) ∧
    (∀ (db : Db) (c : Csum) (pkg : DbPkg),
      dirsWf db → refsInvariant db → lookupPkg db c = some pkg → pkg.owned.Nodup →
      (∀ idx ∈ pkg.owned, ∃ f : DbFile, db.files[idx]? = some f ∧ f.owner.isSome = true ∧
        f.dirname ∈ db.dirs.map (fun d => d.dirname)) →
      refsInvariant (apk_db_purge_pkg db c).1 ∧ dirsWf (apk_db_purge_pkg db c).1) ∧
    (∀ (db : Db), refsInvariant db → ∀ d ∈ db.dirs,
      (d.refs = 0 ↔ ownedCountF db.files d.dirname = 0 ∧
        liveChildCount db.dirs d.dirname = 0)) := by
  refine ⟨?_, ?_, ?_⟩
  · intro db idx o cr lst f d0 hwf hinv hf hown hd0
    obtain ⟨h1, h2, _, _⟩ :=
      apk_db_file_set_owner_invariant db idx o cr lst f d0 hwf hinv hf hown hd0
    exact ⟨h1, h2⟩
  · intro db c pkg hwf hinv hlk hnd hfiles
    have hred : apk_db_purge_pkg db c =
        (let step := pkg.owned.foldl purgeStep (db, [])
         let pkgs1 := updatePkgs step.1.packages c (fun p => { p with owned := [] })
         let db4 := { step.1 with packages := pkgs1 }
         (apk_pkg_set_state db4 c .available, step.2)) := by
      unfold apk_db_purge_pkg
      simp only [hlk]
    rw [hred]
    obtain ⟨fInv, fWf, fMap⟩ := purgeFold_invariant pkg.owned db [] hinv hwf hnd hfiles
    constructor
    · intro d hd
      exact fInv d hd
    · refine dirsWf_of_map_eq ?_ fWf
      rfl
  · intro db hinv d hd
    have h := hinv d hd
    have h1 : (0 : Int) ≤ (ownedCountF db.files d.dirname : Int) := Int.ofNat_nonneg _
    have h2 : (0 : Int) ≤ (liveChildCount db.dirs d.dirname : Int) := Int.ofNat_nonneg _
    omega

/-- The spec's per-directory claim `refs = |{installed files in the
directory}|` fails: after loading an installed database containing
`usr/bin/foo`, directory `usr` has `refs = 1` while holding no installed
file — its single reference comes from the live child directory `usr/bin`. -/
theorem dir_refs_counts_files_counterexample :
    (findDir c2CtxDb.dirs "usr").map (fun d => d.refs) = some 1 ∧
    ownedCountF c2CtxDb.files "usr" = 0 ∧
    liveChildCount c2CtxDb.dirs "usr" = 1 := by
  refine ⟨by decide, by decide, by decide⟩

/-- Concrete run of the C2 invariant: purging `base` from `c2WitnessDb`
leaves a database still satisfying the corrected reference-count law. -/
theorem c2_dir_refs_invariant_witness :
    refsInvariant (apk_db_purge_pkg c2WitnessDb 5).1 ∧
    dirsWf (apk_db_purge_pkg c2WitnessDb 5).1 := by
  have hwf : dirsWf c2WitnessDb := by
    refine ⟨by decide, ?_⟩
    intro d hd p hp
    fin_cases hd
    · have h2 : dirParent "etc" = some "" := by decide
      rw [h2] at hp
      have hpe : p = "" := (Option.some.inj hp).symm
      subst hpe
      decide
    · have h2 : dirParent "" = none := by decide
      rw [h2] at hp
      exact Option.noConfusion hp
  have hinv : refsInvariant c2WitnessDb := by
    unfold refsInvariant
    decide
  have hfiles : ∀ idx ∈ c2WitnessPkg.owned, ∃ f : DbFile,
      c2WitnessDb.files[idx]? = some f ∧ f.owner.isSome = true ∧
      f.dirname ∈ c2WitnessDb.dirs.map (fun d => d.dirname) := by
    intro idx hidx
    have hidx0 : idx = 0 := by
      simpa [c2WitnessPkg] using hidx
    subst hidx0
    exact ⟨_, rfl, rfl, by decide⟩
  exact c2_dir_refs_invariant.2.1 c2WitnessDb 5 c2WitnessPkg hwf hinv rfl (by decide) hfiles

theorem updatePkgs_map_csum (pkgs : List DbPkg) (c : Csum) (f : DbPkg → DbPkg)
    (hf : ∀ p, (f p).info.csum = p.info.csum) :
    (updatePkgs pkgs c f).map (fun p => p.info.csum) = pkgs.map (fun p => p.info.csum) := by
  unfold updatePkgs
  rw [List.map_map]
  refine List.map_congr_left ?_
  intro p hp
  by_cases h : p.info.csum = c
  · simp [h, hf]
  · simp [h]

/-- The duplicate branch's update: OR the argument's repo bits into the
preexisting record (`idb->repos |= pkg->repos`). -/
def orRepos (r : Nat) (p : DbPkg) : DbPkg := { p with repos := p.repos ||| r }

/-- The fresh-instance branch of `apk_db_pkg_add` (lines 251-255). -/
theorem apk_db_pkg_add_new (db : Db) (pkg : DbPkg)
    (h : findPkg db.packages pkg.info.csum = none) :
    apk_db_pkg_add db pkg =
      ({ db with pkg_id := db.pkg_id + 1,
                 packages := db.packages ++ [{ pkg with id := db.pkg_id }],
                 names := nameAddPkg db.names pkg.info.name pkg.info.csum },
       pkg.info.csum, true) := by
  unfold apk_db_pkg_add
  rw [h]

/-- The duplicate branch of `apk_db_pkg_add` (lines 256-259). -/
theorem apk_db_pkg_add_dup (db : Db) (pkg idb : DbPkg)
    (h : findPkg db.packages pkg.info.csum = some idb) :
    apk_db_pkg_add db pkg =
      ({ db with packages := updatePkgs db.packages pkg.info.csum (orRepos pkg.repos) },
       idb.info.csum, false) := by
  unfold apk_db_pkg_add
  rw [h]
  rfl

/-- A fresh package for the C6 witness. -/
def c6Pkg : DbPkg := { info := { name := "foo", version := "1.0", csum := 11 } }

/-- **C6** (confirmed).  `apk_db_pkg_add`: when no package with the argument's
checksum is present, the argument receives the next id (`pkg_id++`), is
appended to `available.packages` and to its name's `pkgs` array, and is the
returned instance (flag `true`); when one is present, only the preexisting
record's `repos` bits are OR-ed and that record is returned (flag `false`).
Consequently checksum-uniqueness of `available.packages` is preserved. -/
theorem c6_apk_db_pkg_add_spec :
    (∀ (db : Db) (pkg : DbPkg), findPkg db.packages pkg.info.csum = none →
      apk_db_pkg_add db pkg =
        ({ db with pkg_id := db.pkg_id + 1,
                   packages := db.packages ++ [{ pkg with id := db.pkg_id }],
                   names := nameAddPkg db.names pkg.info.name pkg.info.csum },
         pkg.info.csum, true)) ∧
    (∀ (db : Db) (pkg idb : DbPkg), findPkg db.packages pkg.info.csum = some idb →
      apk_db_pkg_add db pkg =
        ({ db with packages := updatePkgs db.packages pkg.info.csum (orRepos pkg.repos) },
         idb.info.csum, false)) ∧
    (∀ (db : Db) (pkg : DbPkg),
      (db.packages.map (fun p => p.info.csum)).Nodup →
      ((apk_db_pkg_add db pkg).1.packages.map (fun p => p.info.csum)).Nodup) := by
  refine ⟨?_, ?_, ?_⟩
  · intro db pkg h
    exact apk_db_pkg_add_new db pkg h
  · intro db pkg idb h
    exact apk_db_pkg_add_dup db pkg idb h
  · intro db pkg hnd
    rcases h : findPkg db.packages pkg.info.csum with _ | idb
    · have hred : (apk_db_pkg_add db pkg).1.packages =
          db.packages ++ [{ pkg with id := db.pkg_id }] := by
        rw [apk_db_pkg_add_new db pkg h]
      rw [hred, List.map_append, List.nodup_append]
      refine ⟨hnd, List.nodup_singleton _, ?_⟩
      intro c hc hc2
      obtain ⟨p, hp, hpc⟩ := List.mem_map.mp hc
      have hfp := List.find?_eq_none.mp h p hp
      simp only [List.map_cons, List.map_nil, List.mem_singleton] at hc2
      apply hfp
      show (p.info.csum == pkg.info.csum) = true
      rw [hpc, hc2]
      exact beq_self_eq_true _
    · have hred : (apk_db_pkg_add db pkg).1.packages =
          updatePkgs db.packages pkg.info.csum (orRepos pkg.repos) := by
        rw [apk_db_pkg_add_dup db pkg idb h]
      have hmap := updatePkgs_map_csum db.packages pkg.info.csum
        (orRepos pkg.repos) (fun p => rfl)
      rw [hred, hmap]
      exact hnd

/-- Concrete run of C6: adding a fresh package to the empty database assigns
id 0, bumps `pkg_id` to 1, inserts the record and interns its name. -/
theorem c6_apk_db_pkg_add_spec_witness :
    apk_db_pkg_add emptyDb c6Pkg =
      ({ pkg_id := 1, packages := [{ c6Pkg with id := 0 }], names := [("foo", [11])] }, 11, true) :=
  (c6_apk_db_pkg_add_spec.1 emptyDb c6Pkg rfl).trans (by decide)

/-- Composing the reader's line loop over an error-free prefix. -/
theorem readFold_append (pre rest : List FdbLine) : ∀ (st : ReadSt) (repo : Int),
    (readFold st pre repo).2 = none →
    readFold st (pre ++ rest) repo = readFold (readFold st pre repo).1 rest repo := by
  induction pre with
  | nil =>
    intro st repo _
    rfl
  | cons l pre ih =>
    intro st repo h
    have hstep : ∀ xs, readFold st (l :: xs) repo =
        (match (readLine st l repo).2 with
         | some e => ((readLine st l repo).1, some e)
         | none => readFold (readLine st l repo).1 xs repo) := by
      intro xs
      rfl
    rcases hr : (readLine st l repo).2 with _ | e
    · have h2 : (readFold (readLine st l repo).1 pre repo).2 = none := by
        rw [hstep pre, hr] at h
        exact h
      simp only [List.cons_append, hstep, hr]
      exact ih (readLine st l repo).1 repo h2
    · exfalso
      rw [hstep pre, hr] at h
      exact Option.noConfusion h

/-- `find?` by checksum survives a checksum-preserving package update. -/
theorem findPkg_updatePkgs_isSome (pkgs : List DbPkg) (c c2 : Csum) (f : DbPkg → DbPkg)
    (hf : ∀ p, (f p).info.csum = p.info.csum) :
    (findPkg (updatePkgs pkgs c f) c2).isSome = (findPkg pkgs c2).isSome := by
  unfold findPkg updatePkgs
  rw [Bool.eq_iff_iff, List.find?_isSome, List.find?_isSome]
  constructor
  · rintro ⟨x, hx, hxc⟩
    obtain ⟨y, hy, hyx⟩ := List.mem_map.mp hx
    refine ⟨y, hy, ?_⟩
    have hyc : x.info.csum = y.info.csum := by
      rw [← hyx]
      by_cases hc : (y.info.csum == c) = true
      · simp [hc, hf]
      · simp [hc]
    rw [← hyc]
    exact hxc
  · rintro ⟨y, hy, hyc⟩
    refine ⟨if y.info.csum == c then f y else y, List.mem_map_of_mem _ hy, ?_⟩
    have hsame : (if y.info.csum == c then f y else y).info.csum = y.info.csum := by
      by_cases hc : (y.info.csum == c) = true
      · simp [hc, hf]
      · simp [hc]
    rw [hsame]
    exact hyc

/-- Finalizing an installed-database record whose checksum is already
registered yields the fatal load error (lines 292-295). -/
theorem finalizePkg_dup (db : Db) (bp : BuildPkg) (i : PkgInfo) (j : DbPkg)
    (hinfo : bp.info = some i)
    (hj : findPkg (apk_pkg_set_state db i.csum .install).packages i.csum = some j) :
    (finalizePkg db bp (-1)).2 = some "Installed database load failed" := by
  have hdupadd := apk_db_pkg_add_dup (apk_pkg_set_state db i.csum .install)
    { info := i, repos := repoBits (-1), state := .install, owned := bp.owned } j hj
  unfold finalizePkg
  rw [hinfo]
  show (let added := apk_db_pkg_add (apk_pkg_set_state db i.csum PkgState.install)
          { info := i, repos := repoBits (-1), state := PkgState.install, owned := bp.owned }
        if added.2.2 = false ∧ (-1 : Int) = -1 then (added.1, some "Installed database load failed")
        else (added.1, none)).2 = some "Installed database load failed"
  rw [hdupadd]
  rfl

/-- **C5** (confirmed).  Loading the installed database (repo = -1): if the
stream reaches a record terminator with a package in progress whose checksum
is already registered in `available.packages`, the load stops with the error
"Installed database load failed" and `apk_db_index_read` returns -1. -/
theorem c5_duplicate_installed_fatal (db : Db) (pre rest : List FdbLine)
    (bp : BuildPkg) (i : PkgInfo) (idb : DbPkg)
    (hpre : (readFold { db := db } pre (-1)).2 = none)
    (hpkg : (readFold { db := db } pre (-1)).1.pkg = some bp)
    (hinfo : bp.info = some i)
    (hdup : findPkg (readFold { db := db } pre (-1)).1.db.packages i.csum = some idb) :
    (apk_db_index_read db (pre ++ FdbLine.blank :: rest) (-1)).2 =
      some "Installed database load failed" ∧
    apk_db_index_read_ret db (pre ++ FdbLine.blank :: rest) (-1) = -1 := by
  set st1 := (readFold ({ db := db } : ReadSt) pre (-1)).1 with hst1
  have hsome : (findPkg (apk_pkg_set_state st1.db i.csum .install).packages i.csum).isSome
      = true := by
    show (findPkg (updatePkgs st1.db.packages i.csum
      (fun p => { p with state := PkgState.install })) i.csum).isSome = true
    rw [findPkg_updatePkgs_isSome st1.db.packages i.csum i.csum
      (fun p => { p with state := PkgState.install }) (fun p => rfl), hdup]
    rfl
  have hfin2 : (finalizePkg st1.db bp (-1)).2 = some "Installed database load failed" := by
    rcases hj : findPkg (apk_pkg_set_state st1.db i.csum .install).packages i.csum with _ | j
    · rw [hj] at hsome
      simp at hsome
    · exact finalizePkg_dup st1.db bp i j hinfo hj
  have hblank2 : (readLine st1 FdbLine.blank (-1)).2 = some "Installed database load failed" := by
    unfold readLine
    simp only [hpkg]
    exact hfin2
  have hL := readFold_append pre (FdbLine.blank :: rest) ({ db := db } : ReadSt) (-1) hpre
  have hread : (apk_db_index_read db (pre ++ FdbLine.blank :: rest) (-1)).2 =
      some "Installed database load failed" := by
    show (readFold ({ db := db } : ReadSt) (pre ++ FdbLine.blank :: rest) (-1)).2 = _
    rw [hL]
    have hstep : readFold st1 (FdbLine.blank :: rest) (-1) =
        (match (readLine st1 FdbLine.blank (-1)).2 with
         | some e => ((readLine st1 FdbLine.blank (-1)).1, some e)
         | none => readFold (readLine st1 FdbLine.blank (-1)).1 rest (-1)) := rfl
    rw [hstep, hblank2]
  refine ⟨hread, ?_⟩
  unfold apk_db_index_read_ret
  rw [hread]
  rfl

/-- The duplicated package record of the C5 witness. -/
def c5Info : PkgInfo := { name := "a", version := "1", csum := 3 }

/-- A line stream whose second complete record repeats `c5Info`'s checksum. -/
def c5Pre : List FdbLine := [.pkginfo c5Info, .blank, .pkginfo c5Info]

/-- Concrete run of C5: an installed database containing two complete records
with the same checksum fails to load with the fatal error and -1. -/
theorem c5_duplicate_installed_fatal_witness :
    (apk_db_index_read emptyDb (c5Pre ++ FdbLine.blank :: []) (-1)).2 =
      some "Installed database load failed" ∧
    apk_db_index_read_ret emptyDb (c5Pre ++ FdbLine.blank :: []) (-1) = -1 :=
  c5_duplicate_installed_fatal emptyDb c5Pre [] { info := some c5Info } c5Info
    { info := c5Info, state := .install } (by decide) (by decide) rfl (by decide)

/-- **C10** (confirmed).  `apk_db_add_repository` below the slot limit:
`r = db->num_repos++` and the url assignment happen before the index file is
opened, so when the open fails the function returns -1 with the slot already
consumed — `num_repos` incremented and the slot's url recorded. -/
theorem c10_failed_repository_consumes_slot (db : Db) (url : String)
    (openIndex : String → Option (List FdbLine))
    (hroom : db.num_repos < APK_MAX_REPOS)
    (hopen : openIndex (url ++ "/APK_INDEX.gz") = none) :
    apk_db_add_repository db url openIndex =
      ({ db with num_repos := db.num_repos + 1, repos := db.repos ++ [url] }, -1) := by
  unfold apk_db_add_repository
  rw [if_neg (Nat.not_le.mpr hroom), hopen]

/-- Concrete run of C10: adding a repository whose index cannot be opened to
the empty database returns -1 yet leaves `num_repos = 1` with the url stored. -/
theorem c10_failed_repository_consumes_slot_witness :
    apk_db_add_repository emptyDb "r" (fun _ => none) =
      ({ emptyDb with num_repos := 1, repos := ["r"] }, -1) :=
  (c10_failed_repository_consumes_slot emptyDb "r" (fun _ => none)
    (by decide) rfl).trans (by decide)

/-- **C7** (confirmed).  Pure removal (`old_pkg` present, `new_pkg` absent):
a nonzero `PRE_DEINSTALL` exit aborts before any purge — the database is
returned untouched with no filesystem action and the script's exit code;
otherwise the package is purged and the call returns 0, whatever the
`POST_DEINSTALL` script (left unconstrained in `env`) exits with. -/
theorem c7_pure_removal (db : Db) (oldc : Csum) (env : InstallEnv)
    (bs : Option ArchiveStream) :
    (env.runScript oldc .preDeinstall ≠ 0 →
      apk_db_install_pkg db (some oldc) none env bs =
        { db := db, ret := env.runScript oldc .preDeinstall }) ∧
    (env.runScript oldc .preDeinstall = 0 →
      apk_db_install_pkg db (some oldc) none env bs =
        { db := (apk_db_purge_pkg db oldc).1,
          acts := (apk_db_purge_pkg db oldc).2, ret := 0 }) := by
  have hred : apk_db_install_pkg db (some oldc) none env bs =
      (if env.runScript oldc .preDeinstall ≠ 0 then
        { db := db, ret := env.runScript oldc .preDeinstall }
       else
        { db := (apk_db_purge_pkg db oldc).1,
          acts := (apk_db_purge_pkg db oldc).2, ret := 0 }) := rfl
  constructor
  · intro h
    rw [hred, if_pos h]
  · intro h
    rw [hred, if_neg (show ¬env.runScript oldc ScriptType.preDeinstall ≠ 0 from fun hn => hn h)]

/-- Script oracle for the C7 witness: `PRE_DEINSTALL` succeeds, every other
script (in particular `POST_DEINSTALL`) exits 7. -/
def c7Env : InstallEnv :=
  { runScript := fun _ t => if t = .preDeinstall then 0 else 7,
    diskInfo := fun _ => none }

/-- Concrete run of C7: removal with a succeeding pre-deinstall script purges
and returns 0 even though the post-deinstall script exits 7. -/
theorem c7_pure_removal_witness :
    apk_db_install_pkg emptyDb (some 9) none c7Env none =
      { db := (apk_db_purge_pkg emptyDb 9).1,
        acts := (apk_db_purge_pkg emptyDb 9).2, ret := 0 } :=
  (c7_pure_removal emptyDb 9 c7Env none).2 rfl

/-- **C9** (confirmed).  The archive stream's computed checksum influences
neither the resulting database nor the return value nor the filesystem
actions of `apk_db_install_pkg` — two runs differing only in the stream
checksum agree on all three; and when the archive parses cleanly, a
mismatching stream checksum still leaves the package appended to
`installed.packages`, with only the warning line added to the log. -/
theorem c9_checksum_mismatch_warning_only (db : Db) (old? : Option Csum) (new : PkgInfo)
    (env : InstallEnv) (es : List AeEntry) (c1 c2 : Csum) :
    ((apk_db_install_pkg db old? (some new) env (some { entries := es, streamCsum := c1 })).db =
      (apk_db_install_pkg db old? (some new) env (some { entries := es, streamCsum := c2 })).db) ∧
    ((apk_db_install_pkg db old? (some new) env (some { entries := es, streamCsum := c1 })).ret =
      (apk_db_install_pkg db old? (some new) env (some { entries := es, streamCsum := c2 })).ret) ∧
    ((apk_db_install_pkg db old? (some new) env (some { entries := es, streamCsum := c1 })).acts =
      (apk_db_install_pkg db old? (some new) env (some { entries := es, streamCsum := c2 })).acts) ∧
    ((apk_parse_tar_gz (purgeOld db old?).1
        (installCtx0 (purgeOld db old?).1 old? new) new env es).ret = 0 →
      c1 ≠ new.csum →
      new.csum ∈ (apk_db_install_pkg db old? (some new) env
        (some { entries := es, streamCsum := c1 })).db.installed ∧
      (new.name ++ "-" ++ new.version ++ ": checksum does not match") ∈
        (apk_db_install_pkg db old? (some new) env
          (some { entries := es, streamCsum := c1 })).log) := by
  set P := purgeOld db old? with hP
  set PR := apk_parse_tar_gz P.1 (installCtx0 P.1 old? new) new env es with hPRdef
  set DBP := writeBackOwned PR.db new.csum PR.ctx.ownedFiles with hDBP
  have hred : ∀ c : Csum,
      apk_db_install_pkg db old? (some new) env (some { entries := es, streamCsum := c }) =
      (if PR.ret ≠ 0 then
         { db := DBP, log := PR.log, acts := P.2 ++ PR.acts, ret := -1 }
       else
         { db := apk_pkg_set_state DBP new.csum .install,
           log := PR.log ++
             (if c ≠ new.csum then
               [new.name ++ "-" ++ new.version ++ ": checksum does not match"] else []) ++
             (if env.runScript new.csum
                  (if old? = none then .postInstall else .postUpgrade) ≠ 0 then
               [new.name ++ "-" ++ new.version ++
                ": Failed to execute post-install/upgrade script"]
              else []),
           acts := P.2 ++ PR.acts,
           ret := env.runScript new.csum
             (if old? = none then .postInstall else .postUpgrade) }) := fun c => rfl
  by_cases hp : PR.ret ≠ 0
  · refine ⟨?_, ?_, ?_, ?_⟩
    · rw [hred c1, hred c2, if_pos hp, if_pos hp]
    · rw [hred c1, hred c2, if_pos hp, if_pos hp]
    · rw [hred c1, hred c2, if_pos hp, if_pos hp]
    · intro hpar
      exact absurd hpar hp
  · refine ⟨?_, ?_, ?_, ?_⟩
    · rw [hred c1, hred c2, if_neg hp, if_neg hp]
    · rw [hred c1, hred c2, if_neg hp, if_neg hp]
    · rw [hred c1, hred c2, if_neg hp, if_neg hp]
    · intro hpar hmis
      constructor
      · rw [hred c1, if_neg hp]
        simp [apk_pkg_set_state]
      · rw [hred c1, if_neg hp]
        simp [hmis]

/-- The new package of the C9 witness. -/
def c9New : PkgInfo := { name := "n", version := "2", csum := 4 }

/-- Script oracle for the C9 witness: every script exits 0. -/
def c9Env : InstallEnv :=
  { runScript := fun _ _ => 0, diskInfo := fun _ => none }

/-- Concrete run of C9: installing `c9New` from a stream whose checksum 5
differs from the declared 4 still installs the package and logs the
warning. -/
theorem c9_checksum_mismatch_warning_only_witness :
    4 ∈ (apk_db_install_pkg emptyDb none (some c9New) c9Env
        (some { entries := [], streamCsum := 5 })).db.installed ∧
    ("n" ++ "-" ++ "2" ++ ": checksum does not match") ∈
      (apk_db_install_pkg emptyDb none (some c9New) c9Env
        (some { entries := [], streamCsum := 5 })).log :=
  (c9_checksum_mismatch_warning_only emptyDb none c9New c9Env [] 5 4).2.2.2
    (by decide) (by decide)

/-- The package being installed in the C4 scenario. -/
def c4Pkg : PkgInfo := { name := "p", version := "1", csum := 9 }

/-- A database whose protected directory `etc` holds the record
`etc/foo.conf` with a valid stored checksum 1 and no owner yet. -/
def c4Db : Db :=
  { files := [{ dirname := "etc", filename := "foo.conf", csum := some 1 }],
    dirs := [{ dirname := "etc", protFlag := true, files := [0] }, { dirname := "" }],
    protected_paths := ["etc"], statsFiles := 1, statsDirs := 2 }

/-- Environment for the C4 scenario: the on-disk `etc/foo.conf` hashes to 5,
differing from the stored checksum 1. -/
def c4Env : InstallEnv :=
  { runScript := fun _ _ => 0, diskInfo := fun n => if n = "etc/foo.conf" then some 5 else none }

/-- The archive entry: a regular file `etc/foo.conf` declaring checksum 2. -/
def c4Ae : AeEntry :=
  { name := "etc/foo.conf", isDir := false, mode := 420, uid := 0, gid := 0,
    size := 3, csum := 2 }

/-- The result of handling `c4Ae`. -/
def c4Out : EntryOut :=
  apk_db_install_archive_entry c4Db { script := .preInstall } c4Pkg c4Env c4Ae

/-- The file record the C4 run is expected to leave behind. -/
def c4ExpectedFile : DbFile :=
  { dirname := "etc", filename := "foo.conf", csum := some 2,
    owner := some { csum := 9, name := "p" } }

/-- **C4** (code bug).  On the protected-diversion path the alternative
extraction target is built from the function-local `dir` variable
(`snprintf(alt_name, …, "%s/%s.apk-new", dir->dirname, file->filename)`,
line 801), but in the regular-file branch that local is never assigned —
only the directory-entry branch writes it (line 813) — so the path does not
come from the file's own directory as the spec states: the emitted action
carries the unassigned local (embedded as `none`) instead of the file's
directory `etc`, while the file's checksum is nevertheless updated to the
entry's declared checksum 2. -/
theorem c4_diversion_dir_uninitialized :
    c4Out.acts = [FsAct.extractAlt none "foo.conf"] ∧
    c4Out.db.files[0]? = some c4ExpectedFile ∧
    c4Out.ret = 0 := by
  refine ⟨by decide, by decide, by decide⟩

/-- `apk_db_dir_get` never touches the file heap. -/
theorem apk_db_dir_get_files (db : Db) (n : String) :
    (apk_db_dir_get db n).1.files = db.files :=
  (((dirGetFuel_facts (strLen n + 1)) db n).1.1).symm

/-- `apk_db_dir_get` never touches `installed.packages`. -/
theorem apk_db_dir_get_installed (db : Db) (n : String) :
    (apk_db_dir_get db n).1.installed = db.installed :=
  (((dirGetFuel_facts (strLen n + 1)) db n).1.2.2.2.1).symm

/-- `apk_db_file_new` only appends to the file heap. -/
theorem apk_db_file_new_files_preserved (db : Db) (dn fn : String) (j : Nat) (f0 : DbFile)
    (h : db.files[j]? = some f0) :
    (apk_db_file_new db dn fn).1.files[j]? = some f0 := by
  have hj : j < db.files.length := by
    by_contra hge
    rw [List.getElem?_eq_none (Nat.le_of_not_lt hge)] at h
    cases h
  show (db.files ++ [{ dirname := dn, filename := fn }])[j]? = some f0
  rw [List.getElem?_append, if_pos hj]
  exact h

/-- `apk_db_file_get` preserves every preexisting file record verbatim (it
only interns directories and possibly appends a fresh record). -/
theorem apk_db_file_get_files_preserved (db : Db) (nm : String) (j : Nat) (f0 : DbFile)
    (h : db.files[j]? = some f0) :
    (apk_db_file_get db nm).1.files[j]? = some f0 := by
  unfold apk_db_file_get
  dsimp only
  split
  · show (apk_db_dir_get db _).1.files[j]? = some f0
    rw [apk_db_dir_get_files]
    exact h
  · apply apk_db_file_new_files_preserved
    rw [apk_db_dir_get_files]
    exact h

/-- `apk_db_file_get` never touches `installed.packages`. -/
theorem apk_db_file_get_installed (db : Db) (nm : String) :
    (apk_db_file_get db nm).1.installed = db.installed := by
  unfold apk_db_file_get
  dsimp only
  split
  · show (apk_db_dir_get db _).1.installed = db.installed
    rw [apk_db_dir_get_installed]
  · show (apk_db_dir_get db _).1.installed = db.installed
    rw [apk_db_dir_get_installed]

/-- `apk_db_dir_ref` never touches `installed.packages`. -/
theorem dirRefFuel_installed (fuel : Nat) : ∀ (db : Db) (n : String) (cr : Bool),
    (dirRefFuel fuel db n cr).installed = db.installed := by
  induction fuel with
  | zero =>
    intro db n cr
    rfl
  | succ fuel ih =>
    intro db n cr
    rcases h : findDir db.dirs n with _ | d
    · have hb : dirRefFuel (fuel + 1) db n cr = db := by
        rw [dirRefFuel, h]
      rw [hb]
    · have hb : dirRefFuel (fuel + 1) db n cr =
          (if d.refs = 0 then
            bumpRefs (bumpDirsStat
              (toParentDb (fun db0 p => dirRefFuel fuel db0 p cr) db n)) n
          else bumpRefs db n) := by
        rw [dirRefFuel, h]
      rw [hb]
      by_cases hz : d.refs = 0
      · rw [if_pos hz]
        show (toParentDb (fun db0 p => dirRefFuel fuel db0 p cr) db n).installed = db.installed
        unfold toParentDb
        rcases hp : dirParent n with _ | p
        · rfl
        · exact ih db p cr
      · rw [if_neg hz]
        rfl

theorem apk_db_dir_ref_installed (db : Db) (n : String) (cr : Bool) :
    (apk_db_dir_ref db n cr).installed = db.installed :=
  dirRefFuel_installed (strLen n + 1) db n cr

/-- `apk_db_file_set_owner` never touches `installed.packages`. -/
theorem apk_db_file_set_owner_installed (db : Db) (idx : Nat) (o : PkgRef) (cr : Bool)
    (lst : List Nat) :
    (apk_db_file_set_owner db idx o cr lst).1.installed = db.installed := by
  unfold apk_db_file_set_owner
  rcases hf : db.files[idx]? with _ | f
  · simp [hf]
  · simp only [hf]
    rcases ho : f.owner with _ | old
    · simp only [ho]
      rw [apk_db_dir_ref_installed]
    · simp only [ho]
      rw [apk_db_dir_ref_installed]

/-- `apk_db_install_archive_entry` never touches `installed.packages`. -/
theorem install_archive_entry_installed (db : Db) (ctx : InstallCtx) (pkg : PkgInfo)
    (env : InstallEnv) (ae : AeEntry) :
    (apk_db_install_archive_entry db ctx pkg env ae).db.installed = db.installed := by
  unfold apk_db_install_archive_entry
  dsimp only
  split
  · rfl
  · split
    · split
      · rfl
      · rfl
    · rfl
  · split
    · split
      · dsimp only
        rw [apk_db_file_get_installed]
      · split
        · dsimp only
          rw [apk_db_file_get_installed]
        · split
          · rw [apk_db_file_set_owner_installed, apk_db_file_get_installed]
          · rw [apk_db_file_set_owner_installed, apk_db_file_get_installed]
    · show (apk_db_dir_get db (stripSlash ae.name)).1.installed = db.installed
      rw [apk_db_dir_get_installed]

/-- Unfolding equation of `apk_parse_tar_gz` on a cons. -/
theorem apk_parse_tar_gz_cons (db : Db) (ctx : InstallCtx) (pkg : PkgInfo)
    (env : InstallEnv) (ae : AeEntry) (rest : List AeEntry) :
    apk_parse_tar_gz db ctx pkg env (ae :: rest) =
      (if (apk_db_install_archive_entry db ctx pkg env ae).ret ≠ 0 then
        apk_db_install_archive_entry db ctx pkg env ae
       else parseStep (apk_db_install_archive_entry db ctx pkg env ae)
         (apk_parse_tar_gz (apk_db_install_archive_entry db ctx pkg env ae).db
           (apk_db_install_archive_entry db ctx pkg env ae).ctx pkg env rest)) := rfl

/-- The archive iterator never touches `installed.packages`. -/
theorem apk_parse_tar_gz_installed (es : List AeEntry) : ∀ (db : Db) (ctx : InstallCtx)
    (pkg : PkgInfo) (env : InstallEnv),
    (apk_parse_tar_gz db ctx pkg env es).db.installed = db.installed := by
  induction es with
  | nil =>
    intro db ctx pkg env
    rfl
  | cons ae rest ih =>
    intro db ctx pkg env
    rw [apk_parse_tar_gz_cons]
    by_cases hz : (apk_db_install_archive_entry db ctx pkg env ae).ret ≠ 0
    · rw [if_pos hz]
      rw [install_archive_entry_installed]
    · rw [if_neg hz]
      show (apk_parse_tar_gz (apk_db_install_archive_entry db ctx pkg env ae).db
        (apk_db_install_archive_entry db ctx pkg env ae).ctx pkg env rest).db.installed =
        db.installed
      rw [ih, install_archive_entry_installed]

/-- Return-value composition of the archive iterator over a clean prefix. -/
theorem apk_parse_ret_append (pre rest : List AeEntry) : ∀ (db : Db) (ctx : InstallCtx)
    (pkg : PkgInfo) (env : InstallEnv),
    (apk_parse_tar_gz db ctx pkg env pre).ret = 0 →
    (apk_parse_tar_gz db ctx pkg env (pre ++ rest)).ret =
      (apk_parse_tar_gz (apk_parse_tar_gz db ctx pkg env pre).db
        (apk_parse_tar_gz db ctx pkg env pre).ctx pkg env rest).ret := by
  induction pre with
  | nil =>
    intro db ctx pkg env _
    rfl
  | cons ae pre ih =>
    intro db ctx pkg env h
    by_cases hz : (apk_db_install_archive_entry db ctx pkg env ae).ret ≠ 0
    · exfalso
      rw [apk_parse_tar_gz_cons, if_pos hz] at h
      exact hz h
    · have h2 : (apk_parse_tar_gz (apk_db_install_archive_entry db ctx pkg env ae).db
          (apk_db_install_archive_entry db ctx pkg env ae).ctx pkg env pre).ret = 0 := by
        rw [apk_parse_tar_gz_cons, if_neg hz] at h
        exact h
      rw [List.cons_append, apk_parse_tar_gz_cons, if_neg hz,
          apk_parse_tar_gz_cons, if_neg hz]
      exact ih (apk_db_install_archive_entry db ctx pkg env ae).db
        (apk_db_install_archive_entry db ctx pkg env ae).ctx pkg env h2

/-- **C3** (confirmed).  Ownership conflicts abort the install: (1) an
archive file entry whose existing record is owned by a package other than the
one being installed and other than "busybox" makes the entry handler return
-1 with the conflict message, mutating nothing beyond `apk_db_file_get`'s
directory interning; (2) `apk_db_file_get` preserves every preexisting file
record — in particular the conflicting file's owner — verbatim; (3) after a
clean prefix, such an entry makes the whole archive iteration return -1; and
(4) a failed iteration makes `apk_db_install_pkg` (fresh install) return -1
without running `apk_pkg_set_state`, leaving `installed.packages` exactly as
before. -/
theorem c3_conflict_aborts :
    (∀ (db : Db) (ctx : InstallCtx) (pkg : PkgInfo) (env : InstallEnv) (ae : AeEntry)
       (f : DbFile) (o : PkgRef),
      classifyEntry pkg ae.name = .installable → ae.isDir = false →
      (apk_db_file_get db ae.name).1.files[(apk_db_file_get db ae.name).2]? = some f →
      f.owner = some o → o.name ≠ pkg.name → o.name ≠ "busybox" →
      apk_db_install_archive_entry db ctx pkg env ae =
        { db := (apk_db_file_get db ae.name).1, ctx := ctx, ret := -1,
          log := [pkg.name ++ ": Trying to overwrite " ++ ae.name ++
                  " owned by " ++ o.name ++ "."] }) ∧
    (∀ (db : Db) (nm : String) (j : Nat) (f0 : DbFile),
      db.files[j]? = some f0 → (apk_db_file_get db nm).1.files[j]? = some f0) ∧
    (∀ (db : Db) (ctx : InstallCtx) (pkg : PkgInfo) (env : InstallEnv)
       (pre : List AeEntry) (ae : AeEntry) (rest : List AeEntry),
      (apk_parse_tar_gz db ctx pkg env pre).ret = 0 →
      (apk_db_install_archive_entry (apk_parse_tar_gz db ctx pkg env pre).db
        (apk_parse_tar_gz db ctx pkg env pre).ctx pkg env ae).ret = -1 →
      (apk_parse_tar_gz db ctx pkg env (pre ++ ae :: rest)).ret = -1) ∧
    (∀ (db : Db) (new : PkgInfo) (env : InstallEnv) (es : List AeEntry) (c : Csum),
      (apk_parse_tar_gz db (installCtx0 db none new) new env es).ret ≠ 0 →
      (apk_db_install_pkg db none (some new) env
        (some { entries := es, streamCsum := c })).ret = -1 ∧
      (apk_db_install_pkg db none (some new) env
        (some { entries := es, streamCsum := c })).db.installed = db.installed) := by
  refine ⟨?_, ?_, ?_, ?_⟩
  · intro db ctx pkg env ae f o hclass hdir hf ho hn1 hn2
    unfold apk_db_install_archive_entry
    simp only [hclass]
    have hcond : ¬ae.isDir = true := by
      rw [hdir]
      exact Bool.false_ne_true
    rw [if_pos hcond]
    simp only [hf, ho]
    rw [if_pos (decide_eq_true ⟨hn1, hn2⟩)]
  · intro db nm j f0 h
    exact apk_db_file_get_files_preserved db nm j f0 h
  · intro db ctx pkg env pre ae rest h0 hconf
    rw [apk_parse_ret_append pre (ae :: rest) db ctx pkg env h0, apk_parse_tar_gz_cons,
        if_pos (by rw [hconf]; decide)]
    exact hconf
  · intro db new env es c hpr
    set PR := apk_parse_tar_gz db (installCtx0 db none new) new env es with hPR
    have hfull : apk_db_install_pkg db none (some new) env
        (some { entries := es, streamCsum := c }) =
        (if PR.ret ≠ 0 then
          { db := writeBackOwned PR.db new.csum PR.ctx.ownedFiles, log := PR.log,
            acts := [] ++ PR.acts, ret := -1 }
         else
          { db := apk_pkg_set_state (writeBackOwned PR.db new.csum PR.ctx.ownedFiles)
              new.csum .install,
            log := PR.log ++
              (if c ≠ new.csum then
                [new.name ++ "-" ++ new.version ++ ": checksum does not match"] else []) ++
              (if env.runScript new.csum .postInstall ≠ 0 then
                [new.name ++ "-" ++ new.version ++
                 ": Failed to execute post-install/upgrade script"]
               else []),
            acts := [] ++ PR.acts,
            ret := env.runScript new.csum .postInstall }) := rfl
    rw [hfull, if_pos hpr]
    refine ⟨rfl, ?_⟩
    show PR.db.installed = db.installed
    rw [hPR, apk_parse_tar_gz_installed]

/-- The preexisting owner of `usr/bin/foo` in the C3 scenario. -/
def c3OwnerRef : PkgRef := { csum := 1, name := "foo" }

/-- The file record `usr/bin/foo`, owned by package `foo`. -/
def c3File : DbFile :=
  { dirname := "usr/bin", filename := "foo", csum := some 1, owner := some c3OwnerRef }

/-- A database in which `foo` is installed and owns `usr/bin/foo`. -/
def c3Db : Db :=
  { files := [c3File],
    dirs := [{ dirname := "usr/bin", refs := 1, files := [0] },
             { dirname := "usr", refs := 1 }, { dirname := "", refs := 1 }],
    packages := [{ info := { name := "foo", version := "1", csum := 1 },
                   state := .install, owned := [0] }],
    installed := [1], statsPackages := 1, statsDirs := 3, statsFiles := 1 }

/-- The conflicting package `bar` being installed. -/
def c3Pkg : PkgInfo := { name := "bar", version := "1", csum := 2 }

/-- The archive entry of `bar` that collides with `usr/bin/foo`. -/
def c3Ae : AeEntry :=
  { name := "usr/bin/foo", isDir := false, mode := 420, uid := 0, gid := 0,
    size := 1, csum := 5 }

/-- Scripts succeed and nothing relevant is on disk. -/
def c3Env : InstallEnv := { runScript := fun _ _ => 0, diskInfo := fun _ => none }

/-- Concrete run of C3: installing `bar` over `usr/bin/foo` owned by `foo`
aborts the entry with -1 and the conflict message, leaving the database (and
the file's owner) untouched. -/
theorem c3_conflict_aborts_witness :
    apk_db_install_archive_entry c3Db { script := .preInstall } c3Pkg c3Env c3Ae =
      { db := c3Db, ctx := { script := .preInstall }, ret := -1,
        log := ["bar: Trying to overwrite usr/bin/foo owned by foo."] } :=
  (c3_conflict_aborts.1 c3Db { script := .preInstall } c3Pkg c3Env c3Ae c3File c3OwnerRef
    (by decide) rfl (by decide) rfl (by decide) (by decide)).trans (by decide)

/-! ## Round-trip observables -/

/-- The serializable content of one file record: directory, basename and
(valid) checksum. -/
def fileView (db : Db) (i : Nat) : Option (String × String × Option Csum) :=
  match db.files[i]? with
  | some f => some (f.dirname, f.filename, f.csum)
  | none => none

/-- The serializable content of one installed package: its index entry and
its owned files in list order. -/
def pkgView (db : Db) (c : Csum) : Option (PkgInfo × List (String × String × Option Csum)) :=
  match lookupPkg db c with
  | some p => some (p.info, p.owned.filterMap (fileView db))
  | none => none

/-- The serializable metadata of one directory record. -/
def dirMetaView (db : Db) (dn : String) : Option (Nat × Nat × Nat) :=
  (findDir db.dirs dn).map (fun d => (d.uid, d.gid, d.mode))

theorem findPkg_eq_csum {pkgs : List DbPkg} {c : Csum} {p : DbPkg}
    (h : findPkg pkgs c = some p) : p.info.csum = c := by
  have h2 := List.find?_some h
  simpa using h2

theorem findPkg_append_some {l1 l2 : List DbPkg} {c : Csum} {p : DbPkg}
    (h : findPkg l1 c = some p) : findPkg (l1 ++ l2) c = some p := by
  unfold findPkg at *
  rw [List.find?_append, h]
  rfl

theorem findPkg_append_none {l1 l2 : List DbPkg} {c : Csum}
    (h : findPkg l1 c = none) : findPkg (l1 ++ l2) c = findPkg l2 c := by
  unfold findPkg at *
  rw [List.find?_append, h]
  rfl

theorem findPkg_updatePkgs_self (pkgs : List DbPkg) (c : Csum) (f : DbPkg → DbPkg)
    (hf : ∀ p, (f p).info.csum = p.info.csum) :
    findPkg (updatePkgs pkgs c f) c = (findPkg pkgs c).map f := by
  induction pkgs with
  | nil => rfl
  | cons p rest ih =>
    unfold updatePkgs at *
    by_cases h : p.info.csum = c
    · simp only [List.map_cons]
      rw [if_pos (by simp [h])]
      unfold findPkg
      rw [List.find?_cons_of_pos _ (by simp [hf, h]),
          List.find?_cons_of_pos _ (by simp [h])]
      rfl
    · simp only [List.map_cons]
      rw [if_neg (by simp [h])]
      unfold findPkg
      rw [List.find?_cons_of_neg _ (by simp [h]),
          List.find?_cons_of_neg _ (by simp [h])]
      exact ih

theorem findPkg_updatePkgs_of_ne (pkgs : List DbPkg) (c c2 : Csum) (f : DbPkg → DbPkg)
    (hf : ∀ p, (f p).info.csum = p.info.csum) (hne : c2 ≠ c) :
    findPkg (updatePkgs pkgs c f) c2 = findPkg pkgs c2 := by
  induction pkgs with
  | nil => rfl
  | cons p rest ih =>
    unfold updatePkgs at *
    by_cases h : p.info.csum = c
    · simp only [List.map_cons]
      rw [if_pos (by simp [h])]
      unfold findPkg
      rw [List.find?_cons_of_neg _ (by simp [hf, h]; exact fun he => hne (he ▸ rfl)),
          List.find?_cons_of_neg _ (by simp [h]; exact fun he => hne (he ▸ rfl))]
      exact ih
    · simp only [List.map_cons]
      rw [if_neg (by simp [h])]
      by_cases hm : p.info.csum = c2
      · unfold findPkg
        rw [List.find?_cons_of_pos _ (by simp [hm]),
            List.find?_cons_of_pos _ (by simp [hm])]
      · unfold findPkg
        rw [List.find?_cons_of_neg _ (by simp [hm]),
            List.find?_cons_of_neg _ (by simp [hm])]
        exact ih

/-- An update that keeps name and metadata keeps every metadata view. -/
theorem dirMetaView_updateDir_preserve (db : Db) (n : String) (f : DbDir → DbDir)
    (hf : ∀ d, (f d).dirname = d.dirname ∧ (f d).uid = d.uid ∧
      (f d).gid = d.gid ∧ (f d).mode = d.mode) (dn : String) :
    dirMetaView (updateDir db n f) dn = dirMetaView db dn := by
  unfold dirMetaView updateDir
  by_cases h : dn = n
  · subst h
    show (findDir (updateDirs db.dirs dn f) dn).map _ = _
    rw [findDir_updateDirs_self db.dirs dn f (fun d => (hf d).1)]
    rcases h2 : findDir db.dirs dn with _ | d
    · rfl
    · show some ((f d).uid, (f d).gid, (f d).mode) = some (d.uid, d.gid, d.mode)
      rw [(hf d).2.1, (hf d).2.2.1, (hf d).2.2.2]
  · show (findDir (updateDirs db.dirs n f) dn).map _ = _
    rw [findDir_updateDirs_of_ne db.dirs n dn f (fun d => (hf d).1) h]

/-- A name-preserving update leaves other directories' metadata views. -/
theorem dirMetaView_updateDir_of_ne (db : Db) (n : String) (f : DbDir → DbDir)
    (hf : ∀ d, (f d).dirname = d.dirname) (dn : String) (hne : dn ≠ n) :
    dirMetaView (updateDir db n f) dn = dirMetaView db dn := by
  unfold dirMetaView updateDir
  show (findDir (updateDirs db.dirs n f) dn).map _ = _
  rw [findDir_updateDirs_of_ne db.dirs n dn f hf hne]

/-- The `M` line of the reader sets the target's metadata view. -/
theorem dirMetaView_updateDir_set (db : Db) (dn : String) (u g m : Nat)
    (hsome : (findDir db.dirs dn).isSome = true) :
    dirMetaView (updateDir db dn
      (fun d => { d with uid := u, gid := g, mode := m })) dn = some (u, g, m) := by
  unfold dirMetaView updateDir
  show (findDir (updateDirs db.dirs dn _) dn).map _ = _
  rw [findDir_updateDirs_self db.dirs dn
    (fun d => { d with uid := u, gid := g, mode := m }) (fun d => rfl)]
  rcases h2 : findDir db.dirs dn with _ | d
  · rw [h2] at hsome
    cases hsome
  · rfl

/-- Any transformation that keeps existing directory records verbatim keeps
the metadata view of every interned directory. -/
theorem dirMetaView_mono_of_preserved {a b : Db}
    (hpres : ∀ m d, findDir a.dirs m = some d → findDir b.dirs m = some d)
    (dn : String) (hs : (findDir a.dirs dn).isSome = true) :
    dirMetaView b dn = dirMetaView a dn := by
  unfold dirMetaView
  rcases h2 : findDir a.dirs dn with _ | d
  · rw [h2] at hs
    cases hs
  · rw [hpres dn d h2]

/-- `apk_db_dir_ref` touches only `refs` fields and the `dirs` counter. -/
theorem dirRefFuel_outside (fuel : Nat) : ∀ (db : Db) (n : String) (cr : Bool),
    eqOutsideDirs db (dirRefFuel fuel db n cr) ∧
    (∀ dn, dirMetaView (dirRefFuel fuel db n cr) dn = dirMetaView db dn) := by
  induction fuel with
  | zero =>
    intro db n cr
    exact ⟨eqOutsideDirs_refl _, fun dn => rfl⟩
  | succ fuel ih =>
    intro db n cr
    rcases h : findDir db.dirs n with _ | d
    · have hb : dirRefFuel (fuel + 1) db n cr = db := by
        rw [dirRefFuel, h]
      rw [hb]
      exact ⟨eqOutsideDirs_refl _, fun dn => rfl⟩
    · have hb : dirRefFuel (fuel + 1) db n cr =
          (if d.refs = 0 then
            bumpRefs (bumpDirsStat
              (toParentDb (fun db0 p => dirRefFuel fuel db0 p cr) db n)) n
          else bumpRefs db n) := by
        rw [dirRefFuel, h]
      rw [hb]
      by_cases hz : d.refs = 0
      · rw [if_pos hz]
        have hpr : eqOutsideDirs db (toParentDb (fun db0 p => dirRefFuel fuel db0 p cr) db n) ∧
            (∀ dn, dirMetaView (toParentDb (fun db0 p => dirRefFuel fuel db0 p cr) db n) dn =
              dirMetaView db dn) := by
          unfold toParentDb
          rcases hp : dirParent n with _ | p
          · exact ⟨eqOutsideDirs_refl _, fun dn => rfl⟩
          · exact ih db p cr
        constructor
        · refine eqOutsideDirs_trans hpr.1 ?_
          refine eqOutsideDirs_trans ?_ (eqOutsideDirs_updateDir _ n _)
          exact ⟨rfl, rfl, rfl, rfl, rfl, rfl, rfl, rfl, rfl, rfl⟩
        · intro dn
          have h1 : dirMetaView (bumpRefs (bumpDirsStat
              (toParentDb (fun db0 p => dirRefFuel fuel db0 p cr) db n)) n) dn =
              dirMetaView (bumpDirsStat
                (toParentDb (fun db0 p => dirRefFuel fuel db0 p cr) db n)) dn :=
            dirMetaView_updateDir_preserve _ n (fun d0 => { d0 with refs := d0.refs + 1 })
              (fun d0 => ⟨rfl, rfl, rfl, rfl⟩) dn
          rw [h1]
          show dirMetaView (toParentDb (fun db0 p => dirRefFuel fuel db0 p cr) db n) dn =
            dirMetaView db dn
          exact hpr.2 dn
      · rw [if_neg hz]
        refine ⟨eqOutsideDirs_updateDir _ n _, ?_⟩
        intro dn
        exact dirMetaView_updateDir_preserve _ n (fun d0 => { d0 with refs := d0.refs + 1 })
          (fun d0 => ⟨rfl, rfl, rfl, rfl⟩) dn

/-- Granting ownership of a fresh (unowned) record: footprint of
`apk_db_file_set_owner` on the serializable observables. -/
theorem apk_db_file_set_owner_fresh (db : Db) (idx : Nat) (o : PkgRef) (cr : Bool)
    (lst : List Nat) (f : DbFile)
    (hf : db.files[idx]? = some f) (hown : f.owner = none) :
    (apk_db_file_set_owner db idx o cr lst).1.files =
      db.files.set idx { f with owner := some o } ∧
    (apk_db_file_set_owner db idx o cr lst).1.packages = db.packages ∧
    (apk_db_file_set_owner db idx o cr lst).1.installed = db.installed ∧
    (∀ dn, dirMetaView (apk_db_file_set_owner db idx o cr lst).1 dn = dirMetaView db dn) ∧
    (apk_db_file_set_owner db idx o cr lst).2 = lst ++ [idx] := by
  have hred : apk_db_file_set_owner db idx o cr lst =
      (let dbA : Db := { db with statsFiles := db.statsFiles + 1 }
       let db2 := apk_db_dir_ref dbA f.dirname cr
       ({ db2 with files := db2.files.set idx { f with owner := some o } }, lst ++ [idx])) := by
    unfold apk_db_file_set_owner
    simp only [hf, hown]
  rw [hred]
  set dbA : Db := { db with statsFiles := db.statsFiles + 1 } with hdbA
  obtain ⟨hout, hmeta⟩ := dirRefFuel_outside (strLen f.dirname + 1) dbA f.dirname cr
  set db2 : Db := dirRefFuel (strLen f.dirname + 1) dbA f.dirname cr with hdb2
  refine ⟨?_, ?_, ?_, ?_, rfl⟩
  · show db2.files.set idx { f with owner := some o } = db.files.set idx { f with owner := some o }
    rw [← hout.1]
  · show db2.packages = db.packages
    rw [← hout.2.1]
  · show db2.installed = db.installed
    rw [← hout.2.2.2.1]
  · intro dn
    show dirMetaView { db2 with files := db2.files.set idx { f with owner := some o } } dn =
      dirMetaView db dn
    have h1 : dirMetaView { db2 with files := db2.files.set idx { f with owner := some o } } dn =
        dirMetaView db2 dn := rfl
    rw [h1, hmeta dn]
    rfl

/-- Footprint of `apk_db_file_new` on the serializable observables. -/
theorem apk_db_file_new_spec (db : Db) (dn fn : String) :
    (apk_db_file_new db dn fn).2 = db.files.length ∧
    (apk_db_file_new db dn fn).1.files =
      db.files ++ [{ dirname := dn, filename := fn }] ∧
    (apk_db_file_new db dn fn).1.packages = db.packages ∧
    (apk_db_file_new db dn fn).1.installed = db.installed ∧
    (∀ dn2, dirMetaView (apk_db_file_new db dn fn).1 dn2 = dirMetaView db dn2) := by
  refine ⟨rfl, rfl, rfl, rfl, ?_⟩
  intro dn2
  show dirMetaView (updateDir { db with files := db.files ++ [{ dirname := dn, filename := fn }] }
    dn (fun d => { d with files := d.files ++ [db.files.length] })) dn2 = dirMetaView db dn2
  rw [dirMetaView_updateDir_preserve _ dn (fun d => { d with files := d.files ++ [db.files.length] }) (fun d0 => ⟨rfl, rfl, rfl, rfl⟩) dn2]
  rfl

/-- One-line reader equations (repo = -1, package in progress). -/
theorem readLine_fdir (st : ReadSt) (bp : BuildPkg) (n : String)
    (hpkg : st.pkg = some bp) (hinfo : ¬bp.info = none) :
    readLine st (.fdir n) (-1) =
      ({ st with
          db := (apk_db_dir_get st.db n).1,
          dir := some (apk_db_dir_get st.db n).2 }, none) := by
  unfold readLine
  simp only [hpkg]
  rw [if_neg (show ¬((-1 : Int) ≠ -1) from fun h => h rfl), if_neg hinfo]

theorem readLine_meta (st : ReadSt) (bp : BuildPkg) (dn : String) (u g m : Nat)
    (hpkg : st.pkg = some bp) (hdir : st.dir = some dn) :
    readLine st (.meta u g m) (-1) =
      ({ st with
          db := updateDir st.db dn (fun d => { d with uid := u, gid := g, mode := m }) },
       none) := by
  unfold readLine
  simp only [hpkg, hdir]
  rw [if_neg (show ¬((-1 : Int) ≠ -1) from fun h => h rfl)]

theorem readLine_rfile (st : ReadSt) (bp : BuildPkg) (i : PkgInfo) (dn fn : String)
    (hpkg : st.pkg = some bp) (hinfo : bp.info = some i) (hdir : st.dir = some dn) :
    readLine st (.rfile fn) (-1) =
      (let made := apk_db_file_new st.db dn fn
       let owned := apk_db_file_set_owner made.1 made.2
         { csum := i.csum, name := i.name } false bp.owned
       ({ st with
           db := owned.1,
           pkg := some { bp with owned := owned.2 },
           lastFile := some made.2 }, none)) := by
  unfold readLine
  simp only [hpkg, hdir, hinfo]
  rw [if_neg (show ¬((-1 : Int) ≠ -1) from fun h => h rfl)]

theorem readLine_zsum (st : ReadSt) (bp : BuildPkg) (j : Nat) (f : DbFile) (c : Csum)
    (hpkg : st.pkg = some bp) (hlast : st.lastFile = some j)
    (hf : st.db.files[j]? = some f) :
    readLine st (.zsum c) (-1) =
      ({ st with
          db := { st.db with files := st.db.files.set j { f with csum := some c } } },
       none) := by
  unfold readLine
  simp only [hpkg, hlast, hf]
  rw [if_neg (show ¬((-1 : Int) ≠ -1) from fun h => h rfl)]

theorem readLine_pkginfo (st : ReadSt) (i : PkgInfo) (hpkg : st.pkg = none) :
    readLine st (.pkginfo i) (-1) =
      ({ st with pkg := some { info := some i }, dir := none }, none) := by
  unfold readLine
  simp only [hpkg]

theorem readLine_blank (st : ReadSt) (bp : BuildPkg) (hpkg : st.pkg = some bp) :
    readLine st .blank (-1) =
      ({ st with db := (finalizePkg st.db bp (-1)).1, pkg := none },
       (finalizePkg st.db bp (-1)).2) := by
  unfold readLine
  simp only [hpkg]

/-- Finalizing a record whose checksum is still unregistered succeeds. -/
theorem finalizePkg_fresh (db : Db) (bp : BuildPkg) (i : PkgInfo)
    (hinfo : bp.info = some i)
    (hnone : findPkg (apk_pkg_set_state db i.csum .install).packages i.csum = none) :
    finalizePkg db bp (-1) =
      ((apk_db_pkg_add (apk_pkg_set_state db i.csum .install)
          { info := i, repos := repoBits (-1), state := .install, owned := bp.owned }).1,
       none) := by
  have haddnew := apk_db_pkg_add_new (apk_pkg_set_state db i.csum .install)
    { info := i, repos := repoBits (-1), state := .install, owned := bp.owned } hnone
  unfold finalizePkg
  rw [hinfo]
  show (let added := apk_db_pkg_add (apk_pkg_set_state db i.csum PkgState.install)
          { info := i, repos := repoBits (-1), state := PkgState.install, owned := bp.owned }
        if added.2.2 = false ∧ (-1 : Int) = -1 then
          (added.1, some "Installed database load failed")
        else (added.1, none)) = _
  rw [haddnew]
  rfl

/-- What one successfully read line (or line group) may do to the database:
append file records (preserving old ones verbatim), leave packages and the
installed list alone, and only grow the directory table while keeping every
already-correct metadata view correct (views are measured against the source
database `db` being deserialized). -/
def ReadStep (db : Db) (st st2 : ReadSt) : Prop :=
  (∀ (j0 : Nat) (f0 : DbFile), st.db.files[j0]? = some f0 → st2.db.files[j0]? = some f0) ∧
  st2.db.packages = st.db.packages ∧
  st2.db.installed = st.db.installed ∧
  (∀ dn, (findDir st.db.dirs dn).isSome = true → (findDir st2.db.dirs dn).isSome = true) ∧
  (∀ dn, (findDir st.db.dirs dn).isSome = true → dirMetaView st.db dn = dirMetaView db dn →
    dirMetaView st2.db dn = dirMetaView db dn)

/-- The reader state carries the source database's record of `dn`. -/
def GoodDir (db : Db) (st : ReadSt) (dn : String) : Prop :=
  (findDir st.db.dirs dn).isSome = true ∧ dirMetaView st.db dn = dirMetaView db dn

theorem ReadStep_refl (db : Db) (st : ReadSt) : ReadStep db st st :=
  ⟨fun _ _ h => h, rfl, rfl, fun _ h => h, fun _ _ h => h⟩

theorem ReadStep_trans {db : Db} {a b c : ReadSt}
    (h1 : ReadStep db a b) (h2 : ReadStep db b c) : ReadStep db a c := by
  obtain ⟨f1, p1, i1, s1, m1⟩ := h1
  obtain ⟨f2, p2, i2, s2, m2⟩ := h2
  exact ⟨fun j0 f0 h => f2 j0 f0 (f1 j0 f0 h), p2.trans p1, i2.trans i1,
    fun dn h => s2 dn (s1 dn h), fun dn h hv => m2 dn (s1 dn h) (m1 dn h hv)⟩

theorem GoodDir_mono {db : Db} {a b : ReadSt} {dn : String}
    (hstep : ReadStep db a b) (hg : GoodDir db a dn) : GoodDir db b dn := by
  obtain ⟨f1, p1, i1, s1, m1⟩ := hstep
  exact ⟨s1 dn hg.1, m1 dn hg.1 hg.2⟩

/-- A database change with the same `dirs`, `packages`, `installed` and
(pointwise-preserved) files is a `ReadStep`. -/
theorem ReadStep_of_eq {db : Db} {a b : ReadSt}
    (hf : ∀ (j0 : Nat) (f0 : DbFile), a.db.files[j0]? = some f0 → b.db.files[j0]? = some f0)
    (hp : b.db.packages = a.db.packages) (hi : b.db.installed = a.db.installed)
    (hd : b.db.dirs = a.db.dirs) : ReadStep db a b := by
  refine ⟨hf, hp, hi, ?_, ?_⟩
  · intro dn h
    show (findDir b.db.dirs dn).isSome = true
    rw [hd]
    exact h
  · intro dn h hv
    show dirMetaView b.db dn = dirMetaView db dn
    unfold dirMetaView at *
    rw [hd]
    exact hv

theorem dirMetaView_isSome (db : Db) (dn : String) :
    (dirMetaView db dn).isSome = (findDir db.dirs dn).isSome :=
  Option.isSome_map'

theorem findDir_isSome_updateDir (db : Db) (n : String) (f : DbDir → DbDir)
    (hf : ∀ d, (f d).dirname = d.dirname) (dn : String) :
    (findDir (updateDir db n f).dirs dn).isSome = (findDir db.dirs dn).isSome := by
  by_cases h : dn = n
  · subst h
    show (findDir (updateDirs db.dirs dn f) dn).isSome = _
    rw [findDir_updateDirs_self db.dirs dn f hf]
    exact Option.isSome_map'
  · show (findDir (updateDirs db.dirs n f) dn).isSome = _
    rw [findDir_updateDirs_of_ne db.dirs n dn f hf h]

/-- A transition whose metadata views all agree with the start's is a
`ReadStep` whenever files are preserved and packages/installed untouched. -/
theorem ReadStep_of_metaEq {db : Db} {a b : ReadSt}
    (hf : ∀ (j0 : Nat) (f0 : DbFile), a.db.files[j0]? = some f0 → b.db.files[j0]? = some f0)
    (hp : b.db.packages = a.db.packages) (hi : b.db.installed = a.db.installed)
    (hm : ∀ dn, dirMetaView b.db dn = dirMetaView a.db dn) : ReadStep db a b := by
  refine ⟨hf, hp, hi, ?_, ?_⟩
  · intro dn h
    rw [← dirMetaView_isSome, hm dn, dirMetaView_isSome]
    exact h
  · intro dn h hv
    rw [hm dn]
    exact hv

/-- A successfully read line advances the fold. -/
theorem readFold_cons_ok (st : ReadSt) (l : FdbLine) (rest : List FdbLine) (repo : Int)
    (st2 : ReadSt) (h : readLine st l repo = (st2, none)) :
    readFold st (l :: rest) repo = readFold st2 rest repo := by
  show (match (readLine st l repo).2 with
        | some e => ((readLine st l repo).1, some e)
        | none => readFold (readLine st l repo).1 rest repo) = _
  rw [h]

/-- A file record with an owner, as the reader recreates it. -/
def mkOwnedFile (dn fn : String) (cs : Option Csum) (o : PkgRef) : DbFile :=
  { dirname := dn, filename := fn, csum := cs, owner := some o }

/-- Reading the `R` line (and the `Z` line when the stored checksum is
valid) of one file record: a fresh file is created, owned by the package in
progress, and its view equals the written record's. -/
theorem readRZ_spec (db : Db) (stA : ReadSt) (bp : BuildPkg) (i : PkgInfo) (f : DbFile)
    (hpkg : stA.pkg = some bp) (hinfo : bp.info = some i)
    (hdir : stA.dir = some f.dirname) :
    ∃ (st2 : ReadSt) (k : Nat),
      readFold stA ([.rfile f.filename] ++
        (match f.csum with | some c => [.zsum c] | none => [])) (-1) = (st2, none) ∧
      ReadStep db stA st2 ∧
      st2.pkg = some { bp with owned := bp.owned ++ [k] } ∧
      st2.dir = some f.dirname ∧
      st2.db.files[k]? =
        some (mkOwnedFile f.dirname f.filename f.csum { csum := i.csum, name := i.name }) := by
  obtain ⟨hk, hfiles1, hpkgs1, hinst1, hmeta1⟩ :=
    apk_db_file_new_spec stA.db f.dirname f.filename
  have hrec : (apk_db_file_new stA.db f.dirname f.filename).1.files[(apk_db_file_new
      stA.db f.dirname f.filename).2]? =
      some { dirname := f.dirname, filename := f.filename } := by
    rw [hk, hfiles1]
    exact List.getElem?_concat_length _ _
  obtain ⟨hso_files, hso_pkgs, hso_inst, hso_meta, hso_list⟩ :=
    apk_db_file_set_owner_fresh (apk_db_file_new stA.db f.dirname f.filename).1
      (apk_db_file_new stA.db f.dirname f.filename).2 { csum := i.csum, name := i.name }
      false bp.owned { dirname := f.dirname, filename := f.filename } hrec rfl
  set made := apk_db_file_new stA.db f.dirname f.filename with hmade
  set so := apk_db_file_set_owner made.1 made.2 { csum := i.csum, name := i.name }
    false bp.owned with hso
  set st3 : ReadSt :=
    { stA with db := so.1, pkg := some { bp with owned := so.2 }, lastFile := some made.2 }
    with hst3
  have hRst : readLine stA (.rfile f.filename) (-1) = (st3, none) := by
    rw [readLine_rfile stA bp i f.dirname f.filename hpkg hinfo hdir]
  have hlen : made.2 < made.1.files.length := by
    rw [hk, hfiles1]
    simp
  have hfile3 : st3.db.files[made.2]? =
      some (mkOwnedFile f.dirname f.filename none { csum := i.csum, name := i.name }) := by
    show so.1.files[made.2]? = _
    rw [hso_files]
    exact List.getElem?_set_self hlen
  have hbound : ∀ (j0 : Nat) (f0 : DbFile), stA.db.files[j0]? = some f0 →
      j0 < stA.db.files.length := by
    intro j0 f0 h
    by_contra hge
    rw [List.getElem?_eq_none (Nat.le_of_not_lt hge)] at h
    cases h
  have hpres3 : ∀ (j0 : Nat) (f0 : DbFile), stA.db.files[j0]? = some f0 →
      st3.db.files[j0]? = some f0 := by
    intro j0 f0 h
    have hj0 := hbound j0 f0 h
    show so.1.files[j0]? = some f0
    rw [hso_files]
    have hne : made.2 ≠ j0 := by
      rw [hk]
      omega
    rw [List.getElem?_set_ne hne, hfiles1, List.getElem?_append, if_pos hj0]
    exact h
  have hstep3 : ReadStep db stA st3 := by
    refine ReadStep_of_metaEq hpres3 ?_ ?_ ?_
    · show so.1.packages = stA.db.packages
      rw [hso_pkgs, hpkgs1]
    · show so.1.installed = stA.db.installed
      rw [hso_inst, hinst1]
    · intro dn
      show dirMetaView so.1 dn = dirMetaView stA.db dn
      rw [hso_meta dn, hmeta1 dn]
  have hpkg3 : st3.pkg = some { bp with owned := bp.owned ++ [made.2] } := by
    show some { bp with owned := so.2 } = _
    rw [hso_list]
  have hdir3 : st3.dir = some f.dirname := hdir
  rcases hcs : f.csum with _ | c
  · refine ⟨st3, made.2, ?_, hstep3, hpkg3, hdir3, ?_⟩
    · show readFold stA (.rfile f.filename :: []) (-1) = (st3, none)
      rw [readFold_cons_ok stA (.rfile f.filename) [] (-1) st3 hRst]
      rfl
    · exact hfile3
  · have hlen3 : made.2 < st3.db.files.length := by
      show made.2 < so.1.files.length
      rw [hso_files, List.length_set]
      exact hlen
    set newFiles := st3.db.files.set made.2
      (mkOwnedFile f.dirname f.filename (some c) { csum := i.csum, name := i.name })
      with hnf
    set st4 : ReadSt := { st3 with db := { st3.db with files := newFiles } } with hst4
    have hZst : readLine st3 (.zsum c) (-1) = (st4, none) := by
      rw [readLine_zsum st3 { bp with owned := so.2 } made.2
        (mkOwnedFile f.dirname f.filename none { csum := i.csum, name := i.name }) c
        rfl rfl hfile3]
      rfl
    refine ⟨st4, made.2, ?_, ?_, hpkg3, hdir3, ?_⟩
    · show readFold stA (.rfile f.filename :: .zsum c :: []) (-1) = (st4, none)
      rw [readFold_cons_ok stA (.rfile f.filename) (.zsum c :: []) (-1) st3 hRst,
          readFold_cons_ok st3 (.zsum c) [] (-1) st4 hZst]
      rfl
    · refine ReadStep_of_metaEq ?_ ?_ ?_ ?_
      · intro j0 f0 h
        have hj0 := hbound j0 f0 h
        show (st3.db.files.set made.2 _)[j0]? = some f0
        rw [List.getElem?_set_ne (by rw [hk]; omega)]
        exact hpres3 j0 f0 h
      · show so.1.packages = stA.db.packages
        rw [hso_pkgs, hpkgs1]
      · show so.1.installed = stA.db.installed
        rw [hso_inst, hinst1]
      · intro dn
        show dirMetaView so.1 dn = dirMetaView stA.db dn
        rw [hso_meta dn, hmeta1 dn]
    · show (st3.db.files.set made.2 _)[made.2]? = _
      exact List.getElem?_set_self hlen3

/-- Reading the full line group of one written file record (the `F`/`M` pair
when the directory changes, `R`, and `Z` for a valid checksum). -/
theorem readUnit_spec (db : Db) (st : ReadSt) (bp : BuildPkg) (i : PkgInfo) (f : DbFile)
    (cur : Option String)
    (hpkg : st.pkg = some bp) (hinfo : bp.info = some i)
    (hcanon : stripSlash f.dirname = f.dirname)
    (hint : (findDir db.dirs f.dirname).isSome = true)
    (hcur : cur = some f.dirname → st.dir = some f.dirname ∧ GoodDir db st f.dirname) :
    ∃ (st2 : ReadSt) (k : Nat),
      readFold st ((if cur = some f.dirname then [] else
          match lookupDir db f.dirname with
          | some d => [.fdir f.dirname, .meta d.uid d.gid d.mode]
          | none => [.fdir f.dirname, .meta 0 0 0]) ++
        ([.rfile f.filename] ++ (match f.csum with
          | some c => [.zsum c] | none => []))) (-1) = (st2, none) ∧
      ReadStep db st st2 ∧
      st2.pkg = some { bp with owned := bp.owned ++ [k] } ∧
      st2.dir = some f.dirname ∧
      GoodDir db st2 f.dirname ∧
      st2.db.files[k]? =
        some (mkOwnedFile f.dirname f.filename f.csum { csum := i.csum, name := i.name }) := by
  by_cases hc : cur = some f.dirname
  · rw [if_pos hc]
    obtain ⟨hdir0, hgood0⟩ := hcur hc
    obtain ⟨st2, k, hfold, hstep, hpkg2, hdir2, hfile2⟩ :=
      readRZ_spec db st bp i f hpkg hinfo hdir0
    exact ⟨st2, k, hfold, hstep, hpkg2, hdir2, GoodDir_mono hstep hgood0, hfile2⟩
  · rw [if_neg hc]
    rcases hd : findDir db.dirs f.dirname with _ | d
    · rw [hd] at hint
      cases hint
    have hld : lookupDir db f.dirname = some d := hd
    simp only [hld]
    have hgot2 : (apk_db_dir_get st.db f.dirname).2 = f.dirname := by
      show (dirGetFuel (strLen f.dirname + 1) st.db f.dirname).2 = f.dirname
      rw [dirGetFuel_ret]
      exact hcanon
    set st1 : ReadSt :=
      { st with db := (apk_db_dir_get st.db f.dirname).1, dir := some f.dirname } with hst1
    have hFst : readLine st (.fdir f.dirname) (-1) = (st1, none) := by
      rw [readLine_fdir st bp f.dirname hpkg
        (by rw [hinfo]; exact fun hh => Option.noConfusion hh)]
      rw [hgot2]
    have facts1 : eqOutsideDirs st.db (apk_db_dir_get st.db f.dirname).1 ∧
        (apk_db_dir_get st.db f.dirname).1.statsDirs = st.db.statsDirs ∧
        (∀ (m : String) (dd : DbDir), findDir st.db.dirs m = some dd →
          findDir (apk_db_dir_get st.db f.dirname).1.dirs m = some dd) :=
      (dirGetFuel_facts (strLen f.dirname + 1)) st.db f.dirname
    have hstep1 : ReadStep db st st1 := by
      refine ⟨?_, ?_, ?_, ?_, ?_⟩
      · intro j0 f0 h
        show (apk_db_dir_get st.db f.dirname).1.files[j0]? = some f0
        rw [apk_db_dir_get_files]
        exact h
      · show (apk_db_dir_get st.db f.dirname).1.packages = st.db.packages
        exact facts1.1.2.1.symm
      · show (apk_db_dir_get st.db f.dirname).1.installed = st.db.installed
        exact facts1.1.2.2.2.1.symm
      · intro dn h
        rcases h2 : findDir st.db.dirs dn with _ | dd
        · rw [h2] at h
          cases h
        · show (findDir (apk_db_dir_get st.db f.dirname).1.dirs dn).isSome = true
          rw [facts1.2.2 dn dd h2]
          rfl
      · intro dn h hv
        show dirMetaView (apk_db_dir_get st.db f.dirname).1 dn = dirMetaView db dn
        rw [dirMetaView_mono_of_preserved facts1.2.2 dn h]
        exact hv
    have hsome1 : (findDir st1.db.dirs f.dirname).isSome = true := by
      obtain ⟨dd, hdd⟩ := dirGetFuel_found (strLen f.dirname + 1) st.db f.dirname
        (Nat.succ_pos _)
      show (findDir (apk_db_dir_get st.db f.dirname).1.dirs f.dirname).isSome = true
      rw [hcanon] at hdd
      have hdd2 : findDir (apk_db_dir_get st.db f.dirname).1.dirs f.dirname = some dd := hdd
      rw [hdd2]
      rfl
    set st2M : ReadSt :=
      { st1 with db := updateDir st1.db f.dirname (fun d0 => { d0 with uid := d.uid, gid := d.gid, mode := d.mode }) }
      with hst2M
    have hMst : readLine st1 (.meta d.uid d.gid d.mode) (-1) = (st2M, none) := by
      rw [readLine_meta st1 bp f.dirname d.uid d.gid d.mode hpkg rfl]
    have hviewdb : dirMetaView db f.dirname = some (d.uid, d.gid, d.mode) := by
      unfold dirMetaView
      rw [hd]
      rfl
    have hgood2 : GoodDir db st2M f.dirname := by
      constructor
      · show (findDir (updateDir st1.db f.dirname _).dirs f.dirname).isSome = true
        rw [findDir_isSome_updateDir st1.db f.dirname
          (fun d0 => { d0 with uid := d.uid, gid := d.gid, mode := d.mode })
          (fun d0 => rfl) f.dirname]
        exact hsome1
      · show dirMetaView (updateDir st1.db f.dirname _) f.dirname = dirMetaView db f.dirname
        rw [dirMetaView_updateDir_set st1.db f.dirname d.uid d.gid d.mode hsome1, hviewdb]
    have hstep2 : ReadStep db st1 st2M := by
      refine ⟨?_, rfl, rfl, ?_, ?_⟩
      · intro j0 f0 h
        exact h
      · intro dn h
        show (findDir (updateDir st1.db f.dirname _).dirs dn).isSome = true
        rw [findDir_isSome_updateDir st1.db f.dirname
          (fun d0 => { d0 with uid := d.uid, gid := d.gid, mode := d.mode })
          (fun d0 => rfl) dn]
        exact h
      · intro dn h hv
        by_cases hdn : dn = f.dirname
        · subst hdn
          show dirMetaView (updateDir st1.db f.dirname _) f.dirname = dirMetaView db f.dirname
          rw [dirMetaView_updateDir_set st1.db f.dirname d.uid d.gid d.mode hsome1, hviewdb]
        · show dirMetaView (updateDir st1.db f.dirname _) dn = dirMetaView db dn
          rw [dirMetaView_updateDir_of_ne st1.db f.dirname
            (fun d0 => { d0 with uid := d.uid, gid := d.gid, mode := d.mode })
            (fun d0 => rfl) dn hdn]
          exact hv
    obtain ⟨st2, k, hfold, hstepRZ, hpkg2, hdir2, hfile2⟩ :=
      readRZ_spec db st2M bp i f hpkg hinfo rfl
    refine ⟨st2, k, ?_, ?_, hpkg2, hdir2, GoodDir_mono hstepRZ hgood2, hfile2⟩
    · show readFold st (.fdir f.dirname :: .meta d.uid d.gid d.mode ::
        ([.rfile f.filename] ++ _)) (-1) = (st2, none)
      rw [readFold_cons_ok st (.fdir f.dirname) _ (-1) st1 hFst,
          readFold_cons_ok st1 (.meta d.uid d.gid d.mode) _ (-1) st2M hMst]
      exact hfold
    · exact ReadStep_trans hstep1 (ReadStep_trans hstep2 hstepRZ)

/-- Reading back the per-file emission loop of the writer: every written
record is recreated with the same view, owned by the package in progress, and
every written directory's metadata is carried over. -/
theorem readFileLines_spec (idxs : List Nat) :
    ∀ (db : Db) (st : ReadSt) (bp : BuildPkg) (i : PkgInfo) (cur : Option String),
    st.pkg = some bp →
    bp.info = some i →
    (∀ dn, cur = some dn → st.dir = some dn ∧ GoodDir db st dn) →
    (∀ j ∈ idxs, ∃ f : DbFile, db.files[j]? = some f ∧ f.owner.isSome = true ∧
      stripSlash f.dirname = f.dirname ∧ (findDir db.dirs f.dirname).isSome = true) →
    (∀ j0 ∈ bp.owned, (st.db.files[j0]?).isSome = true) →
    ∃ (st2 : ReadSt) (bp2 : BuildPkg),
      readFold st (writeFileLines db idxs cur) (-1) = (st2, none) ∧
      ReadStep db st st2 ∧
      st2.pkg = some bp2 ∧
      bp2.info = some i ∧
      bp2.owned.filterMap (fileView st2.db) =
        bp.owned.filterMap (fileView st.db) ++ idxs.filterMap (fileView db) ∧
      (∀ j0 ∈ bp2.owned, (st2.db.files[j0]?).isSome = true) ∧
      (∀ j ∈ idxs, ∀ f : DbFile, db.files[j]? = some f → GoodDir db st2 f.dirname) := by
  induction idxs with
  | nil =>
    intro db st bp i cur hpkg hinfo hcur hwf hvalid
    refine ⟨st, bp, rfl, ReadStep_refl db st, hpkg, hinfo, ?_, hvalid, ?_⟩
    · rw [List.filterMap_nil, List.append_nil]
    · intro j hj
      exact absurd hj (List.not_mem_nil j)
  | cons j rest ih =>
    intro db st bp i cur hpkg hinfo hcur hwf hvalid
    obtain ⟨f, hfj, hfo, hfc, hfi⟩ := hwf j (by simp)
    have hne : ¬f.owner = none := by
      intro h
      rw [h] at hfo
      cases hfo
    have hW : writeFileLines db (j :: rest) cur =
        ((if cur = some f.dirname then [] else
          match lookupDir db f.dirname with
          | some d => [.fdir f.dirname, .meta d.uid d.gid d.mode]
          | none => [.fdir f.dirname, .meta 0 0 0]) ++
         ([.rfile f.filename] ++
          (match f.csum with | some c => [.zsum c] | none => []))) ++
        writeFileLines db rest (some f.dirname) := by
      rw [writeFileLines]
      simp only [hfj]
      rw [if_neg hne]
      simp only [List.append_assoc]
    obtain ⟨stU, k, hfoldU, hstepU, hpkgU, hdirU, hgoodU, hfileU⟩ :=
      readUnit_spec db st bp i f cur hpkg hinfo hfc hfi (fun hc => hcur f.dirname hc)
    obtain ⟨uF, uP, uI, uS, uM⟩ := hstepU
    have hstepU2 : ReadStep db st stU := ⟨uF, uP, uI, uS, uM⟩
    have hcur2 : ∀ dn, some f.dirname = some dn → stU.dir = some dn ∧ GoodDir db stU dn := by
      intro dn hdn
      have hdn2 : f.dirname = dn := Option.some.inj hdn
      subst hdn2
      exact ⟨hdirU, hgoodU⟩
    have hwf2 : ∀ j2 ∈ rest, ∃ f2 : DbFile, db.files[j2]? = some f2 ∧
        f2.owner.isSome = true ∧ stripSlash f2.dirname = f2.dirname ∧
        (findDir db.dirs f2.dirname).isSome = true := by
      intro j2 hj2
      exact hwf j2 (List.mem_cons_of_mem _ hj2)
    have hvalid2 : ∀ j0 ∈ ({ bp with owned := bp.owned ++ [k] } : BuildPkg).owned,
        (stU.db.files[j0]?).isSome = true := by
      intro j0 hj0
      rcases List.mem_append.mp hj0 with hj0 | hj0
      · obtain ⟨f0, hf0⟩ := Option.isSome_iff_exists.mp (hvalid j0 hj0)
        rw [uF j0 f0 hf0]
        rfl
      · have hj0k : j0 = k := by simpa using hj0
        subst hj0k
        rw [hfileU]
        rfl
    obtain ⟨st2, bp2, hfoldR, hstepR, hpkg2, hinfo2, hviews2, hvalid3, hgood2⟩ :=
      ih db stU { bp with owned := bp.owned ++ [k] } i (some f.dirname)
        hpkgU hinfo hcur2 hwf2 hvalid2
    refine ⟨st2, bp2, ?_, ReadStep_trans hstepU2 hstepR, hpkg2, hinfo2, ?_, hvalid3, ?_⟩
    · have hpre : (readFold st ((if cur = some f.dirname then [] else
          match lookupDir db f.dirname with
          | some d => [.fdir f.dirname, .meta d.uid d.gid d.mode]
          | none => [.fdir f.dirname, .meta 0 0 0]) ++
        ([.rfile f.filename] ++ (match f.csum with
          | some c => [.zsum c] | none => []))) (-1)).2 = none := by
        rw [hfoldU]
      have happ := readFold_append _ (writeFileLines db rest (some f.dirname)) st (-1) hpre
      rw [hW, happ, hfoldU]
      exact hfoldR
    · rw [hviews2]
      show (bp.owned ++ [k]).filterMap (fileView stU.db) ++ rest.filterMap (fileView db) = _
      rw [List.filterMap_append]
      have hold : bp.owned.filterMap (fileView stU.db) =
          bp.owned.filterMap (fileView st.db) := by
        refine List.filterMap_congr ?_
        intro j0 hj0
        obtain ⟨f0, hf0⟩ := Option.isSome_iff_exists.mp (hvalid j0 hj0)
        unfold fileView
        rw [hf0, uF j0 f0 hf0]
      have hfv : fileView stU.db k = some (f.dirname, f.filename, f.csum) := by
        unfold fileView
        rw [hfileU]
        rfl
      have hkview : List.filterMap (fileView stU.db) [k] =
          [(f.dirname, f.filename, f.csum)] := by
        rw [List.filterMap_cons, hfv]
        rfl
      have hjview : fileView db j = some (f.dirname, f.filename, f.csum) := by
        unfold fileView
        rw [hfj]
      rw [hold, hkview, List.filterMap_cons, hjview]
      simp [List.append_assoc]
    · intro j2 hj2 f2 hf2
      rcases List.mem_cons.mp hj2 with hj2 | hj2
      · subst hj2
        have hff : f = f2 := by
          rw [hfj] at hf2
          exact Option.some.inj hf2
        subst hff
        exact GoodDir_mono hstepR hgoodU
      · exact hgood2 j2 hj2 f2 hf2

theorem findPkg_singleton_ne (q : DbPkg) (c2 : Csum) (h : ¬q.info.csum = c2) :
    findPkg [q] c2 = none := by
  unfold findPkg
  rw [List.find?_cons_of_neg]
  · rfl
  · simp [h]

theorem findPkg_singleton_eq (q : DbPkg) (c2 : Csum) (h : q.info.csum = c2) :
    findPkg [q] c2 = some q := by
  unfold findPkg
  rw [List.find?_cons_of_pos]
  simp [h]

/-- Reading back one written package block: the package is re-registered with
the same index entry and owned-file views, appended to the installed list,
while every other package lookup, every preexisting file record and every
carried directory view are untouched. -/
theorem readBlock_spec (db : Db) (st : ReadSt) (c : Csum) (p : DbPkg)
    (hpkg0 : st.pkg = none)
    (hlk : lookupPkg db c = some p)
    (hwfp : ∀ j ∈ p.owned, ∃ f : DbFile, db.files[j]? = some f ∧ f.owner.isSome = true ∧
      stripSlash f.dirname = f.dirname ∧ (findDir db.dirs f.dirname).isSome = true)
    (hfresh : findPkg st.db.packages c = none) :
    ∃ st3 : ReadSt,
      readFold st (writeBlock db c) (-1) = (st3, none) ∧
      st3.pkg = none ∧
      (∀ (j0 : Nat) (f0 : DbFile), st.db.files[j0]? = some f0 → st3.db.files[j0]? = some f0) ∧
      st3.db.installed = st.db.installed ++ [c] ∧
      (∀ dn, GoodDir db st dn → GoodDir db st3 dn) ∧
      (∀ c2, c2 ≠ c → findPkg st3.db.packages c2 = findPkg st.db.packages c2) ∧
      (∃ p2 : DbPkg, findPkg st3.db.packages c = some p2 ∧
        (∀ j0 ∈ p2.owned, (st3.db.files[j0]?).isSome = true) ∧
        pkgView st3.db c = pkgView db c) ∧
      (∀ j ∈ p.owned, ∀ f : DbFile, db.files[j]? = some f → GoodDir db st3 f.dirname) := by
  have hpc : p.info.csum = c := findPkg_eq_csum hlk
  have hWB : writeBlock db c = FdbLine.pkginfo p.info ::
      (writeFileLines db p.owned none ++ [.blank]) := by
    unfold writeBlock
    rw [hlk]
  set st1 : ReadSt := { st with pkg := some { info := some p.info }, dir := none } with hst1
  have hP : readLine st (.pkginfo p.info) (-1) = (st1, none) :=
    readLine_pkginfo st p.info hpkg0
  obtain ⟨st2, bp2, hfoldF, hstepF, hpkg2, hinfo2, hviews, hvalid2, hgood⟩ :=
    readFileLines_spec p.owned db st1 { info := some p.info } p.info none
      rfl rfl (fun dn h => Option.noConfusion h) hwfp
      (fun j0 hj0 => absurd hj0 (List.not_mem_nil j0))
  obtain ⟨fF, pF, iF, sF, mF⟩ := hstepF
  have hfresh2 : findPkg (apk_pkg_set_state st2.db p.info.csum .install).packages
      p.info.csum = none := by
    show findPkg (updatePkgs st2.db.packages p.info.csum
      (fun q => { q with state := PkgState.install })) p.info.csum = none
    rw [findPkg_updatePkgs_self st2.db.packages p.info.csum
      (fun q => { q with state := PkgState.install }) (fun q => rfl)]
    have h0 : findPkg st2.db.packages p.info.csum = none := by
      rw [pF]
      show findPkg st.db.packages p.info.csum = none
      rw [hpc]
      exact hfresh
    rw [h0]
    rfl
  have hfin := finalizePkg_fresh st2.db bp2 p.info hinfo2 hfresh2
  set dbSS : Db := apk_pkg_set_state st2.db p.info.csum .install with hdbSS
  set pkgRec : DbPkg :=
    { info := p.info, repos := repoBits (-1), state := .install, owned := bp2.owned }
    with hpkgRec
  have haddnew := apk_db_pkg_add_new dbSS pkgRec hfresh2
  set st3 : ReadSt := { st2 with db := (apk_db_pkg_add dbSS pkgRec).1, pkg := none } with hst3
  have hBLst : readLine st2 .blank (-1) = (st3, none) := by
    rw [readLine_blank st2 bp2 hpkg2, hfin]
  have hfiles3 : st3.db.files = st2.db.files := by
    show (apk_db_pkg_add dbSS pkgRec).1.files = st2.db.files
    rw [haddnew]
    rfl
  have hdirs3 : st3.db.dirs = st2.db.dirs := by
    show (apk_db_pkg_add dbSS pkgRec).1.dirs = st2.db.dirs
    rw [haddnew]
    rfl
  have hpkgs3 : st3.db.packages = dbSS.packages ++ [{ pkgRec with id := dbSS.pkg_id }] := by
    show (apk_db_pkg_add dbSS pkgRec).1.packages = _
    rw [haddnew]
  have hdbSSfind : ∀ c2, c2 ≠ c → findPkg dbSS.packages c2 = findPkg st.db.packages c2 := by
    intro c2 hne
    show findPkg (updatePkgs st2.db.packages p.info.csum
      (fun q => { q with state := PkgState.install })) c2 = _
    rw [findPkg_updatePkgs_of_ne st2.db.packages p.info.csum c2
      (fun q => { q with state := PkgState.install }) (fun q => rfl)
      (by rw [hpc]; exact hne)]
    rw [pF]
  refine ⟨st3, ?_, rfl, ?_, ?_, ?_, ?_, ?_, ?_⟩
  · rw [hWB]
    rw [readFold_cons_ok st (.pkginfo p.info) _ (-1) st1 hP]
    have hpre : (readFold st1 (writeFileLines db p.owned none) (-1)).2 = none := by
      rw [hfoldF]
    have happ := readFold_append (writeFileLines db p.owned none) [.blank] st1 (-1) hpre
    rw [happ, hfoldF]
    show readFold st2 [.blank] (-1) = (st3, none)
    rw [readFold_cons_ok st2 .blank [] (-1) st3 hBLst]
    rfl
  · intro j0 f0 h
    rw [hfiles3]
    exact fF j0 f0 h
  · have h1 : st3.db.installed = dbSS.installed := by
      show (apk_db_pkg_add dbSS pkgRec).1.installed = dbSS.installed
      rw [haddnew]
    rw [h1]
    show st2.db.installed ++ [p.info.csum] = st.db.installed ++ [c]
    rw [iF, hpc]
  · intro dn hg
    have hg2 : GoodDir db st2 dn := ⟨sF dn hg.1, mF dn hg.1 hg.2⟩
    refine ⟨?_, ?_⟩
    · show (findDir st3.db.dirs dn).isSome = true
      rw [hdirs3]
      exact hg2.1
    · show (findDir st3.db.dirs dn).map _ = _
      rw [hdirs3]
      exact hg2.2
  · intro c2 hne
    have hrecne : ¬({ pkgRec with id := dbSS.pkg_id } : DbPkg).info.csum = c2 := by
      show ¬p.info.csum = c2
      rw [hpc]
      exact fun he => hne he.symm
    rcases h4 : findPkg dbSS.packages c2 with _ | q
    · have h5 : findPkg st3.db.packages c2 = none := by
        rw [hpkgs3, findPkg_append_none h4]
        exact findPkg_singleton_ne _ c2 hrecne
      rw [h5, ← hdbSSfind c2 hne, h4]
    · have h5 : findPkg st3.db.packages c2 = some q := by
        rw [hpkgs3]
        exact findPkg_append_some h4
      rw [h5, ← hdbSSfind c2 hne, h4]
  · have h5 : findPkg dbSS.packages c = none := by
      rw [← hpc]
      exact hfresh2
    have h6 : findPkg st3.db.packages c = some { pkgRec with id := dbSS.pkg_id } := by
      rw [hpkgs3, findPkg_append_none h5]
      exact findPkg_singleton_eq _ c (by show p.info.csum = c; exact hpc)
    refine ⟨{ pkgRec with id := dbSS.pkg_id }, h6, ?_, ?_⟩
    · intro j0 hj0
      have hj02 : j0 ∈ bp2.owned := hj0
      obtain ⟨f0, hf0⟩ := Option.isSome_iff_exists.mp (hvalid2 j0 hj02)
      rw [hfiles3, hf0]
      rfl
    · unfold pkgView
      show (match findPkg st3.db.packages c with
            | some q => some (q.info, q.owned.filterMap (fileView st3.db))
            | none => none) = _
      rw [h6, hlk]
      show some (p.info, bp2.owned.filterMap (fileView st3.db)) =
        some (p.info, p.owned.filterMap (fileView db))
      have hfv3 : bp2.owned.filterMap (fileView st3.db) =
          bp2.owned.filterMap (fileView st2.db) := by
        refine List.filterMap_congr ?_
        intro j0 hj0
        unfold fileView
        rw [hfiles3]
      rw [hfv3, hviews]
      rw [List.filterMap_nil]
      rfl
  · intro j hj f hf
    have hg2 := hgood j hj f hf
    refine ⟨?_, ?_⟩
    · show (findDir st3.db.dirs f.dirname).isSome = true
      rw [hdirs3]
      exact hg2.1
    · show (findDir st3.db.dirs f.dirname).map _ = _
      rw [hdirs3]
      exact hg2.2

/-- Reading back the writer's block sequence for a duplicate-free list of
installed packages: each package is re-registered with its views intact, the
installed list is reproduced in order, and everything established before is
preserved. -/
theorem readBlocks_spec (cs : List Csum) :
    ∀ (db : Db) (st : ReadSt),
    st.pkg = none →
    cs.Nodup →
    (∀ c ∈ cs, ∃ p : DbPkg, lookupPkg db c = some p ∧
      ∀ j ∈ p.owned, ∃ f : DbFile, db.files[j]? = some f ∧ f.owner.isSome = true ∧
        stripSlash f.dirname = f.dirname ∧ (findDir db.dirs f.dirname).isSome = true) →
    (∀ c ∈ cs, findPkg st.db.packages c = none) →
    ∃ st2 : ReadSt,
      readFold st (cs.foldr (fun c acc => writeBlock db c ++ acc) []) (-1) = (st2, none) ∧
      st2.db.installed = st.db.installed ++ cs ∧
      (∀ (j0 : Nat) (f0 : DbFile), st.db.files[j0]? = some f0 → st2.db.files[j0]? = some f0) ∧
      (∀ dn, GoodDir db st dn → GoodDir db st2 dn) ∧
      (∀ c2, c2 ∉ cs → findPkg st2.db.packages c2 = findPkg st.db.packages c2) ∧
      (∀ c ∈ cs, pkgView st2.db c = pkgView db c) ∧
      (∀ c ∈ cs, ∀ p : DbPkg, lookupPkg db c = some p →
        ∀ j ∈ p.owned, ∀ f : DbFile, db.files[j]? = some f → GoodDir db st2 f.dirname) := by
  induction cs with
  | nil =>
    intro db st hpkg0 _ _ _
    refine ⟨st, rfl, by rw [List.append_nil], fun _ _ h => h, fun _ h => h,
      fun _ _ => rfl, ?_, ?_⟩
    · intro c hc
      exact absurd hc (List.not_mem_nil c)
    · intro c hc
      exact absurd hc (List.not_mem_nil c)
  | cons c cs ih =>
    intro db st hpkg0 hnd hwfAll hfreshAll
    obtain ⟨p, hlk, hwfp⟩ := hwfAll c (by simp)
    have hnotin : c ∉ cs := (List.nodup_cons.mp hnd).1
    obtain ⟨stB, hfoldB, hpkgB, hfB, hinstB, hgdB, hfindB, ⟨p2, hp2find, hp2valid, hp2view⟩,
        hgoodB⟩ :=
      readBlock_spec db st c p hpkg0 hlk hwfp (hfreshAll c (by simp))
    have hfresh2 : ∀ c2 ∈ cs, findPkg stB.db.packages c2 = none := by
      intro c2 hc2
      rw [hfindB c2 (fun he => hnotin (he ▸ hc2))]
      exact hfreshAll c2 (List.mem_cons_of_mem _ hc2)
    obtain ⟨st2, hfoldR, hinstR, hfR, hgdR, hfindR, hviewR, hgoodR⟩ :=
      ih db stB hpkgB (List.nodup_cons.mp hnd).2
        (fun c2 hc2 => hwfAll c2 (List.mem_cons_of_mem _ hc2)) hfresh2
    refine ⟨st2, ?_, ?_, ?_, ?_, ?_, ?_, ?_⟩
    · show readFold st (writeBlock db c ++ _) (-1) = (st2, none)
      have hpre : (readFold st (writeBlock db c) (-1)).2 = none := by
        rw [hfoldB]
      have happ := readFold_append (writeBlock db c)
        (cs.foldr (fun c2 acc => writeBlock db c2 ++ acc) []) st (-1) hpre
      rw [happ, hfoldB]
      exact hfoldR
    · rw [hinstR, hinstB]
      simp
    · intro j0 f0 h
      exact hfR j0 f0 (hfB j0 f0 h)
    · intro dn hg
      exact hgdR dn (hgdB dn hg)
    · intro c2 hc2
      rw [hfindR c2 (fun he => hc2 (List.mem_cons_of_mem _ he)),
          hfindB c2 (fun he => hc2 (he ▸ List.mem_cons_self c cs))]
    · intro c2 hc2
      rcases List.mem_cons.mp hc2 with hc2 | hc2
      · subst hc2
        have hfind2 : findPkg st2.db.packages c2 = some p2 := by
          rw [hfindR c2 hnotin]
          exact hp2find
        have hviews : p2.owned.filterMap (fileView st2.db) =
            p2.owned.filterMap (fileView stB.db) := by
          refine List.filterMap_congr ?_
          intro j0 hj0
          obtain ⟨f0, hf0⟩ := Option.isSome_iff_exists.mp (hp2valid j0 hj0)
          unfold fileView
          rw [hf0, hfR j0 f0 hf0]
        show (match findPkg st2.db.packages c2 with
              | some q => some (q.info, q.owned.filterMap (fileView st2.db))
              | none => none) = pkgView db c2
        rw [hfind2]
        have hBview : pkgView stB.db c2 = pkgView db c2 := hp2view
        rw [← hBview]
        show some (p2.info, p2.owned.filterMap (fileView st2.db)) =
          (match findPkg stB.db.packages c2 with
           | some q => some (q.info, q.owned.filterMap (fileView stB.db))
           | none => none)
        rw [hp2find, hviews]
      · exact hviewR c2 hc2
    · intro c2 hc2 p3 hp3 j hj f hf
      rcases List.mem_cons.mp hc2 with hc2 | hc2
      · subst hc2
        have hp3p : p3 = p := by
          rw [hlk] at hp3
          exact Option.some.inj hp3.symm
        subst hp3p
        exact hgdR f.dirname (hgoodB j hj f hf)
      · exact hgoodR c2 hc2 p3 hp3 j hj f hf

/-! ## C1: the FDB round trip -/

/-- Well-formedness of a database about to be serialized: installed checksums
are distinct and registered, and every owned-file index of an installed
package resolves to a file record with an owner, a canonical (slash-free as
stored by `apk_db_dir_get`) directory name, and an interned directory. -/
def FdbWf (db : Db) : Prop :=
  db.installed.Nodup ∧
  ∀ c ∈ db.installed, ∃ p : DbPkg, lookupPkg db c = some p ∧
    ∀ j ∈ p.owned, ∃ f : DbFile, db.files[j]? = some f ∧ f.owner.isSome = true ∧
      stripSlash f.dirname = f.dirname ∧ (findDir db.dirs f.dirname).isSome = true

/-- **C1** (corrected): reading `apk_db_write_fdb db` back into an empty
database with `apk_db_index_read` (repo = -1) succeeds (no error, return 0)
and reconstructs the installed-package list exactly, each installed package's
index entry and owned files (directory, basename, valid checksum) in order,
and the metadata (uid, gid, mode) of every directory that holds at least one
installed file.  The spec's unrestricted directory-metadata clause is false:
a directory record that owns no file directly (for example a parent whose
files all live in a subdirectory) is never emitted by the writer, so its
uid/gid/mode are not preserved — see the counterexample. -/
theorem c1_fdb_roundtrip (db : Db) (hwf : FdbWf db) :
    (apk_db_index_read emptyDb (apk_db_write_fdb db) (-1)).2 = none ∧
    apk_db_index_read_ret emptyDb (apk_db_write_fdb db) (-1) = 0 ∧
    (apk_db_index_read emptyDb (apk_db_write_fdb db) (-1)).1.installed = db.installed ∧
    (∀ c ∈ db.installed,
      pkgView (apk_db_index_read emptyDb (apk_db_write_fdb db) (-1)).1 c = pkgView db c) ∧
    (∀ c ∈ db.installed, ∀ p : DbPkg, lookupPkg db c = some p →
      ∀ j ∈ p.owned, ∀ f : DbFile, db.files[j]? = some f →
        dirMetaView (apk_db_index_read emptyDb (apk_db_write_fdb db) (-1)).1 f.dirname =
          dirMetaView db f.dirname) := by
  obtain ⟨hnd, hown⟩ := hwf
  obtain ⟨st2, hfold, hinst, _, _, _, hview, hgood⟩ :=
    readBlocks_spec db.installed db { db := emptyDb } rfl hnd hown (fun _ _ => rfl)
  have hfold2 : readFold ({ db := emptyDb } : ReadSt) (apk_db_write_fdb db) (-1) =
      (st2, none) := hfold
  have hr : apk_db_index_read emptyDb (apk_db_write_fdb db) (-1) = (st2.db, none) := by
    show ((readFold ({ db := emptyDb } : ReadSt) (apk_db_write_fdb db) (-1)).1.db,
        (readFold ({ db := emptyDb } : ReadSt) (apk_db_write_fdb db) (-1)).2) = (st2.db, none)
    rw [hfold2]
  refine ⟨by rw [hr], ?_, ?_, ?_, ?_⟩
  · unfold apk_db_index_read_ret
    rw [hr]
    rfl
  · rw [hr]
    show st2.db.installed = db.installed
    rw [hinst]
    rfl
  · intro c hc
    rw [hr]
    exact hview c hc
  · intro c hc p hp j hj f hf
    rw [hr]
    obtain ⟨-, hm⟩ := hgood c hc p hp j hj f hf
    exact hm

/-- A database (itself produced by the reader, so canonically formed) in which
directory "d" carries metadata (7, 8, 9) but holds no file directly: the
installed package's only file lives in subdirectory "d/s". -/
def c1CtxLines : List FdbLine :=
  [FdbLine.pkginfo { name := "pk", version := "1", csum := 6 }, FdbLine.fdir "d",
   FdbLine.meta 7 8 9, FdbLine.fdir "d/s", FdbLine.rfile "x", FdbLine.zsum 3,
   FdbLine.blank]

def c1CtxDb : Db := (apk_db_index_read emptyDb c1CtxLines (-1)).1

def c1RoundDb : Db := (apk_db_index_read emptyDb (apk_db_write_fdb c1CtxDb) (-1)).1

/-- The spec's unrestricted round-trip claim fails on directory metadata: the
writer emits `F`/`M` lines only for directories in which an owned file sits
directly, so after write + read the uid/gid/mode of "d" — re-interned merely
as the parent of "d/s" — have degraded from (7, 8, 9) to the defaults. -/
theorem fdb_roundtrip_counterexample :
    (apk_db_index_read emptyDb c1CtxLines (-1)).2 = none ∧
    dirMetaView c1CtxDb "d" = some (7, 8, 9) ∧
    (apk_db_index_read emptyDb (apk_db_write_fdb c1CtxDb) (-1)).2 = none ∧
    dirMetaView c1RoundDb "d" = some (0, 0, 0) := by
  refine ⟨by decide, by decide, by decide, by decide⟩

/-- A concrete well-formed database: one installed package "w" (checksum 8)
owning file "e/a" with valid checksum 4, directory "e" carrying metadata. -/
def c1WitnessDb : Db :=
  { files := [{ dirname := "e", filename := "a", csum := some 4,
                owner := some { csum := 8, name := "w" } }],
    dirs := [{ dirname := "e", uid := 1, gid := 2, mode := 3, refs := 1, files := [0] },
             { dirname := "" }],
    packages := [{ info := { name := "w", version := "1", csum := 8 },
                   state := PkgState.install, owned := [0] }],
    installed := [8] }

def c1WitnessPkg : DbPkg :=
  { info := { name := "w", version := "1", csum := 8 },
    state := PkgState.install, owned := [0] }

theorem c1_fdb_roundtrip_witness :
    FdbWf c1WitnessDb ∧
    (apk_db_index_read emptyDb (apk_db_write_fdb c1WitnessDb) (-1)).2 = none ∧
    (apk_db_index_read emptyDb (apk_db_write_fdb c1WitnessDb) (-1)).1.installed = [8] ∧
    pkgView (apk_db_index_read emptyDb (apk_db_write_fdb c1WitnessDb) (-1)).1 8 =
      pkgView c1WitnessDb 8 ∧
    dirMetaView (apk_db_index_read emptyDb (apk_db_write_fdb c1WitnessDb) (-1)).1 "e" =
      dirMetaView c1WitnessDb "e" := by
  have hwf : FdbWf c1WitnessDb := by
    refine ⟨by decide, ?_⟩
    intro c hc
    have hc8 : c = 8 := by
      have hc2 : c ∈ ([8] : List Csum) := hc
      simpa using hc2
    subst hc8
    refine ⟨c1WitnessPkg, by decide, ?_⟩
    intro j hj
    have hj0 : j = 0 := by
      have hj2 : j ∈ ([0] : List Nat) := hj
      simpa using hj2
    subst hj0
    exact ⟨{ dirname := "e", filename := "a", csum := some 4,
             owner := some { csum := 8, name := "w" } }, by decide, by decide,
           by decide, by decide⟩
  have h := c1_fdb_roundtrip c1WitnessDb hwf
  have hfile : c1WitnessDb.files[0]? =
      some { dirname := "e", filename := "a", csum := some 4,
             owner := some { csum := 8, name := "w" } } := by decide
  exact ⟨hwf, h.1, h.2.2.1, h.2.2.2.1 8 (by decide),
    h.2.2.2.2 8 (by decide) c1WitnessPkg (by decide) 0 (by decide) _ hfile⟩
